import Mathlib

/-!
# Halide benchmark pipelines

A shallow embedding of the image-processing pipelines of the benchmark suite
(`Gaussian`, `Laplace`, `ImageEnhance`, `ImagePyramid`, `ImageMosaics`,
`Bilateral`, `NightFilter`, `NightFilterPipeline`, `ShiTomasiFeature`,
`ReduceSum`, `Unsharp`) and proofs about them.

Conventions of the embedding.

* A Halide `Func` of two `Var`s is a total function `Int → Int → α`.
* A `float` value is the rational it denotes (`ℚ`); infinities and NaN are
  not represented, and a division by zero yields `0` as in Mathlib.  The
  definitions named after a source function (`GaussBlur`, `Bilateral`, ...)
  read its `float` operations in exact arithmetic.  The definitions with the
  suffix `32`, and `AtrousFilter`, read them in IEEE binary32: every
  operation is followed by `fl32`, the rounding to the nearest `float`, and
  the operations are taken one by one in the order of the source (no fused
  or reassociated operations).
* `uint32` values are naturals below `2 ^ 32`; shifts and casts reduce
  modulo `2 ^ 32` explicitly.
* `int32` values are integers; every `int32` addition, subtraction and
  multiplication is reduced to `[-2 ^ 31, 2 ^ 31)` by `wrap32`
  (two's-complement wraparound), and `int32` division is Halide's, rounding
  towards minus infinity.
* Integer `/` and `%` on coordinates are Halide's: rounding towards minus
  infinity with a non-negative remainder, which for the divisor `2` is
  `Int.ediv` and `Int.emod`, the meaning of `/` and `%` on `Int`.
* An update definition `g(x, y) += e` over an `RDom` with no pure definition
  starts from `0` and runs the reduction loops with the first reduction
  variable innermost.
-/

namespace Halide

/-- A `Func` over the two pure variables `x` and `y`. -/
abbrev Func (α : Type) := Int → Int → α

/-- A two-dimensional `Buffer<T>` with minimum coordinate `0` on both axes:
`width()`, `height()` and the stored elements. Only the elements with
`0 ≤ x < width` and `0 ≤ y < height` belong to the buffer. -/
structure Buffer (α : Type) where
  width : Nat
  height : Nat
  pix : Int → Int → α

namespace Buffer

variable {α : Type}

/-- The coordinate `(x, y)` lies inside the allocated rectangle. -/
def inBounds (b : Buffer α) (x y : Int) : Bool :=
  decide (0 ≤ x ∧ x < (b.width : Int) ∧ 0 ≤ y ∧ y < (b.height : Int))

/-- A checked element read: `none` outside the allocated rectangle. -/
def get? (b : Buffer α) (x y : Int) : Option α :=
  if b.inBounds x y then some (b.pix x y) else none

/-- The sum of all taps of a kernel buffer. -/
def tapSum (b : Buffer ℚ) : ℚ :=
  ∑ j in Finset.range b.height, ∑ i in Finset.range b.width, b.pix (i : Int) (j : Int)

end Buffer

/-- Halide's `clamp(a, lo, hi)`, which is `max(min(a, hi), lo)`. -/
def clamp (a lo hi : Int) : Int := max (min a hi) lo

/-- `BoundaryConditions::repeat_edge(input)` for a two-dimensional buffer:
each coordinate is clamped to `[0, extent - 1]` before the read. -/
def repeat_edge {α : Type} (input : Buffer α) : Func α := fun x y =>
  input.pix (clamp x 0 ((input.width : Int) - 1)) (clamp y 0 ((input.height : Int) - 1))

/-- The loop nest of an update `g(x, y) += e(dom.x, dom.y)` over
`RDom dom(mask)`, for a `Func` without pure definition: the accumulator
starts at `0`; `dom.y` is the outer loop, `dom.x` the inner one, each running
over `0 .. extent - 1`. -/
def accumulate {α : Type} (mask : Buffer α) (e : Int → Int → ℚ) : ℚ :=
  (List.range mask.height).foldl
    (fun (acc : ℚ) (ry : Nat) =>
      (List.range mask.width).foldl (fun (acc : ℚ) (rx : Nat) => acc + e (rx : Int) (ry : Int)) acc)
    0

/-- The points of a `kw × kh` reduction domain listed in row-major order
(`x` fastest). -/
def rowMajor (kw kh : Nat) : List (Int × Int) :=
  ((List.range kh).map
    (fun (j : Nat) => (List.range kw).map (fun (i : Nat) => ((i : Int), (j : Int))))).flatten

/-- The reference windowed sum `Σ_{d ∈ domain} f(coords + d) · K(d)` of the
specification, accumulated from `0` along the row-major listing of the
domain. -/
def convRef (kw kh : Nat) (K : Int → Int → ℚ) (f : Func ℚ) : Func ℚ := fun x y =>
  (rowMajor kw kh).foldl (fun acc d => acc + f (x + d.1) (y + d.2) * K d.1 d.2) 0

end Halide

/-! ## `float` arithmetic -/

namespace Halide

/-- Rounding of a rational to the nearest integer, ties to the even one. -/
def roundNE (r : ℚ) : Int :=
  let f := ⌊r⌋
  if r - f < 1 / 2 then f
  else if 1 / 2 < r - f then f + 1
  else if f % 2 = 0 then f else f + 1

/-- Halving `n` until it is below `2`, counting the steps (at most `fuel`). -/
def ilog2Aux : Nat → Nat → Nat
  | 0, _ => 0
  | fuel + 1, n => if n < 2 then 0 else ilog2Aux fuel (n / 2) + 1

/-- The position of the leading bit of `n`: `⌊log₂ n⌋` for `n > 0`. -/
def ilog2 (n : Nat) : Nat := ilog2Aux n n

/-- The binade of a non-zero rational `q`: the exponent `e` with
`2 ^ e ≤ |q| < 2 ^ (e + 1)`. -/
def binade (q : ℚ) : Int :=
  let e0 : Int := (ilog2 q.num.natAbs : Int) - (ilog2 q.den : Int)
  if (2 : ℚ) ^ e0 ≤ |q| then e0 else e0 - 1

/-- The `float` (IEEE binary32) nearest to `q`, ties to even: `q` is rounded
to a multiple of `2 ^ (e - 23)`, where `e` is its binade, or to a multiple of
`2 ^ (-149)` below the normal range (gradual underflow).  The exponent range
is not bounded above: overflow to infinity is not represented. -/
def fl32 (q : ℚ) : ℚ :=
  if q = 0 then 0
  else
    let k := max (binade q) (-126) - 23
    (roundNE (q / (2 : ℚ) ^ k) : ℚ) * (2 : ℚ) ^ k

/-- The loop nest of `accumulate` for a `float` `Func`: the accumulator
starts at `0` and every addition is rounded. -/
def accumulate32 {α : Type} (mask : Buffer α) (e : Int → Int → ℚ) : ℚ :=
  (List.range mask.height).foldl
    (fun (acc : ℚ) (ry : Nat) =>
      (List.range mask.width).foldl
        (fun (acc : ℚ) (rx : Nat) => fl32 (acc + e (rx : Int) (ry : Int))) acc)
    0

/-- A `Buffer<float>` filled from a table of decimal literals (`0.111111f`,
...): each element is the `float` nearest to the decimal. -/
def Buffer.toFloat32 (b : Buffer ℚ) : Buffer ℚ :=
  { width := b.width, height := b.height, pix := fun x y => fl32 (b.pix x y) }

end Halide

open Halide

/-! ## `Gaussian/main_cuda.cpp` -/

namespace Gaussian

/-- `PipelineClass::GaussBlur`: `blur(x, y) += f(x + dom.x, y + dom.y) *
maskGaus(dom.x, dom.y)` over `RDom dom(maskGaus)`. -/
def GaussBlur (maskGaus : Buffer ℚ) (f : Func ℚ) : Func ℚ := fun x y =>
  accumulate maskGaus (fun rx ry => f (x + rx) (y + ry) * maskGaus.pix rx ry)

/-- The constructor's `output(x, y) = GaussBlur(gray)(x, y)` with
`gray = repeat_edge(input)`. -/
def output (input maskGaus : Buffer ℚ) : Func ℚ :=
  GaussBlur maskGaus (repeat_edge input)

/-- The 3x3 kernel with `1` at the centre tap `(1, 1)` and `0` elsewhere. -/
def identityKernel : Buffer ℚ :=
  { width := 3, height := 3, pix := fun i j => if i = 1 ∧ j = 1 then 1 else 0 }

/-- The 3x3 kernel with every tap `0`. -/
def zeroKernel : Buffer ℚ := { width := 3, height := 3, pix := fun _ _ => 0 }

/-- A 4x4 ramp image, `input(x, y) = x`. -/
def rampImage : Buffer ℚ := { width := 4, height := 4, pix := fun x _ => (x : ℚ) }

end Gaussian

/-! ## `Laplace/main_cuda.cpp` -/

set_option linter.dupNamespace false

namespace Laplace

/-- `PipelineClass::Laplace`: the same windowed accumulation over
`RDom dom(maskDoG)`; the `unsigned char` samples of `f` are converted to
`float` by the multiplication with the mask. -/
def Laplace (maskDoG : Buffer ℚ) (f : Func Nat) : Func ℚ := fun x y =>
  accumulate maskDoG (fun rx ry => (f (x + rx) (y + ry) : ℚ) * maskDoG.pix rx ry)

end Laplace

/-! ## `ImageEnhance/main_cuda.cpp` -/

namespace ImageEnhance

/-- `PipelineClass::AverageFilter`: `avg(x, y) += f(x + dom.x, y + dom.y) *
maskAvg(dom.x, dom.y)` over `RDom dom(maskAvg)`. -/
def AverageFilter (maskAvg : Buffer ℚ) (f : Func ℚ) : Func ℚ := fun x y =>
  accumulate maskAvg (fun rx ry => f (x + rx) (y + ry) * maskAvg.pix rx ry)

/-- The constructor's `avgImg[n](x, y) = AverageFilter(gray)(x, y)` with
`gray = repeat_edge(input)`; every `n` gets the same definition. -/
def avgImg (input maskAvg : Buffer ℚ) (_n : Nat) : Func ℚ :=
  AverageFilter maskAvg (repeat_edge input)

/-- The 3x3 box kernel with every tap `1/9`. -/
def boxKernel : Buffer ℚ := { width := 3, height := 3, pix := fun _ _ => 1 / 9 }

/-- A 4x4 buffer holding `10.0` everywhere. -/
def flatImage : Buffer ℚ := { width := 4, height := 4, pix := fun _ _ => 10 }

end ImageEnhance

/-! ## `ImagePyramid/main_cuda.cpp` -/

namespace ImagePyramid

/-- The local `blur` of `downsample`: `blur(x, y) += f(x + dom.x, y + dom.y) *
maskGaus(dom.x, dom.y)` over `RDom dom(maskGaus)`. -/
def blur (maskGaus : Buffer ℚ) (f : Func ℚ) : Func ℚ := fun x y =>
  accumulate maskGaus (fun rx ry => f (x + rx) (y + ry) * maskGaus.pix rx ry)

/-- `PipelineClass::downsample`: `subsample(x, y) = blur(2 * x, 2 * y)`. -/
def downsample (maskGaus : Buffer ℚ) (f : Func ℚ) : Func ℚ := fun x y =>
  blur maskGaus f (2 * x) (2 * y)

/-- The local `upx` of `upsample`. -/
def upx (f : Func ℚ) : Func ℚ := fun x y =>
  0.25 * f ((x / 2) - 1 + 2 * (x % 2)) y + 0.75 * f (x / 2) y

/-- `PipelineClass::upsample`, the local `upy` that it returns. -/
def upsample (f : Func ℚ) : Func ℚ := fun x y =>
  0.25 * upx f x ((y / 2) - 1 + 2 * (y % 2)) + 0.75 * upx f x (y / 2)

/-- `PipelineClass::bilateral`. Halide's `exp` is the parameter `expf`. -/
def bilateral (expf : ℚ → ℚ) (mask : Buffer ℚ) (sigma_s : ℚ) (f : Func ℚ) : Func ℚ := fun x y =>
  let c_r : ℚ := 0.5 / (sigma_s * sigma_s)
  let s : Int → Int → ℚ := fun rx ry =>
    expf ((f (x + rx) (y + ry) - f x y) * (f (x + rx) (y + ry) - f x y) * -c_r) * mask.pix rx ry
  let d : ℚ := accumulate mask s
  let p : ℚ := accumulate mask (fun rx ry => s rx ry * f (x + rx) (y + ry))
  p / d + 0.5

/-- `gPyramid[j]`: level `0` is `gray = repeat_edge(input)`, level `j` is
`downsample(gPyramid[j - 1])`. -/
def gPyramid (input maskGaus : Buffer ℚ) : Nat → Func ℚ
  | 0 => repeat_edge input
  | j + 1 => downsample maskGaus (gPyramid input maskGaus j)

/-- `lPyramid[j]` for `j < LEVEL`: the top level is `gPyramid[LEVEL - 1]`,
the loop defines level `j ≤ LEVEL - 2` as
`gPyramid[j] - upsample(gPyramid[j + 1])`. -/
def lPyramid (LEVEL : Nat) (input maskGaus : Buffer ℚ) (j : Nat) : Func ℚ :=
  if j = LEVEL - 1 then gPyramid input maskGaus (LEVEL - 1)
  else fun x y => gPyramid input maskGaus j x y - upsample (gPyramid input maskGaus (j + 1)) x y

/-- `BLPyramid[j]` for `j < LEVEL`: level `0` is `lPyramid[0]`, every other
level is `bilateral(lPyramid[j])`. -/
def BLPyramid (expf : ℚ → ℚ) (LEVEL : Nat) (input mask maskGaus : Buffer ℚ) (sigma_s : ℚ)
    (j : Nat) : Func ℚ :=
  if j = 0 then lPyramid LEVEL input maskGaus 0
  else bilateral expf mask sigma_s (lPyramid LEVEL input maskGaus j)

/-- `outLPyramid[j]` for `j < LEVEL`: the top level is `BLPyramid[LEVEL - 1]`,
the loop defines level `j ≤ LEVEL - 2` as
`upsample(BLPyramid[j + 1]) + BLPyramid[j] * 0.5`. -/
def outLPyramid (expf : ℚ → ℚ) (LEVEL : Nat) (input mask maskGaus : Buffer ℚ) (sigma_s : ℚ)
    (j : Nat) : Func ℚ :=
  if j = LEVEL - 1 then BLPyramid expf LEVEL input mask maskGaus sigma_s (LEVEL - 1)
  else fun x y =>
    upsample (BLPyramid expf LEVEL input mask maskGaus sigma_s (j + 1)) x y
      + BLPyramid expf LEVEL input mask maskGaus sigma_s j x y * 0.5

/-- The constructor's `output(x, y) = outLPyramid[0](x, y)`. -/
def output (expf : ℚ → ℚ) (LEVEL : Nat) (input mask maskGaus : Buffer ℚ) (sigma_s : ℚ) : Func ℚ :=
  outLPyramid expf LEVEL input mask maskGaus sigma_s 0

/-- The value of `#define LEVEL`. -/
def LEVEL : Nat := 8

/-- The table `coefGaus` of `main`, row by row. -/
def coefGaus : List (List ℚ) :=
  [[0.057118, 0.124758, 0.057118],
   [0.124758, 0.272496, 0.124758],
   [0.057118, 0.124758, 0.057118]]

/-- The buffer `maskg` filled by `main`: `maskg(x, y) = coefGaus[x][y]`. -/
def maskg : Buffer ℚ :=
  { width := 3, height := 3, pix := fun x y => (coefGaus.getD x.toNat []).getD y.toNat 0 }

end ImagePyramid

/-! ## `ImageMosaics/main_cuda.cpp` -/

namespace ImageMosaics

/-- The local `blur` of `downsample`, over `RDom dom(mask)`. -/
def blur (mask : Buffer ℚ) (f : Func ℚ) : Func ℚ := fun x y =>
  accumulate mask (fun rx ry => f (x + rx) (y + ry) * mask.pix rx ry)

/-- `PipelineClass::downsample`: `subsample(x, y) = blur(2 * x, 2 * y)`. -/
def downsample (mask : Buffer ℚ) (f : Func ℚ) : Func ℚ := fun x y =>
  blur mask f (2 * x) (2 * y)

/-- The local `upx` of `upsample`. -/
def upx (f : Func ℚ) : Func ℚ := fun x y =>
  0.25 * f ((x / 2) - 1 + 2 * (x % 2)) y + 0.75 * f (x / 2) y

/-- `PipelineClass::upsample`, the local `upy` that it returns. -/
def upsample (f : Func ℚ) : Func ℚ := fun x y =>
  0.25 * upx f x ((y / 2) - 1 + 2 * (y % 2)) + 0.75 * upx f x (y / 2)

/-- `PipelineClass::levelMerge`:
`select(x < input1.width() / 2, f1(x, y), f2(x, y))`. -/
def levelMerge (input1 : Buffer ℚ) (f1 f2 : Func ℚ) : Func ℚ := fun x y =>
  if x < ((input1.width / 2 : Nat) : Int) then f1 x y else f2 x y

/-- `gPyramid1[j]`, the Gaussian pyramid of `gray1 = repeat_edge(input1)`. -/
def gPyramid1 (input1 mask : Buffer ℚ) : Nat → Func ℚ
  | 0 => repeat_edge input1
  | j + 1 => downsample mask (gPyramid1 input1 mask j)

/-- `lPyramid1[j]` for `j < LEVEL`. -/
def lPyramid1 (LEVEL : Nat) (input1 mask : Buffer ℚ) (j : Nat) : Func ℚ :=
  if j = LEVEL - 1 then gPyramid1 input1 mask (LEVEL - 1)
  else fun x y => gPyramid1 input1 mask j x y - upsample (gPyramid1 input1 mask (j + 1)) x y

/-- `gPyramid2[j]`, the Gaussian pyramid of `gray2 = repeat_edge(input2)`. -/
def gPyramid2 (input2 mask : Buffer ℚ) : Nat → Func ℚ
  | 0 => repeat_edge input2
  | j + 1 => downsample mask (gPyramid2 input2 mask j)

/-- `lPyramid2[j]` for `j < LEVEL`. -/
def lPyramid2 (LEVEL : Nat) (input2 mask : Buffer ℚ) (j : Nat) : Func ℚ :=
  if j = LEVEL - 1 then gPyramid2 input2 mask (LEVEL - 1)
  else fun x y => gPyramid2 input2 mask j x y - upsample (gPyramid2 input2 mask (j + 1)) x y

/-- The merged `lPyramid[j] = levelMerge(lPyramid1[j], lPyramid2[j])`. -/
def lPyramid (LEVEL : Nat) (input1 input2 mask : Buffer ℚ) (j : Nat) : Func ℚ :=
  levelMerge input1 (lPyramid1 LEVEL input1 mask j) (lPyramid2 LEVEL input2 mask j)

/-- `outLPyramid[j]` for `j < LEVEL`: the top level is `lPyramid[LEVEL - 1]`,
the loop defines level `j ≤ LEVEL - 2` as
`upsample(lPyramid[j + 1]) + lPyramid[j] * 0.5`. -/
def outLPyramid (LEVEL : Nat) (input1 input2 mask : Buffer ℚ) (j : Nat) : Func ℚ :=
  if j = LEVEL - 1 then lPyramid LEVEL input1 input2 mask (LEVEL - 1)
  else fun x y =>
    upsample (lPyramid LEVEL input1 input2 mask (j + 1)) x y
      + lPyramid LEVEL input1 input2 mask j x y * 0.5

/-- The constructor's `output(x, y) = outLPyramid[0](x, y)`. -/
def output (LEVEL : Nat) (input1 input2 mask : Buffer ℚ) : Func ℚ :=
  outLPyramid LEVEL input1 input2 mask 0

/-- The value of `#define LEVEL`. -/
def LEVEL : Nat := 8

/-- The table `coef` of `main`, row by row. -/
def coef : List (List ℚ) :=
  [[0.057118, 0.124758, 0.057118],
   [0.124758, 0.272496, 0.124758],
   [0.057118, 0.124758, 0.057118]]

/-- The mask buffer filled by `main`: `mask(x, y) = coef[x][y]`. -/
def mainMask : Buffer ℚ :=
  { width := 3, height := 3, pix := fun x y => (coef.getD x.toNat []).getD y.toNat 0 }

/-- A `WIDTH × HEIGHT` (512 x 512) image holding `c` everywhere. -/
def constImage (c : ℚ) : Buffer ℚ := { width := 512, height := 512, pix := fun _ _ => c }

/-- A 512 x 512 image with a vertical step: `0` on column `0`, `16` elsewhere. -/
def stepImage : Buffer ℚ :=
  { width := 512, height := 512, pix := fun x _ => if x ≤ 0 then 0 else 16 }

end ImageMosaics

/-! ## `NightFilter/main_cuda.cpp` and `NightFilterPipeline/main_cuda.cpp` -/

namespace NightFilter

/-- `cast(UInt(32), e)` of a `float` expression `e ≥ 0`: the fractional part
is dropped and the result is reduced modulo `2 ^ 32`. -/
def castUInt32 (e : ℚ) : Nat := Int.toNat ⌊e⌋ % 2 ^ 32

/-- `PipelineClass::AtrousFilter` (the two files have the same body; in
`NightFilterPipeline` the mask is the member `mask`).  The unpacked channels
are `UInt(32)` expressions and `rin /= 255.0f` keeps the type of its left
operand (the constant is cast to `UInt(32)`): each channel becomes its
unsigned quotient by `255`, and `rd`, `gd`, `bd` and the first `weight` are
`UInt(32)` values with wrap-around.  `xx` and everything after it are
`float` expressions: `weight` and the channels are converted to `float`
where they meet one. -/
def AtrousFilter (mask : Buffer ℚ) (f : Func Nat) : Func Nat := fun x y =>
  -- unpack center
  let val : Nat := f x y
  let rin : Nat := (val &&& 0xff) / 255
  let gin : Nat := ((val >>> 8) &&& 0xff) / 255
  let bin : Nat := ((val >>> 16) &&& 0xff) / 255
  let pixel : Int → Int → Nat := fun rx ry => f (x + rx) (y + ry)
  let rpixel : Int → Int → Nat := fun rx ry => (pixel rx ry &&& 0xff) / 255
  let gpixel : Int → Int → Nat := fun rx ry => ((pixel rx ry >>> 8) &&& 0xff) / 255
  let bpixel : Int → Int → Nat := fun rx ry => ((pixel rx ry >>> 16) &&& 0xff) / 255
  let weight : Int → Int → ℚ := fun rx ry =>
    let rd : Nat := (rpixel rx ry + 2 ^ 32 - rin) % 2 ^ 32
    let gd : Nat := (gpixel rx ry + 2 ^ 32 - gin) % 2 ^ 32
    let bd : Nat := (bpixel rx ry + 2 ^ 32 - bin) % 2 ^ 32
    let weight : Nat := (rd * rd + gd * gd + bd * bd) % 2 ^ 32
    -- Expf 256
    let xx : ℚ := fl32 (1 + fl32 (fl32 (weight : ℚ) / 256))
    let xx := fl32 (xx * xx)
    let xx := fl32 (xx * xx)
    let xx := fl32 (xx * xx)
    let xx := fl32 (xx * xx)
    let xx := fl32 (xx * xx)
    let xx := fl32 (xx * xx)
    let xx := fl32 (xx * xx)
    let xx := fl32 (xx * xx)
    if xx > 1 then 1 else xx
  let sum_weight : ℚ := accumulate32 mask (fun rx ry => fl32 (weight rx ry * mask.pix rx ry))
  let sum_r : ℚ :=
    accumulate32 mask (fun rx ry => fl32 (fl32 (rpixel rx ry : ℚ) * weight rx ry))
  let sum_g : ℚ :=
    accumulate32 mask (fun rx ry => fl32 (fl32 (gpixel rx ry : ℚ) * weight rx ry))
  let sum_b : ℚ :=
    accumulate32 mask (fun rx ry => fl32 (fl32 (bpixel rx ry : ℚ) * weight rx ry))
  let rout : ℚ := fl32 (fl32 (sum_r * 255) / sum_weight)
  let gout : ℚ := fl32 (fl32 (sum_g * 255) / sum_weight)
  let bout : ℚ := fl32 (fl32 (sum_b * 255) / sum_weight)
  let crout : Nat := castUInt32 rout
  let cgout : Nat := (castUInt32 gout <<< 8) % 2 ^ 32
  let cbout : Nat := (castUInt32 bout <<< 16) % 2 ^ 32
  let cwout : Nat := (255 <<< 24) % 2 ^ 32
  crout ||| cgout ||| cbout ||| cwout

/-- The table `coef3` of `main`, row by row. -/
def coef3 : List (List ℚ) :=
  [[0.057118, 0.124758, 0.057118],
   [0.124758, 0.272496, 0.124758],
   [0.057118, 0.124758, 0.057118]]

/-- The buffer `mask3` filled by `main`: `mask3(x, y) = coef3[x][y]`. -/
def mask3 : Buffer ℚ :=
  { width := 3, height := 3, pix := fun x y => (coef3.getD x.toNat []).getD y.toNat 0 }

/-- A uniform packed-pixel image: every pixel is `P`. -/
def uniform (P : Nat) : Func Nat := fun _ _ => P

/-- The result the specification expects of one stage on a uniform image of
pixel `P`: the three colour bytes of `P` under full alpha. -/
def identityApartFromAlpha (P : Nat) : Nat :=
  0xff000000 ||| (P &&& 0xff) ||| (((P >>> 8) &&& 0xff) <<< 8) ||| (((P >>> 16) &&& 0xff) <<< 16)

end NightFilter

/-! ## Checked construction of `Func` arrays -/

namespace Halide

/-- A rational stand-in for Halide's `exp`, used where a concrete function
has to be supplied for the parameter `expf`: `1 / (1 - t)`, which is `1` at
`0` and positive for `t ≤ 0`. -/
def expStandIn (t : ℚ) : ℚ := 1 / (1 - t)

/-- A member array `Func a[size]`: `size` default-constructed `Func`s, each
either still undefined (`none`) or carrying its pure definition. -/
structure FuncArray where
  size : Nat
  elems : Nat → Option (Func ℚ)

namespace FuncArray

/-- The array as declared: no element has a definition yet. -/
def declare (size : Nat) : FuncArray := { size := size, elems := fun _ => none }

/-- The statement `a[j](x, y) = f(x, y)`: it fails when `j` is not an index
of the array or when `a[j]` already has a definition. -/
def define (a : FuncArray) (j : Int) (f : Func ℚ) : Option FuncArray :=
  if 0 ≤ j ∧ j < (a.size : Int) then
    match a.elems j.toNat with
    | none => some { size := a.size, elems := fun i => if i = j.toNat then some f else a.elems i }
    | some _ => none
  else none

/-- The use `a[j](…)` inside an expression: it fails when `j` is not an
index of the array or when `a[j]` has no definition. -/
def call (a : FuncArray) (j : Int) : Option (Func ℚ) :=
  if 0 ≤ j ∧ j < (a.size : Int) then a.elems j.toNat else none

end FuncArray

/-- The values of `j` in `for (int j = 1; j < LEVEL; j++)`. -/
def loopUp (LEVEL : Nat) : List Int :=
  (List.range (LEVEL - 1)).map (fun (k : Nat) => (k : Int) + 1)

/-- The values of `j` in `for (int j = LEVEL - 2; j >= 0; j--)`. -/
def loopDown (LEVEL : Nat) : List Int :=
  (List.range (LEVEL - 1)).reverse.map (fun (k : Nat) => (k : Int))

end Halide

namespace ImagePyramid

/-- The constructor `PipelineClass::PipelineClass` statement by statement,
with every array access checked; the result is the `Func` `output`. -/
def PipelineClass (expf : ℚ → ℚ) (LEVEL : Nat) (input mask maskGaus : Buffer ℚ) (sigma_s : ℚ) :
    Option (Func ℚ) := do
  let gray := repeat_edge input
  let gPyramid ← (FuncArray.declare LEVEL).define 0 gray
  let gPyramid ← (loopUp LEVEL).foldlM
    (fun (g : FuncArray) (j : Int) => do
      let prev ← g.call (j - 1)
      g.define j (downsample maskGaus prev))
    gPyramid
  let top ← gPyramid.call ((LEVEL : Int) - 1)
  let lPyramid ← (FuncArray.declare LEVEL).define ((LEVEL : Int) - 1) top
  let lPyramid ← (loopDown LEVEL).foldlM
    (fun (l : FuncArray) (j : Int) => do
      let gj ← gPyramid.call j
      let gj1 ← gPyramid.call (j + 1)
      l.define j (fun x y => gj x y - upsample gj1 x y))
    lPyramid
  let l0 ← lPyramid.call 0
  let BLPyramid ← (FuncArray.declare LEVEL).define 0 l0
  let BLPyramid ← (loopUp LEVEL).foldlM
    (fun (b : FuncArray) (j : Int) => do
      let lj ← lPyramid.call j
      b.define j (bilateral expf mask sigma_s lj))
    BLPyramid
  let btop ← BLPyramid.call ((LEVEL : Int) - 1)
  let outLPyramid ← (FuncArray.declare LEVEL).define ((LEVEL : Int) - 1) btop
  let outLPyramid ← (loopDown LEVEL).foldlM
    (fun (o : FuncArray) (j : Int) => do
      let bj ← BLPyramid.call j
      let bj1 ← BLPyramid.call (j + 1)
      o.define j (fun x y => upsample bj1 x y + bj x y * 0.5))
    outLPyramid
  outLPyramid.call 0

end ImagePyramid

/-! ## `Bilateral/main_cuda.cpp` -/

namespace Bilateral

/-- `PipelineClass::Bilateral`. Halide's `exp` is the parameter `expf`. -/
def Bilateral (expf : ℚ → ℚ) (mask : Buffer ℚ) (sigma_s : ℚ) (f : Func ℚ) : Func ℚ := fun x y =>
  let c_r : ℚ := 0.5 / (sigma_s * sigma_s)
  let s : Int → Int → ℚ := fun rx ry =>
    expf ((f (x + rx) (y + ry) - f x y) * (f (x + rx) (y + ry) - f x y) * -c_r) * mask.pix rx ry
  let d : ℚ := accumulate mask s
  let p : ℚ := accumulate mask (fun rx ry => s rx ry * f (x + rx) (y + ry))
  p / d + 0.5

/-- The constructor's `output(x, y) = Bilateral(gray)(x, y)` with
`gray = repeat_edge(input)`. -/
def output (expf : ℚ → ℚ) (input mask : Buffer ℚ) (sigma_s : ℚ) : Func ℚ :=
  Bilateral expf mask sigma_s (repeat_edge input)

/-- The 13x13 table `coef` of `main`, row by row. -/
def coef : List (List ℚ) :=
  [[0.018316, 0.033746, 0.055638, 0.082085, 0.108368, 0.128022, 0.135335, 0.128022, 0.108368,
    0.082085, 0.055638, 0.033746, 0.018316],
   [0.033746, 0.062177, 0.102512, 0.151240, 0.199666, 0.235877, 0.249352, 0.235877, 0.199666,
    0.151240, 0.102512, 0.062177, 0.033746],
   [0.055638, 0.102512, 0.169013, 0.249352, 0.329193, 0.388896, 0.411112, 0.388896, 0.329193,
    0.249352, 0.169013, 0.102512, 0.055638],
   [0.082085, 0.151240, 0.249352, 0.367879, 0.485672, 0.573753, 0.606531, 0.573753, 0.485672,
    0.367879, 0.249352, 0.151240, 0.082085],
   [0.108368, 0.199666, 0.329193, 0.485672, 0.641180, 0.757465, 0.800737, 0.757465, 0.641180,
    0.485672, 0.329193, 0.199666, 0.108368],
   [0.128022, 0.235877, 0.388896, 0.573753, 0.757465, 0.894839, 0.945959, 0.894839, 0.757465,
    0.573753, 0.388896, 0.235877, 0.128022],
   [0.135335, 0.249352, 0.411112, 0.606531, 0.800737, 0.945959, 1.000000, 0.945959, 0.800737,
    0.606531, 0.411112, 0.249352, 0.135335],
   [0.128022, 0.235877, 0.388896, 0.573753, 0.757465, 0.894839, 0.945959, 0.894839, 0.757465,
    0.573753, 0.388896, 0.235877, 0.128022],
   [0.108368, 0.199666, 0.329193, 0.485672, 0.641180, 0.757465, 0.800737, 0.757465, 0.641180,
    0.485672, 0.329193, 0.199666, 0.108368],
   [0.082085, 0.151240, 0.249352, 0.367879, 0.485672, 0.573753, 0.606531, 0.573753, 0.485672,
    0.367879, 0.249352, 0.151240, 0.082085],
   [0.055638, 0.102512, 0.169013, 0.249352, 0.329193, 0.388896, 0.411112, 0.388896, 0.329193,
    0.249352, 0.169013, 0.102512, 0.055638],
   [0.033746, 0.062177, 0.102512, 0.151240, 0.199666, 0.235877, 0.249352, 0.235877, 0.199666,
    0.151240, 0.102512, 0.062177, 0.033746],
   [0.018316, 0.033746, 0.055638, 0.082085, 0.108368, 0.128022, 0.135335, 0.128022, 0.108368,
    0.082085, 0.055638, 0.033746, 0.018316]]

/-- The mask buffer filled by `main`: `mask(x, y) = coef[x][y]`. -/
def mainMask : Buffer ℚ :=
  { width := 13, height := 13, pix := fun x y => (coef.getD x.toNat []).getD y.toNat 0 }

/-- The bandwidth `sigma_s = 13` that `main` passes to the constructor. -/
def mainSigma : ℚ := 13

end Bilateral

/-! ## The bilateral reference formula of the specification -/

namespace Halide

/-- The reference formula as the specification words it, for a kernel `W`
over a `kw × kh` domain: `Δ(n) = f(p + n) − f(p)`, `c = 0.5 / σ_s²`,
`weight(n) = exp(−c · Δ(n)²) · W(n)`, `d = Σ weight(n)`,
`num = Σ weight(n) · f(p + n)` and `out = num / d + 0.5`. -/
def bilateralRef (expf : ℚ → ℚ) (kw kh : Nat) (W : Int → Int → ℚ) (sigma_s : ℚ) (f : Func ℚ) :
    Func ℚ := fun x y =>
  let c : ℚ := 0.5 / sigma_s ^ 2
  let Δ : Nat → Nat → ℚ := fun i j => f (x + (i : Int)) (y + (j : Int)) - f x y
  let weight : Nat → Nat → ℚ := fun i j => expf (-(c * Δ i j ^ 2)) * W (i : Int) (j : Int)
  let d : ℚ := ∑ j in Finset.range kh, ∑ i in Finset.range kw, weight i j
  let num : ℚ :=
    ∑ j in Finset.range kh, ∑ i in Finset.range kw, weight i j * f (x + (i : Int)) (y + (j : Int))
  num / d + 0.5

end Halide

/-! ## `NightFilter/main_cuda.cpp`: the photometric weight and `Scoto` -/

namespace NightFilter

/-- The lines under `// Expf 256` in `float` arithmetic: each of the eight
products is rounded. -/
def expf256_32 (xx : ℚ) : ℚ :=
  let xx := fl32 (xx * xx)
  let xx := fl32 (xx * xx)
  let xx := fl32 (xx * xx)
  let xx := fl32 (xx * xx)
  let xx := fl32 (xx * xx)
  let xx := fl32 (xx * xx)
  let xx := fl32 (xx * xx)
  let xx := fl32 (xx * xx)
  xx

/-- The three channels that `AtrousFilter` unpacks from a pixel: the bytes
`val & 0xff`, `(val >> 8) & 0xff`, `(val >> 16) & 0xff`, each divided by
`255` as a `UInt(32)` (the effect of `/= 255.0f` on a `UInt(32)`
expression). -/
def unpack (val : Nat) : Nat × Nat × Nat :=
  ((val &&& 0xff) / 255, ((val >>> 8) &&& 0xff) / 255, ((val >>> 16) &&& 0xff) / 255)

/-- The first `weight` of `AtrousFilter`, for the centre pixel `val` and the
neighbour `pixel`: `rd * rd + gd * gd + bd * bd` with the `UInt(32)`
differences `rd = rpixel - rin`, ..., all with wrap-around. -/
def squaredDifference (val pixel : Nat) : Nat :=
  let rd : Nat := ((unpack pixel).1 + 2 ^ 32 - (unpack val).1) % 2 ^ 32
  let gd : Nat := ((unpack pixel).2.1 + 2 ^ 32 - (unpack val).2.1) % 2 ^ 32
  let bd : Nat := ((unpack pixel).2.2 + 2 ^ 32 - (unpack val).2.2) % 2 ^ 32
  (rd * rd + gd * gd + bd * bd) % 2 ^ 32

/-- The photometric weight of `AtrousFilter` for the `UInt(32)` squared
difference `ss`: `xx = 1.0f + ss / 256.0f`, the eight squarings and
`select(xx > 1.0f, 1.0f, xx)`, in `float` arithmetic. -/
def photometricWeight (ss : Nat) : ℚ :=
  let xx := expf256_32 (fl32 (1 + fl32 (fl32 (ss : ℚ) / 256)))
  if xx > 1 then 1 else xx

/-- The values of the `Expr`s of `Scoto` at one pixel, in the order of their
assignment; a re-assigned `Expr` has one field per assignment. -/
structure ScotoExprs where
  rin : ℚ
  gin : ℚ
  bin : ℚ
  X : ℚ
  Y : ℚ
  Z : ℚ
  V : ℚ
  W : ℚ
  luma : ℚ
  s : ℚ
  x1 : ℚ
  y1 : ℚ
  x1mix : ℚ
  y1mix : ℚ
  Ynew : ℚ
  Xnew : ℚ
  Znew : ℚ
  r : ℚ
  g : ℚ
  b : ℚ
  rhi : ℚ
  rclamp : ℚ
  ghi : ℚ
  gclamp : ℚ
  bhi : ℚ
  bclamp : ℚ

/-- The body of `PipelineClass::Scoto` up to the clamps, for the packed
pixel `val = f(x, y)`. -/
def scotoExprs (val : Nat) : ScotoExprs :=
  -- unpack center
  let rin : ℚ := ((val &&& 0xff : Nat) : ℚ)
  let gin : ℚ := (((val >>> 8) &&& 0xff : Nat) : ℚ)
  let bin : ℚ := (((val >>> 16) &&& 0xff : Nat) : ℚ)
  let X : ℚ := 0.5149 * rin + 0.3244 * gin + 0.1607 * bin
  let Y : ℚ := (0.2654 * rin + 0.6704 * gin + 0.0642 * bin) / 3
  let Z : ℚ := 0.0248 * rin + 0.1248 * gin + 0.8504 * bin
  let V : ℚ := Y * (((((Y + Z) / X) + 1) * 1.33) - 1.68)
  let W : ℚ := X + Y + Z
  let luma : ℚ := 0.2126 * rin + 0.7152 * gin + 0.0722 * bin
  let s : ℚ := 0 -- luma / 2.0f;
  let x1 : ℚ := X / W
  let y1 : ℚ := Y / W
  let x1mix : ℚ := ((1 - s) * 0.25) + (s * x1)
  let y1mix : ℚ := ((1 - s) * 0.25) + (s * y1)
  let Ynew : ℚ := (V * 0.4468 * (1 - s)) + (s * Y)
  let Xnew : ℚ := (x1mix * Ynew) / y1mix
  let Znew : ℚ := (Xnew / y1mix) - Xnew - Ynew
  let r : ℚ := 2.562263 * Xnew + -1.166107 * Ynew + -0.396157 * Znew
  let g : ℚ := -1.021558 * Xnew + 1.977828 * Ynew + 0.043730 * Znew
  let b : ℚ := 0.075196 * Xnew + -0.256248 * Ynew + 1.181053 * Znew
  let rhi : ℚ := if r > 255 then 255 else r
  let rclamp : ℚ := if rhi < 0 then 0 else rhi
  let ghi : ℚ := if g > 255 then 255 else rclamp
  let gclamp : ℚ := if ghi < 0 then 0 else rclamp
  let bhi : ℚ := if b > 255 then 255 else rclamp
  let bclamp : ℚ := if bhi < 0 then 0 else rclamp
  { rin := rin, gin := gin, bin := bin, X := X, Y := Y, Z := Z, V := V, W := W, luma := luma,
    s := s, x1 := x1, y1 := y1, x1mix := x1mix, y1mix := y1mix, Ynew := Ynew, Xnew := Xnew,
    Znew := Znew, r := r, g := g, b := b, rhi := rhi, rclamp := rclamp, ghi := ghi,
    gclamp := gclamp, bhi := bhi, bclamp := bclamp }

/-- `PipelineClass::Scoto` (the two files have the same body): the clamped
channels are cast, shifted and combined with the alpha byte. -/
def Scoto (f : Func Nat) : Func Nat := fun x y =>
  let e := scotoExprs (f x y)
  let crout : Nat := castUInt32 e.rclamp
  let cgout : Nat := (castUInt32 e.gclamp <<< 8) % 2 ^ 32
  let cbout : Nat := (castUInt32 e.bclamp <<< 16) % 2 ^ 32
  let cwout : Nat := (255 <<< 24) % 2 ^ 32
  crout ||| cgout ||| cbout ||| cwout

/-- The photometric weight of the neighbour at offset `(rx, ry)` of the
pixel `(x, y)`. -/
def neighbourWeight (f : Func Nat) (x y rx ry : Int) : ℚ :=
  photometricWeight (squaredDifference (f x y) (f (x + rx) (y + ry)))

/-- The end of `AtrousFilter`: the three quotients, the casts, the shifts
and the alpha byte. -/
def AtrousPack (sum_weight sum_r sum_g sum_b : ℚ) : Nat :=
  let rout : ℚ := fl32 (fl32 (sum_r * 255) / sum_weight)
  let gout : ℚ := fl32 (fl32 (sum_g * 255) / sum_weight)
  let bout : ℚ := fl32 (fl32 (sum_b * 255) / sum_weight)
  let crout : Nat := castUInt32 rout
  let cgout : Nat := (castUInt32 gout <<< 8) % 2 ^ 32
  let cbout : Nat := (castUInt32 bout <<< 16) % 2 ^ 32
  let cwout : Nat := (255 <<< 24) % 2 ^ 32
  crout ||| cgout ||| cbout ||| cwout

end NightFilter

/-! ## The reconstruction recurrence of the specification -/

namespace Halide

/-- The reconstruction recurrence as the specification words it, `k` levels
below the coarsest level `top`: `out[top] = processed[top]` and
`out[j] = Upsample(out[j + 1]) + 0.5 · processed[j]`. -/
def reconstructFrom (processed : Nat → Func ℚ) (top : Nat) : Nat → Func ℚ
  | 0 => processed top
  | k + 1 => fun x y =>
      ImageMosaics.upsample (reconstructFrom processed top k) x y
        + 0.5 * processed (top - (k + 1)) x y

/-- Level `j` of the specification's reconstruction of an `L`-level pyramid. -/
def reconstructRef (L : Nat) (processed : Nat → Func ℚ) (j : Nat) : Func ℚ :=
  reconstructFrom processed (L - 1) (L - 1 - j)

end Halide

/-! ## 32-bit integers -/

namespace Halide

/-- The value of an `int32` result: the integer `z` reduced to the range
`[-2 ^ 31, 2 ^ 31)` modulo `2 ^ 32` (two's-complement wraparound). -/
def wrap32 (z : Int) : Int := (z + 2 ^ 31) % 2 ^ 32 - 2 ^ 31

/-- The loop nest of an update `g(x, y) += e(dom.x, dom.y)` over
`RDom dom(mask)` for an `int32` `Func` without pure definition: as
`accumulate`, with every addition reduced to `int32`. -/
def accumulateInt {α : Type} (mask : Buffer α) (e : Int → Int → Int) : Int :=
  (List.range mask.height).foldl
    (fun (acc : Int) (ry : Nat) =>
      (List.range mask.width).foldl
        (fun (acc : Int) (rx : Nat) => wrap32 (acc + e (rx : Int) (ry : Int))) acc)
    0

/-- A rational stand-in for Halide's `sqrt`, used where a concrete function
has to be supplied for the parameter `sqrtf`: the integer square root of the
integer part, which is exact on the squares of the naturals and monotone. -/
def sqrtStandIn (t : ℚ) : ℚ := (Nat.sqrt (Int.toNat ⌊t⌋) : ℚ)

end Halide

/-! ## `ShiTomasiFeature/main_cuda.cpp` -/

namespace ShiTomasiFeature

/-- The member `const int norm = 16`. -/
def norm : Int := 16

/-- The member `float threshold = 200.0f`. -/
def threshold : ℚ := 200

/-- `PipelineClass::Gauss`: `blur(x, y) += f(x + dom.x, y + dom.y) *
maskg(dom.x, dom.y)` over `RDom dom(maskg)` and `out(x, y) = blur(x, y) / norm`,
all in `int32`. -/
def Gauss (maskg : Buffer Int) (f : Func Int) : Func Int := fun x y =>
  accumulateInt maskg (fun rx ry => wrap32 (f (x + rx) (y + ry) * maskg.pix rx ry)) / norm

/-- `PipelineClass::Dy`: the windowed sum with `masksy`, divided by `6`. -/
def Dy (masksy : Buffer Int) (f : Func Int) : Func Int := fun x y =>
  accumulateInt masksy (fun rx ry => wrap32 (f (x + rx) (y + ry) * masksy.pix rx ry)) / 6

/-- `PipelineClass::Dx`: the windowed sum with `masksx`, divided by `6`. -/
def Dx (masksx : Buffer Int) (f : Func Int) : Func Int := fun x y =>
  accumulateInt masksx (fun rx ry => wrap32 (f (x + rx) (y + ry) * masksx.pix rx ry)) / 6

/-- `dx(x, y) = Dx(gray)(x, y)` with `gray = repeat_edge(input)`. -/
def dx (input masksx : Buffer Int) : Func Int := Dx masksx (repeat_edge input)

/-- `dy(x, y) = Dy(gray)(x, y)`. -/
def dy (input masksy : Buffer Int) : Func Int := Dy masksy (repeat_edge input)

/-- `sx(x, y) = dx(x, y) * dx(x, y)`. -/
def sx (input masksx : Buffer Int) : Func Int := fun x y =>
  wrap32 (dx input masksx x y * dx input masksx x y)

/-- `sy(x, y) = dy(x, y) * dy(x, y)`. -/
def sy (input masksy : Buffer Int) : Func Int := fun x y =>
  wrap32 (dy input masksy x y * dy input masksy x y)

/-- `sxy(x, y) = dx(x, y) * dy(x, y)`. -/
def sxy (input masksx masksy : Buffer Int) : Func Int := fun x y =>
  wrap32 (dx input masksx x y * dy input masksy x y)

/-- `gx(x, y) = Gauss(sx)(x, y)`. -/
def gx (input maskg masksx : Buffer Int) : Func Int := Gauss maskg (sx input masksx)

/-- `gy(x, y) = Gauss(sy)(x, y)`. -/
def gy (input maskg masksy : Buffer Int) : Func Int := Gauss maskg (sy input masksy)

/-- `gxy(x, y) = Gauss(sxy)(x, y)`. -/
def gxy (input maskg masksx masksy : Buffer Int) : Func Int :=
  Gauss maskg (sxy input masksx masksy)

/-- `interm(x, y) = sqrt((gx - gy) * (gx - gy) + 4.0f * gxy * gxy)`: the first
product is an `int32` product of `int32` differences, the second term is a
`float` product; Halide's `sqrt` is the parameter `sqrtf`. -/
def interm (sqrtf : ℚ → ℚ) (input maskg masksx masksy : Buffer Int) : Func ℚ := fun x y =>
  sqrtf
    (((wrap32 (wrap32 (gx input maskg masksx x y - gy input maskg masksy x y)
          * wrap32 (gx input maskg masksx x y - gy input maskg masksy x y)) : Int) : ℚ)
      + 4 * (gxy input maskg masksx masksy x y : ℚ) * (gxy input maskg masksx masksy x y : ℚ))

/-- `lambda1(x, y) = 0.5f * (gx + gy + interm)`. -/
def lambda1 (sqrtf : ℚ → ℚ) (input maskg masksx masksy : Buffer Int) : Func ℚ := fun x y =>
  0.5 * (((wrap32 (gx input maskg masksx x y + gy input maskg masksy x y) : Int) : ℚ)
    + interm sqrtf input maskg masksx masksy x y)

/-- `lambda2(x, y) = 0.5f * (gx + gy - interm)`. -/
def lambda2 (sqrtf : ℚ → ℚ) (input maskg masksx masksy : Buffer Int) : Func ℚ := fun x y =>
  0.5 * (((wrap32 (gx input maskg masksx x y + gy input maskg masksy x y) : Int) : ℚ)
    - interm sqrtf input maskg masksx masksy x y)

/-- `lambda(x, y) = min(lambda1(x, y), lambda2(x, y))`. -/
def lambda (sqrtf : ℚ → ℚ) (input maskg masksx masksy : Buffer Int) : Func ℚ := fun x y =>
  min (lambda1 sqrtf input maskg masksx masksy x y) (lambda2 sqrtf input maskg masksx masksy x y)

/-- `output(x, y) = select(lambda(x, y) > threshold, 1, 0)`. -/
def output (sqrtf : ℚ → ℚ) (thr : ℚ) (input maskg masksx masksy : Buffer Int) : Func Int :=
  fun x y => if lambda sqrtf input maskg masksx masksy x y > thr then 1 else 0

/-- The table `coef_g` of `main`. -/
def coef_g : List (List Int) := [[1, 2, 1], [2, 4, 2], [1, 2, 1]]

/-- The table `coef_sx` of `main`. -/
def coef_sx : List (List Int) := [[-1, 0, 1], [-1, 0, 1], [-1, 0, 1]]

/-- The table `coef_sy` of `main`. -/
def coef_sy : List (List Int) := [[-1, -1, -1], [0, 0, 0], [1, 1, 1]]

/-- The buffer `maskg` filled by `main`: `maskg(x, y) = coef_g[x][y]`. -/
def mainMaskg : Buffer Int :=
  { width := 3, height := 3, pix := fun x y => (coef_g.getD x.toNat []).getD y.toNat 0 }

/-- The buffer `masksx` filled by `main`: `masksx(x, y) = coef_sx[x][y]`. -/
def mainMasksx : Buffer Int :=
  { width := 3, height := 3, pix := fun x y => (coef_sx.getD x.toNat []).getD y.toNat 0 }

/-- The buffer `masksy` filled by `main`: `masksy(x, y) = coef_sy[x][y]`. -/
def mainMasksy : Buffer Int :=
  { width := 3, height := 3, pix := fun x y => (coef_sy.getD x.toNat []).getD y.toNat 0 }

/-- The sum of all taps of an integer kernel buffer. -/
def tapSumInt (b : Buffer Int) : Int :=
  ∑ j in Finset.range b.height, ∑ i in Finset.range b.width, b.pix (i : Int) (j : Int)

/-- The mathematical windowed sum of `f` with the kernel `mask` at `(x, y)`. -/
def windowSum (mask : Buffer Int) (f : Func Int) (x y : Int) : Int :=
  ∑ j in Finset.range mask.height, ∑ i in Finset.range mask.width,
    f (x + (i : Int)) (y + (j : Int)) * mask.pix (i : Int) (j : Int)

/-- A 4x4 image holding `c` everywhere. -/
def flatImage (c : Int) : Buffer Int := { width := 4, height := 4, pix := fun _ _ => c }

/-- A 4x4 image with a straight horizontal edge: rows `0` and `1` hold `0`,
rows `2` and `3` hold `4000`. -/
def edgeImage : Buffer Int :=
  { width := 4, height := 4, pix := fun _ y => if y ≤ 1 then 0 else 4000 }

/-- The minimum eigenvalue as the specification words it, for smoothed tensor
components `gx`, `gy`, `gxy`: `tr = gx + gy`,
`D = sqrt((gx - gy)² + 4 · gxy²)` and `λ = min(½ (tr + D), ½ (tr − D))`. -/
def lambdaRef (sqrtf : ℚ → ℚ) (gx gy gxy : ℚ) : ℚ :=
  let tr := gx + gy
  let D := sqrtf ((gx - gy) ^ 2 + 4 * gxy ^ 2)
  min (1 / 2 * (tr + D)) (1 / 2 * (tr - D))

/-- The thresholded reference response: `1` if `λ > T`, else `0`. -/
def cornerRef (sqrtf : ℚ → ℚ) (thr : ℚ) (gx gy gxy : ℚ) : Int :=
  if lambdaRef sqrtf gx gy gxy > thr then 1 else 0

end ShiTomasiFeature

/-! ## `ReduceSum/main_cuda.cpp` -/

namespace ReduceSum

/-- The constructor's reduction: `output() = 0`, then
`output() = output() + input(r.x)` for `r.x` over `RDom r(0, WIDTH)`, in
`int32`. -/
def output (WIDTH : Nat) (input : Int → Int) : Int :=
  (List.range WIDTH).foldl (fun (out : Int) (rx : Nat) => wrap32 (out + input (rx : Int))) 0

/-- The reference loop of `test_performance`: `int c_ref = 0;` and
`c_ref += input(y)` for `y` from `0` to `WIDTH - 1`. -/
def c_ref (WIDTH : Nat) (input : Int → Int) : Int :=
  (List.range WIDTH).foldl (fun (c : Int) (y : Nat) => wrap32 (c + input (y : Int))) 0

/-- The value of `#define WIDTH`. -/
def WIDTH : Nat := 65536

/-- The pairwise reduction of the specification over the `n` elements from
index `lo`: split the range in halves, reduce each half, add the two results
in `int32`; an empty range gives `0`, a single element itself. -/
def treeSum (input : Int → Int) (lo : Int) (n : Nat) : Int :=
  if n = 0 then 0
  else if n = 1 then input lo
  else wrap32 (treeSum input lo (n / 2) + treeSum input (lo + ((n / 2 : Nat) : Int)) (n - n / 2))
termination_by n
decreasing_by all_goals omega

end ReduceSum

/-! ## `NightFilter/main_cuda.cpp`: the masks and the cascade -/

namespace NightFilter

/-- The table `coef5` of `main`, row by row (`0.0f` written `0`). -/
def coef5 : List (List ℚ) :=
  [[0.057118, 0, 0.124758, 0, 0.057118],
   [0, 0, 0, 0, 0],
   [0.124758, 0, 0.272496, 0, 0.124758],
   [0, 0, 0, 0, 0],
   [0.057118, 0, 0.124758, 0, 0.057118]]

/-- The buffer `mask5` filled by `main`: `mask5(x, y) = coef5[x][y]`. -/
def mask5 : Buffer ℚ :=
  { width := 5, height := 5, pix := fun x y => (coef5.getD x.toNat []).getD y.toNat 0 }

/-- The table `coef9` of `main`, row by row (`0.0f` written `0`). -/
def coef9 : List (List ℚ) :=
  [[0.057118, 0, 0, 0, 0.124758, 0, 0, 0, 0.057118],
   [0, 0, 0, 0, 0, 0, 0, 0, 0],
   [0, 0, 0, 0, 0, 0, 0, 0, 0],
   [0, 0, 0, 0, 0, 0, 0, 0, 0],
   [0.124758, 0, 0, 0, 0.272496, 0, 0, 0, 0.124758],
   [0, 0, 0, 0, 0, 0, 0, 0, 0],
   [0, 0, 0, 0, 0, 0, 0, 0, 0],
   [0, 0, 0, 0, 0, 0, 0, 0, 0],
   [0.057118, 0, 0, 0, 0.124758, 0, 0, 0, 0.057118]]

/-- The buffer `mask9` filled by `main`: `mask9(x, y) = coef9[x][y]`. -/
def mask9 : Buffer ℚ :=
  { width := 9, height := 9, pix := fun x y => (coef9.getD x.toNat []).getD y.toNat 0 }

/-- The table `coef17` of `main`, row by row (`0.0f` written `0`). -/
def coef17 : List (List ℚ) :=
  [[0.057118, 0, 0, 0, 0, 0, 0, 0, 0.124758, 0, 0, 0, 0, 0, 0, 0, 0.057118],
   [0, 0, 0, 0, 0, 0, 0, 0, 0, 0, 0, 0, 0, 0, 0, 0, 0],
   [0, 0, 0, 0, 0, 0, 0, 0, 0, 0, 0, 0, 0, 0, 0, 0, 0],
   [0, 0, 0, 0, 0, 0, 0, 0, 0, 0, 0, 0, 0, 0, 0, 0, 0],
   [0, 0, 0, 0, 0, 0, 0, 0, 0, 0, 0, 0, 0, 0, 0, 0, 0],
   [0, 0, 0, 0, 0, 0, 0, 0, 0, 0, 0, 0, 0, 0, 0, 0, 0],
   [0, 0, 0, 0, 0, 0, 0, 0, 0, 0, 0, 0, 0, 0, 0, 0, 0],
   [0, 0, 0, 0, 0, 0, 0, 0, 0, 0, 0, 0, 0, 0, 0, 0, 0],
   [0.124758, 0, 0, 0, 0, 0, 0, 0, 0.272496, 0, 0, 0, 0, 0, 0, 0, 0.124758],
   [0, 0, 0, 0, 0, 0, 0, 0, 0, 0, 0, 0, 0, 0, 0, 0, 0],
   [0, 0, 0, 0, 0, 0, 0, 0, 0, 0, 0, 0, 0, 0, 0, 0, 0],
   [0, 0, 0, 0, 0, 0, 0, 0, 0, 0, 0, 0, 0, 0, 0, 0, 0],
   [0, 0, 0, 0, 0, 0, 0, 0, 0, 0, 0, 0, 0, 0, 0, 0, 0],
   [0, 0, 0, 0, 0, 0, 0, 0, 0, 0, 0, 0, 0, 0, 0, 0, 0],
   [0, 0, 0, 0, 0, 0, 0, 0, 0, 0, 0, 0, 0, 0, 0, 0, 0],
   [0, 0, 0, 0, 0, 0, 0, 0, 0, 0, 0, 0, 0, 0, 0, 0, 0],
   [0.057118, 0, 0, 0, 0, 0, 0, 0, 0.124758, 0, 0, 0, 0, 0, 0, 0, 0.057118]]

/-- The buffer `mask17` filled by `main`: `mask17(x, y) = coef17[x][y]`. -/
def mask17 : Buffer ℚ :=
  { width := 17, height := 17, pix := fun x y => (coef17.getD x.toNat []).getD y.toNat 0 }

/-- `intermBuf3(x, y) = AtrousFilter(gray, mask3)(x, y)` with
`gray = repeat_edge(input)`. -/
def intermBuf3 (input : Buffer Nat) (msk3 : Buffer ℚ) : Func Nat :=
  AtrousFilter msk3 (repeat_edge input)

/-- `intermBuf5(x, y) = AtrousFilter(intermBuf3, mask5)(x, y)`. -/
def intermBuf5 (input : Buffer Nat) (msk3 msk5 : Buffer ℚ) : Func Nat :=
  AtrousFilter msk5 (intermBuf3 input msk3)

/-- `intermBuf9(x, y) = AtrousFilter(intermBuf5, mask9)(x, y)`. -/
def intermBuf9 (input : Buffer Nat) (msk3 msk5 msk9 : Buffer ℚ) : Func Nat :=
  AtrousFilter msk9 (intermBuf5 input msk3 msk5)

/-- `intermBuf17(x, y) = AtrousFilter(intermBuf9, mask17)(x, y)`. -/
def intermBuf17 (input : Buffer Nat) (msk3 msk5 msk9 msk17 : Buffer ℚ) : Func Nat :=
  AtrousFilter msk17 (intermBuf9 input msk3 msk5 msk9)

/-- The constructor's `output(x, y) = Scoto(intermBuf17)(x, y)`. -/
def output (input : Buffer Nat) (msk3 msk5 msk9 msk17 : Buffer ℚ) : Func Nat :=
  Scoto (intermBuf17 input msk3 msk5 msk9 msk17)

/-- The 3x3 Gaussian with holes at stride `s`: entry `(x, y)` is
`coef3[x / s][y / s]` when `s` divides both `x` and `y`, and `0` otherwise. -/
def dilated (s x y : Nat) : ℚ :=
  if x % s = 0 ∧ y % s = 0 then (coef3.getD (x / s) []).getD (y / s) 0 else 0

/-- The `k × k` table of the 3x3 Gaussian with holes at stride `s`. -/
def dilatedTable (s k : Nat) : List (List ℚ) :=
  (List.range k).map (fun (x : Nat) => (List.range k).map (fun (y : Nat) => dilated s x y))

end NightFilter

/-! ## `ShiTomasiFeature/main_cuda.cpp`: a brightness offset -/

namespace ShiTomasiFeature

/-- The `int` image `f + c`: every element of `input` increased by `c`. -/
def offsetImage (input : Buffer Int) (c : Int) : Buffer Int :=
  { width := input.width, height := input.height, pix := fun x y => wrap32 (input.pix x y + c) }

/-- A 4x4 `int` image with distinct rows and columns, values within `0 .. 0xfff`. -/
def sampleImage : Buffer Int :=
  { width := 4, height := 4, pix := fun x y => (37 * x * x + 211 * y + 5 * x * y) % 4096 }

end ShiTomasiFeature

/-! ## `Unsharp/main_cuda.cpp` -/

namespace Unsharp

/-- The member `const int norm = 16`. -/
def norm : Int := 16

/-- `PipelineClass::Gauss`: `blur(x, y) += f(x + dom.x, y + dom.y) *
mask(dom.x, dom.y)` over `RDom dom(mask)` with the `int` mask converted to
`float`, and `out(x, y) = blur(x, y) / norm`, a `float` division. -/
def Gauss (mask : Buffer Int) (f : Func ℚ) : Func ℚ := fun x y =>
  accumulate mask (fun rx ry => f (x + rx) (y + ry) * (mask.pix rx ry : ℚ)) / (norm : ℚ)

/-- The constructor's `gray = repeat_edge(input)`. -/
def gray (input : Buffer ℚ) : Func ℚ := repeat_edge input

/-- `gaus(x, y) = Gauss(gray)(x, y)`. -/
def gaus (input : Buffer ℚ) (mask : Buffer Int) : Func ℚ := Gauss mask (gray input)

/-- `sharp(x, y) = 2 * gray(x, y) - gaus(x, y)`. -/
def sharp (input : Buffer ℚ) (mask : Buffer Int) : Func ℚ := fun x y =>
  2 * gray input x y - gaus input mask x y

/-- `ratio(x, y) = sharp(x, y) / gray(x, y)`. -/
def ratio (input : Buffer ℚ) (mask : Buffer Int) : Func ℚ := fun x y =>
  sharp input mask x y / gray input x y

/-- `output(x, y) = ratio(x, y) * gray(x, y)`. -/
def output (input : Buffer ℚ) (mask : Buffer Int) : Func ℚ := fun x y =>
  ratio input mask x y * gray input x y

/-- The table `coef` of `main`. -/
def coef : List (List Int) := [[1, 2, 1], [2, 4, 2], [1, 2, 1]]

/-- The mask buffer filled by `main`: `mask(x, y) = coef[x][y]`. -/
def mainMask : Buffer Int :=
  { width := 3, height := 3, pix := fun x y => (coef.getD x.toNat []).getD y.toNat 0 }

end Unsharp

/-! ## The pipelines with `float` operands in binary32 arithmetic -/

namespace ImageEnhance

/-- `PipelineClass::AverageFilter` in `float` arithmetic: the product
`f(x + dom.x, y + dom.y) * maskAvg(dom.x, dom.y)` and each addition of the
update `avg(x, y) += conv` are rounded. -/
def AverageFilter32 (maskAvg : Buffer ℚ) (f : Func ℚ) : Func ℚ := fun x y =>
  accumulate32 maskAvg (fun rx ry => fl32 (f (x + rx) (y + ry) * maskAvg.pix rx ry))

/-- The constructor's `avgImg[n](x, y) = AverageFilter(gray)(x, y)` in `float`
arithmetic. -/
def avgImg32 (input maskAvg : Buffer ℚ) (_n : Nat) : Func ℚ :=
  AverageFilter32 maskAvg (repeat_edge input)

/-- A 4x4 buffer holding `3.0` everywhere. -/
def flatImage3 : Buffer ℚ := { width := 4, height := 4, pix := fun _ _ => 3 }

end ImageEnhance

namespace Bilateral

/-- `PipelineClass::Bilateral` in `float` arithmetic.  `c_r` is computed by
the constructor's C++ code, `0.5f / (sigma_s * sigma_s)`; the other
operations are Halide expressions, `diff * diff * -c_r` being
`(diff * diff) * (-c_r)`.  Halide's `exp` is the parameter `expf`, taken to
return a `float`. -/
def Bilateral32 (expf : ℚ → ℚ) (mask : Buffer ℚ) (sigma_s : ℚ) (f : Func ℚ) : Func ℚ :=
  fun x y =>
  let c_r : ℚ := fl32 (0.5 / fl32 (sigma_s * sigma_s))
  let s : Int → Int → ℚ := fun rx ry =>
    let diff : ℚ := fl32 (f (x + rx) (y + ry) - f x y)
    let sp : ℚ := fl32 (fl32 (diff * diff) * -c_r)
    fl32 (expf sp * mask.pix rx ry)
  let d : ℚ := accumulate32 mask s
  let p : ℚ := accumulate32 mask (fun rx ry => fl32 (s rx ry * f (x + rx) (y + ry)))
  fl32 (fl32 (p / d) + 0.5)

/-- The constructor's `output(x, y) = Bilateral(gray)(x, y)` in `float`
arithmetic. -/
def output32 (expf : ℚ → ℚ) (input mask : Buffer ℚ) (sigma_s : ℚ) : Func ℚ :=
  Bilateral32 expf mask sigma_s (repeat_edge input)

end Bilateral

namespace ImageMosaics

/-- The local `blur` of `downsample` in `float` arithmetic. -/
def blur32 (mask : Buffer ℚ) (f : Func ℚ) : Func ℚ := fun x y =>
  accumulate32 mask (fun rx ry => fl32 (f (x + rx) (y + ry) * mask.pix rx ry))

/-- `PipelineClass::downsample` in `float` arithmetic. -/
def downsample32 (mask : Buffer ℚ) (f : Func ℚ) : Func ℚ := fun x y =>
  blur32 mask f (2 * x) (2 * y)

/-- The local `upx` of `upsample` in `float` arithmetic. -/
def upx32 (f : Func ℚ) : Func ℚ := fun x y =>
  fl32 (fl32 (0.25 * f ((x / 2) - 1 + 2 * (x % 2)) y) + fl32 (0.75 * f (x / 2) y))

/-- `PipelineClass::upsample` in `float` arithmetic. -/
def upsample32 (f : Func ℚ) : Func ℚ := fun x y =>
  fl32 (fl32 (0.25 * upx32 f x ((y / 2) - 1 + 2 * (y % 2))) + fl32 (0.75 * upx32 f x (y / 2)))

/-- `gPyramid1[j]` in `float` arithmetic. -/
def gPyramid1_32 (input1 mask : Buffer ℚ) : Nat → Func ℚ
  | 0 => repeat_edge input1
  | j + 1 => downsample32 mask (gPyramid1_32 input1 mask j)

/-- `lPyramid1[j]` for `j < LEVEL` in `float` arithmetic. -/
def lPyramid1_32 (LEVEL : Nat) (input1 mask : Buffer ℚ) (j : Nat) : Func ℚ :=
  if j = LEVEL - 1 then gPyramid1_32 input1 mask (LEVEL - 1)
  else fun x y =>
    fl32 (gPyramid1_32 input1 mask j x y - upsample32 (gPyramid1_32 input1 mask (j + 1)) x y)

/-- `gPyramid2[j]` in `float` arithmetic. -/
def gPyramid2_32 (input2 mask : Buffer ℚ) : Nat → Func ℚ
  | 0 => repeat_edge input2
  | j + 1 => downsample32 mask (gPyramid2_32 input2 mask j)

/-- `lPyramid2[j]` for `j < LEVEL` in `float` arithmetic. -/
def lPyramid2_32 (LEVEL : Nat) (input2 mask : Buffer ℚ) (j : Nat) : Func ℚ :=
  if j = LEVEL - 1 then gPyramid2_32 input2 mask (LEVEL - 1)
  else fun x y =>
    fl32 (gPyramid2_32 input2 mask j x y - upsample32 (gPyramid2_32 input2 mask (j + 1)) x y)

/-- The merged `lPyramid[j]` in `float` arithmetic. -/
def lPyramid32 (LEVEL : Nat) (input1 input2 mask : Buffer ℚ) (j : Nat) : Func ℚ :=
  levelMerge input1 (lPyramid1_32 LEVEL input1 mask j) (lPyramid2_32 LEVEL input2 mask j)

/-- `outLPyramid[j]` for `j < LEVEL` in `float` arithmetic: the loop defines
level `j ≤ LEVEL - 2` as `upsample(lPyramid[j + 1]) + outL` with
`outL = lPyramid[j] * 0.5f`. -/
def outLPyramid32 (LEVEL : Nat) (input1 input2 mask : Buffer ℚ) (j : Nat) : Func ℚ :=
  if j = LEVEL - 1 then lPyramid32 LEVEL input1 input2 mask (LEVEL - 1)
  else fun x y =>
    fl32 (upsample32 (lPyramid32 LEVEL input1 input2 mask (j + 1)) x y
      + fl32 (lPyramid32 LEVEL input1 input2 mask j x y * 0.5))

/-- The constructor's `output(x, y) = outLPyramid[0](x, y)` in `float`
arithmetic. -/
def output32 (LEVEL : Nat) (input1 input2 mask : Buffer ℚ) : Func ℚ :=
  outLPyramid32 LEVEL input1 input2 mask 0

end ImageMosaics

namespace NightFilter

/-- A 3x1 `float` mask with the taps `1`, `2⁻²⁴`, `2⁻²⁴`. -/
def maskHeadOne : Buffer ℚ :=
  { width := 3, height := 1, pix := fun x _ => if x = 0 then 1 else 1 / 16777216 }

/-- A 3x1 `float` mask with the taps `2⁻²⁴`, `2⁻²⁴`, `1`. -/
def maskTailOne : Buffer ℚ :=
  { width := 3, height := 1, pix := fun x _ => if x = 2 then 1 else 1 / 16777216 }

/-- A 3x3 `float` mask with the taps of a binomial kernel, `1/16 .. 4/16`. -/
def maskBinomial : Buffer ℚ :=
  { width := 3, height := 3,
    pix := fun x y => (if x = 1 then 2 else 1) * (if y = 1 then 2 else 1) / 16 }

/-- A 3x3 `float` mask with the centre tap `1/2` and eight taps `1/16`. -/
def maskPeak : Buffer ℚ :=
  { width := 3, height := 3, pix := fun x y => if x = 1 ∧ y = 1 then 1 / 2 else 1 / 16 }

/-- A packed image with saturated and unsaturated channels next to each
other: the red byte is `255` on even columns, the green byte on even rows,
the blue byte where `x + y` is a multiple of three. -/
def checkerImage : Func Nat := fun x y =>
  (if x % 2 = 0 then 0xff else 0x40)
    ||| ((if y % 2 = 0 then 0xff else 0x80) <<< 8)
    ||| ((if (x + y) % 3 = 0 then 0xff else 0x10) <<< 16)

end NightFilter

/-! ## Shared lemmas on reduction loops -/

namespace Halide

theorem foldl_add_eq_sum (n : Nat) (g : Nat → ℚ) (a : ℚ) :
    (List.range n).foldl (fun acc i => acc + g i) a = a + ∑ i in Finset.range n, g i := by
  induction n with
  | zero => simp
  | succ n ih => simp [List.range_succ, List.foldl_append, ih, Finset.sum_range_succ, add_assoc]

theorem foldl_rows_eq_sum (n : Nat) (r : Nat → ℚ) (a : ℚ) (step : ℚ → Nat → ℚ)
    (hstep : ∀ acc j, step acc j = acc + r j) :
    (List.range n).foldl step a = a + ∑ j in Finset.range n, r j := by
  induction n with
  | zero => simp
  | succ n ih =>
    simp [List.range_succ, List.foldl_append, ih, hstep, Finset.sum_range_succ, add_assoc]

/-- The loop nest computes the double sum over the domain. -/
theorem accumulate_eq_sum {α : Type} (mask : Buffer α) (e : Int → Int → ℚ) :
    accumulate mask e
      = ∑ j in Finset.range mask.height, ∑ i in Finset.range mask.width, e (i : Int) (j : Int) := by
  unfold accumulate
  rw [foldl_rows_eq_sum mask.height
    (fun j => ∑ i in Finset.range mask.width, e (i : Int) (j : Int))]
  · simp
  · intro acc j
    exact foldl_add_eq_sum mask.width (fun i => e (i : Int) (j : Int)) acc

theorem foldl_rowMajor (kw kh : Nat) (t : Int × Int → ℚ) (a : ℚ) :
    (rowMajor kw kh).foldl (fun acc d => acc + t d) a
      = (List.range kh).foldl
          (fun (acc : ℚ) (ry : Nat) =>
            (List.range kw).foldl (fun (acc : ℚ) (rx : Nat) => acc + t ((rx : Int), (ry : Int))) acc)
          a := by
  unfold rowMajor
  induction kh generalizing a with
  | zero => simp
  | succ n ih =>
    simp only [List.range_succ, List.map_append, List.flatten_append, List.foldl_append, ih,
      List.map_cons, List.map_nil, List.flatten_cons, List.flatten_nil, List.append_nil,
      List.foldl_cons, List.foldl_nil]
    rw [List.foldl_map]

/-- The loop nest visits the domain in row-major order. -/
theorem accumulate_eq_rowMajor {α : Type} (mask : Buffer α) (e : Int → Int → ℚ) :
    accumulate mask e
      = (rowMajor mask.width mask.height).foldl (fun acc d => acc + e d.1 d.2) 0 := by
  rw [foldl_rowMajor mask.width mask.height (fun d => e d.1 d.2) 0]
  rfl

end Halide

/-! ## `float` rounding -/

namespace Halide

theorem floor_le_roundNE (r : ℚ) : ⌊r⌋ ≤ roundNE r := by
  unfold roundNE
  simp only
  split_ifs <;> omega

theorem le_roundNE (n : Int) (r : ℚ) (h : (n : ℚ) ≤ r) : n ≤ roundNE r :=
  le_trans (Int.le_floor.mpr h) (floor_le_roundNE r)

theorem ilog2Aux_spec : ∀ (fuel n : Nat), 0 < n → n ≤ fuel →
    2 ^ ilog2Aux fuel n ≤ n ∧ n < 2 ^ (ilog2Aux fuel n + 1)
  | 0, n, h0, h1 => by omega
  | fuel + 1, n, h0, h1 => by
    rw [ilog2Aux]
    by_cases h2 : n < 2
    · rw [if_pos h2]
      simp only [pow_zero, zero_add, pow_one]
      omega
    · rw [if_neg h2]
      have ih := ilog2Aux_spec fuel (n / 2) (by omega) (by omega)
      rw [pow_succ, pow_succ]
      omega

theorem ilog2_spec (n : Nat) (h : 0 < n) : 2 ^ ilog2 n ≤ n ∧ n < 2 ^ (ilog2 n + 1) :=
  ilog2Aux_spec n n h le_rfl

/-- The binade brackets the magnitude: `2 ^ e ≤ |q| < 2 ^ (e + 1)`. -/
theorem binade_spec (q : ℚ) (hq : q ≠ 0) :
    (2 : ℚ) ^ binade q ≤ |q| ∧ |q| < (2 : ℚ) ^ (binade q + 1) := by
  have hn : 0 < q.num.natAbs := Int.natAbs_pos.mpr (Rat.num_ne_zero.mpr hq)
  have hd : 0 < q.den := q.den_pos
  obtain ⟨a1, a2⟩ := ilog2_spec _ hn
  obtain ⟨b1, b2⟩ := ilog2_spec _ hd
  have habs : |q| = (q.num.natAbs : ℚ) / (q.den : ℚ) := by
    conv_lhs => rw [← Rat.num_div_den q]
    rw [abs_div, Nat.abs_cast, Nat.cast_natAbs, Int.cast_abs]
  have hdq : (0 : ℚ) < (q.den : ℚ) := by exact_mod_cast hd
  have a1q : (2 : ℚ) ^ ilog2 q.num.natAbs ≤ (q.num.natAbs : ℚ) := by exact_mod_cast a1
  have a2q : (q.num.natAbs : ℚ) < (2 : ℚ) ^ (ilog2 q.num.natAbs + 1) := by exact_mod_cast a2
  have b1q : (2 : ℚ) ^ ilog2 q.den ≤ (q.den : ℚ) := by exact_mod_cast b1
  have b2q : (q.den : ℚ) < (2 : ℚ) ^ (ilog2 q.den + 1) := by exact_mod_cast b2
  have hlo : (2 : ℚ) ^ ((ilog2 q.num.natAbs : Int) - (ilog2 q.den : Int) - 1) ≤ |q| := by
    rw [habs, le_div_iff₀ hdq]
    have e : (2 : ℚ) ^ ((ilog2 q.num.natAbs : Int) - (ilog2 q.den : Int) - 1)
        = (2 : ℚ) ^ ilog2 q.num.natAbs / (2 : ℚ) ^ (ilog2 q.den + 1) := by
      rw [show (ilog2 q.num.natAbs : Int) - (ilog2 q.den : Int) - 1
        = (ilog2 q.num.natAbs : Int) - ((ilog2 q.den + 1 : Nat) : Int) by push_cast; ring,
        zpow_sub₀ (by norm_num), zpow_natCast, zpow_natCast]
    rw [e, div_mul_eq_mul_div, div_le_iff₀ (by positivity)]
    have : (0 : ℚ) ≤ (2 : ℚ) ^ ilog2 q.num.natAbs := by positivity
    nlinarith
  have hhi : |q| < (2 : ℚ) ^ ((ilog2 q.num.natAbs : Int) - (ilog2 q.den : Int) + 1) := by
    rw [habs, div_lt_iff₀ hdq]
    have e : (2 : ℚ) ^ ((ilog2 q.num.natAbs : Int) - (ilog2 q.den : Int) + 1)
        = (2 : ℚ) ^ (ilog2 q.num.natAbs + 1) / (2 : ℚ) ^ ilog2 q.den := by
      rw [show (ilog2 q.num.natAbs : Int) - (ilog2 q.den : Int) + 1
        = ((ilog2 q.num.natAbs + 1 : Nat) : Int) - (ilog2 q.den : Int) by push_cast; ring,
        zpow_sub₀ (by norm_num), zpow_natCast, zpow_natCast]
    rw [e, div_mul_eq_mul_div, lt_div_iff₀ (by positivity)]
    have : (0 : ℚ) < (2 : ℚ) ^ ilog2 q.den := by positivity
    have : (0 : ℚ) ≤ (q.num.natAbs : ℚ) := by positivity
    nlinarith
  unfold binade
  simp only
  split_ifs with hc
  · exact ⟨hc, hhi⟩
  · refine ⟨hlo, ?_⟩
    rw [sub_add_cancel]
    exact not_le.mp hc

/-- `roundNE` is within one half of its argument. -/
theorem abs_roundNE_sub_le (r : ℚ) : |(roundNE r : ℚ) - r| ≤ 1 / 2 := by
  have h1 : (⌊r⌋ : ℚ) ≤ r := Int.floor_le r
  have h2 : r < (⌊r⌋ : ℚ) + 1 := Int.lt_floor_add_one r
  unfold roundNE
  simp only
  split_ifs with a b c
  · rw [abs_le]
    constructor <;> linarith
  · rw [abs_le]
    push_cast
    constructor <;> linarith
  · have e : r - (⌊r⌋ : ℚ) = 1 / 2 := le_antisymm (not_lt.mp b) (not_lt.mp a)
    rw [abs_le]
    constructor <;> linarith
  · have e : r - (⌊r⌋ : ℚ) = 1 / 2 := le_antisymm (not_lt.mp b) (not_lt.mp a)
    rw [abs_le]
    push_cast
    constructor <;> linarith

/-- `fl32` is a nearest point of its grid: the error is at most half the
spacing `2 ^ (e - 23)` of the binade `e` (of `2 ^ (-149)` below the normal
range). -/
theorem abs_fl32_sub_le (q : ℚ) :
    |fl32 q - q| ≤ (2 : ℚ) ^ (max (binade q) (-126) - 23) / 2 := by
  unfold fl32
  split_ifs with h0
  · rw [h0, sub_self, abs_zero]
    positivity
  · simp only
    have hk : (0 : ℚ) < (2 : ℚ) ^ (max (binade q) (-126) - 23) := by positivity
    have hr := abs_roundNE_sub_le (q / (2 : ℚ) ^ (max (binade q) (-126) - 23))
    have e : (roundNE (q / (2 : ℚ) ^ (max (binade q) (-126) - 23)) : ℚ)
          * (2 : ℚ) ^ (max (binade q) (-126) - 23) - q
        = ((roundNE (q / (2 : ℚ) ^ (max (binade q) (-126) - 23)) : ℚ)
            - q / (2 : ℚ) ^ (max (binade q) (-126) - 23))
          * (2 : ℚ) ^ (max (binade q) (-126) - 23) := by
      field_simp
    rw [e, abs_mul, abs_of_pos hk]
    calc _ ≤ 1 / 2 * (2 : ℚ) ^ (max (binade q) (-126) - 23) :=
          mul_le_mul_of_nonneg_right hr (le_of_lt hk)
      _ = _ := by ring

/-- In the normal range the relative rounding error is at most `2 ^ (-24)`. -/
theorem abs_fl32_sub_le_rel (q : ℚ) (hq : (2 : ℚ) ^ (-126 : Int) ≤ |q|) :
    |fl32 q - q| ≤ |q| / 2 ^ 24 := by
  have h0 : q ≠ 0 := by
    intro h
    rw [h, abs_zero] at hq
    have : (0 : ℚ) < (2 : ℚ) ^ (-126 : Int) := by positivity
    linarith
  obtain ⟨s1, s2⟩ := binade_spec q h0
  have he : -126 ≤ binade q := by
    by_contra hneg
    have hle : binade q + 1 ≤ -126 := by omega
    have : (2 : ℚ) ^ (binade q + 1) ≤ (2 : ℚ) ^ (-126 : Int) :=
      zpow_le_zpow_right₀ (by norm_num) hle
    linarith
  have hk : max (binade q) (-126) = binade q := max_eq_left he
  have h := abs_fl32_sub_le q
  rw [hk] at h
  have e : (2 : ℚ) ^ (binade q - 23) / 2 = (2 : ℚ) ^ binade q / 2 ^ 24 := by
    rw [zpow_sub₀ (by norm_num)]
    norm_num
    ring
  rw [e] at h
  exact le_trans h (div_le_div_of_nonneg_right s1 (by positivity))

theorem fl32_zero : fl32 0 = 0 := by simp [fl32]

theorem fl32_one : fl32 1 = 1 := by decide!

/-- Rounding keeps the sign of a non-negative value. -/
theorem fl32_nonneg (x : ℚ) (h : 0 ≤ x) : 0 ≤ fl32 x := by
  unfold fl32
  split_ifs
  · exact le_rfl
  · simp only
    apply mul_nonneg
    · have : (0 : Int) ≤ roundNE (x / (2 : ℚ) ^ (max (binade x) (-126) - 23)) :=
        le_roundNE 0 _ (by push_cast; positivity)
      exact_mod_cast this
    · positivity

theorem two_pow_23_mul (e : Int) :
    ((2 ^ 23 : Int) : ℚ) * (2 : ℚ) ^ (e - 23) = (2 : ℚ) ^ e := by
  rw [zpow_sub₀ (by norm_num)]
  push_cast
  field_simp
  norm_num
  ring

/-- Rounding does not take a value `≥ 1` below `1`. -/
theorem one_le_fl32 (x : ℚ) (h : 1 ≤ x) : 1 ≤ fl32 x := by
  have hx0 : x ≠ 0 := by linarith
  have hpos : 0 < x := by linarith
  obtain ⟨s1, s2⟩ := binade_spec x hx0
  rw [abs_of_pos hpos] at s1 s2
  have he : 0 ≤ binade x := by
    by_contra hneg
    have hle : binade x + 1 ≤ 0 := by omega
    have : (2 : ℚ) ^ (binade x + 1) ≤ (2 : ℚ) ^ (0 : Int) :=
      zpow_le_zpow_right₀ (by norm_num) hle
    rw [zpow_zero] at this
    linarith
  have hk : max (binade x) (-126) = binade x := max_eq_left (by omega)
  unfold fl32
  rw [if_neg hx0]
  simp only [hk]
  have h23 : ((2 ^ 23 : Int) : ℚ) ≤ x / (2 : ℚ) ^ (binade x - 23) := by
    rw [le_div_iff₀ (by positivity), two_pow_23_mul]
    exact s1
  have hr := le_roundNE _ _ h23
  have hrq : ((2 ^ 23 : Int) : ℚ) ≤ (roundNE (x / (2 : ℚ) ^ (binade x - 23)) : ℚ) := by
    exact_mod_cast hr
  have h1 : (1 : ℚ) ≤ (2 : ℚ) ^ binade x := one_le_zpow₀ (by norm_num) he
  calc (1 : ℚ) ≤ (2 : ℚ) ^ binade x := h1
    _ = ((2 ^ 23 : Int) : ℚ) * (2 : ℚ) ^ (binade x - 23) := (two_pow_23_mul _).symm
    _ ≤ _ := mul_le_mul_of_nonneg_right hrq (by positivity)

/-- The square of a value `≥ 1` rounds to a value `≥ 1`. -/
theorem one_le_fl32_sq (x : ℚ) (h : 1 ≤ x) : 1 ≤ fl32 (x * x) :=
  one_le_fl32 _ (by nlinarith)

/-- The `float` loop depends on the mask only through its extents. -/
theorem accumulate32_congr {α β : Type} (m1 : Buffer α) (m2 : Buffer β)
    (hw : m1.width = m2.width) (hh : m1.height = m2.height) (e : Int → Int → ℚ) :
    accumulate32 m1 e = accumulate32 m2 e := by
  unfold accumulate32
  rw [hw, hh]

end Halide

/-! ## The boundary accessor -/

namespace Halide

theorem clamp_eq_min_max (a hi : Int) (h : 0 ≤ hi) : clamp a 0 hi = min (max a 0) hi := by
  unfold clamp
  omega

theorem clamp_bounds (a hi : Int) (h : 0 ≤ hi) : 0 ≤ clamp a 0 hi ∧ clamp a 0 hi ≤ hi := by
  unfold clamp
  omega

theorem clamp_of_mem (a hi : Int) (h0 : 0 ≤ a) (h1 : a ≤ hi) : clamp a 0 hi = a := by
  unfold clamp
  omega

/-- On a non-empty buffer the clamped coordinates pass the bounds check. -/
theorem repeat_edge_inBounds {α : Type} (input : Buffer α) (hW : 0 < input.width)
    (hH : 0 < input.height) (x y : Int) :
    input.inBounds (clamp x 0 ((input.width : Int) - 1))
      (clamp y 0 ((input.height : Int) - 1)) = true := by
  have hx := clamp_bounds x ((input.width : Int) - 1) (by omega)
  have hy := clamp_bounds y ((input.height : Int) - 1) (by omega)
  simp only [Buffer.inBounds, decide_eq_true_eq]
  omega

/-- A buffer that holds `c` at every element is read as `c` everywhere. -/
theorem repeat_edge_const (input : Buffer ℚ) (c : ℚ) (hW : 0 < input.width)
    (hH : 0 < input.height) (hc : ∀ x y, input.inBounds x y = true → input.pix x y = c)
    (x y : Int) : repeat_edge input x y = c :=
  hc _ _ (repeat_edge_inBounds input hW hH x y)

/-- A windowed sum over a constant function is the constant times the tap sum. -/
theorem accumulate_const (mask : Buffer ℚ) (c : ℚ) :
    accumulate mask (fun rx ry => c * mask.pix rx ry) = c * mask.tapSum := by
  rw [accumulate_eq_sum, Buffer.tapSum, Finset.mul_sum]
  refine Finset.sum_congr rfl (fun j _ => ?_)
  rw [Finset.mul_sum]

end Halide

/-! ## Windowed convolution -/

/-- C5: the generic windowed convolution (`GaussBlur`, and `Laplace` on the
converted samples) equals the reference sum of `f(x + i, y + j) * K(i, j)`
over the kernel's reduction domain, accumulated from `0` in row-major order;
the same value is the double sum over the `kw × kh` offsets. -/
theorem C5_convolution_eq_reference_sum (K : Buffer ℚ) (f : Func ℚ) (g : Func Nat) (x y : Int) :
    Gaussian.GaussBlur K f x y = convRef K.width K.height K.pix f x y
    ∧ Gaussian.GaussBlur K f x y
        = ∑ j in Finset.range K.height, ∑ i in Finset.range K.width,
            f (x + (i : Int)) (y + (j : Int)) * K.pix (i : Int) (j : Int)
    ∧ Laplace.Laplace K g x y
        = convRef K.width K.height K.pix (fun u v => (g u v : ℚ)) x y := by
  refine ⟨?_, ?_, ?_⟩
  · exact accumulate_eq_rowMajor K _
  · exact accumulate_eq_sum K _
  · exact accumulate_eq_rowMajor K _

/-- C6: with a kernel whose taps are all `0` the convolution output is `0` at
every coordinate, for every input and every kernel size. -/
theorem C6_zero_kernel_gives_zero (K : Buffer ℚ) (f : Func ℚ) (x y : Int)
    (hK : ∀ i j : Nat, i < K.width → j < K.height → K.pix (i : Int) (j : Int) = 0) :
    Gaussian.GaussBlur K f x y = 0 := by
  unfold Gaussian.GaussBlur
  rw [accumulate_eq_sum]
  refine Finset.sum_eq_zero (fun j hj => Finset.sum_eq_zero (fun i hi => ?_))
  rw [hK i j (Finset.mem_range.mp hi) (Finset.mem_range.mp hj), mul_zero]

theorem C6_zero_kernel_gives_zero_witness :
    (∀ i j : Nat, i < Gaussian.zeroKernel.width → j < Gaussian.zeroKernel.height →
        Gaussian.zeroKernel.pix (i : Int) (j : Int) = 0)
    ∧ Gaussian.GaussBlur Gaussian.zeroKernel (repeat_edge Gaussian.rampImage) 1 1 = 0 :=
  ⟨fun _ _ _ _ => rfl,
   C6_zero_kernel_gives_zero Gaussian.zeroKernel (repeat_edge Gaussian.rampImage) 1 1
     (fun _ _ _ _ => rfl)⟩

/-- C4 (as stated) fails: on the 4x4 ramp image and at the interior
coordinate `(1, 1)` the identity kernel returns `gray(2, 2) = 2`, not
`gray(1, 1) = 1`. -/
theorem C4_identity_kernel_counterexample :
    Gaussian.GaussBlur Gaussian.identityKernel (repeat_edge Gaussian.rampImage) 1 1
      ≠ repeat_edge Gaussian.rampImage 1 1 := by
  rw [Gaussian.GaussBlur, accumulate_eq_sum]
  simp [Gaussian.identityKernel, Gaussian.rampImage, repeat_edge, clamp, Finset.sum_range_succ]
  norm_num

/-- C4 (amended): the reduction domain spans the offsets `0 .. 2`, so with the
identity kernel (1 at tap `(1, 1)`) the output at `(x, y)` is the input at
`(x + 1, y + 1)`, for every input and every coordinate. -/
theorem C4_identity_kernel_reads_lower_right (f : Func ℚ) (x y : Int) :
    Gaussian.GaussBlur Gaussian.identityKernel f x y = f (x + 1) (y + 1) := by
  rw [Gaussian.GaussBlur, accumulate_eq_sum]
  simp [Gaussian.identityKernel, Finset.sum_range_succ]

set_option maxRecDepth 1000000 in
/-- C7 (as stated) fails in the `float` arithmetic of the code: with the 3x3
kernel whose taps are the `float` nearest to `1/9`, the 4x4 buffer of `3.0`
gives `12582911 / 4194304 = 2.99999976...` at the interior coordinate
`(1, 1)`, not `3`. -/
theorem C7_box_filter_float_counterexample :
    ImageEnhance.avgImg32 ImageEnhance.flatImage3 ImageEnhance.boxKernel.toFloat32 0 1 1
      = 12582911 / 4194304
    ∧ ImageEnhance.avgImg32 ImageEnhance.flatImage3 ImageEnhance.boxKernel.toFloat32 0 1 1
      ≠ repeat_edge ImageEnhance.flatImage3 1 1 := by
  have h : ImageEnhance.avgImg32 ImageEnhance.flatImage3 ImageEnhance.boxKernel.toFloat32 0 1 1
      = 12582911 / 4194304 := by decide!
  refine ⟨h, ?_⟩
  rw [h]
  show (12582911 / 4194304 : ℚ) ≠ 3
  norm_num

set_option maxRecDepth 1000000 in
/-- C7 (amended): in exact arithmetic a kernel whose taps sum to `1` (such as
the 3x3 box kernel of `1/9`) maps a constant image of value `c`, read through
the repeat-edge accessor, to exactly `c` at every coordinate, interior ones
included; in the `float` arithmetic of the code the 4x4 buffer of `10.0` with
the 3x3 kernel of the `float` nearest to `1/9` gives exactly `10.0` at every
coordinate. -/
theorem C7_normalised_kernel_preserves_constants (input maskAvg : Buffer ℚ) (c : ℚ)
    (hW : 0 < input.width) (hH : 0 < input.height)
    (hc : ∀ x y, input.inBounds x y = true → input.pix x y = c)
    (hsum : maskAvg.tapSum = 1) (n : Nat) (x y : Int) :
    ImageEnhance.avgImg input maskAvg n x y = c
    ∧ ImageEnhance.avgImg32 ImageEnhance.flatImage ImageEnhance.boxKernel.toFloat32 n x y
        = 10 := by
  constructor
  · unfold ImageEnhance.avgImg ImageEnhance.AverageFilter
    simp only [repeat_edge_const input c hW hH hc]
    rw [accumulate_const, hsum, mul_one]
  · have e : ImageEnhance.avgImg32 ImageEnhance.flatImage ImageEnhance.boxKernel.toFloat32 n x y
        = ImageEnhance.avgImg32 ImageEnhance.flatImage ImageEnhance.boxKernel.toFloat32 0 0 0 :=
      rfl
    rw [e]
    decide!

theorem C7_normalised_kernel_preserves_constants_witness :
    ImageEnhance.boxKernel.tapSum = 1
    ∧ ImageEnhance.avgImg ImageEnhance.flatImage ImageEnhance.boxKernel 0 1 1 = 10
    ∧ ImageEnhance.avgImg ImageEnhance.flatImage ImageEnhance.boxKernel 0 2 2 = 10
    ∧ ImageEnhance.avgImg32 ImageEnhance.flatImage ImageEnhance.boxKernel.toFloat32 0 1 1 = 10
    ∧ ImageEnhance.avgImg32 ImageEnhance.flatImage ImageEnhance.boxKernel.toFloat32 0 2 2
        = 10 := by
  have hsum : ImageEnhance.boxKernel.tapSum = 1 := by
    simp [Buffer.tapSum, ImageEnhance.boxKernel]
    norm_num
  have h := fun (x y : Int) =>
    C7_normalised_kernel_preserves_constants ImageEnhance.flatImage ImageEnhance.boxKernel 10
      (by decide) (by decide) (fun _ _ _ => rfl) hsum 0 x y
  exact ⟨hsum, (h 1 1).1, (h 2 2).1, (h 1 1).2, (h 2 2).2⟩

/-- C8: on a non-empty `W × H` buffer the boundary accessor clamps each axis
independently, `gray(x, y) = input(min(max(x, 0), W - 1), min(max(y, 0), H - 1))`
for every integer `(x, y)`; that read passes the bounds check of the buffer,
and `gray` agrees with `input` on `[0, W) × [0, H)`. -/
theorem C8_repeat_edge_clamps (input : Buffer ℚ) (hW : 0 < input.width)
    (hH : 0 < input.height) (x y : Int) :
    repeat_edge input x y
        = input.pix (min (max x 0) ((input.width : Int) - 1))
            (min (max y 0) ((input.height : Int) - 1))
    ∧ input.get? (min (max x 0) ((input.width : Int) - 1))
          (min (max y 0) ((input.height : Int) - 1)) = some (repeat_edge input x y)
    ∧ (input.inBounds x y = true → repeat_edge input x y = input.pix x y) := by
  have ex := clamp_eq_min_max x ((input.width : Int) - 1) (by omega)
  have ey := clamp_eq_min_max y ((input.height : Int) - 1) (by omega)
  have hb := repeat_edge_inBounds input hW hH x y
  refine ⟨?_, ?_, ?_⟩
  · simp only [repeat_edge, ex, ey]
  · rw [ex, ey] at hb
    simp only [Buffer.get?, hb, if_true, repeat_edge, ex, ey]
  · intro hin
    simp only [Buffer.inBounds, decide_eq_true_eq] at hin
    simp only [repeat_edge]
    rw [clamp_of_mem x _ (by omega) (by omega), clamp_of_mem y _ (by omega) (by omega)]

theorem C8_repeat_edge_clamps_witness :
    repeat_edge Gaussian.rampImage (-2) 7 = Gaussian.rampImage.pix 0 3
    ∧ Gaussian.rampImage.get? 0 3 = some (repeat_edge Gaussian.rampImage (-2) 7)
    ∧ (Gaussian.rampImage.inBounds (-2) 7 = true →
        repeat_edge Gaussian.rampImage (-2) 7 = Gaussian.rampImage.pix (-2) 7) :=
  C8_repeat_edge_clamps Gaussian.rampImage (by decide) (by decide) (-2) 7

/-! ## Pyramid stages -/

namespace Halide

/-- Halide's integer division by `2` is the floor of the rational quotient. -/
theorem floor_half (x : Int) : ⌊(x : ℚ) / 2⌋ = x / 2 := by
  have h := Rat.floor_intCast_div_natCast x 2
  simpa using h

end Halide

/-- C9: `upsample` is the separable two-tap filter with weights `0.75` at
`floor(x/2)` and `0.25` at `floor(x/2) - 1 + 2 * (x mod 2)`, applied along `x`
(`upx`) and then along `y`, for every integer coordinate; the remainder is
`0` or `1`, so the secondary tap is the left (upper) neighbour `floor(x/2) - 1`
for an even coordinate and the right (lower) neighbour `floor(x/2) + 1` for an
odd one. `ImagePyramid` and `ImageMosaics` use the same two functions. -/
theorem C9_upsample_two_tap_bilinear (f : Func ℚ) (x y : Int) :
    ImagePyramid.upx f x y
        = 0.75 * f ⌊(x : ℚ) / 2⌋ y + 0.25 * f (⌊(x : ℚ) / 2⌋ - 1 + 2 * (x % 2)) y
    ∧ ImagePyramid.upsample f x y
        = 0.75 * ImagePyramid.upx f x ⌊(y : ℚ) / 2⌋
          + 0.25 * ImagePyramid.upx f x (⌊(y : ℚ) / 2⌋ - 1 + 2 * (y % 2))
    ∧ (0 ≤ x % 2 ∧ x % 2 ≤ 1 ∧ 0 ≤ y % 2 ∧ y % 2 ≤ 1)
    ∧ ⌊(x : ℚ) / 2⌋ - 1 + 2 * (x % 2)
        = (if x % 2 = 0 then ⌊(x : ℚ) / 2⌋ - 1 else ⌊(x : ℚ) / 2⌋ + 1)
    ∧ ⌊(y : ℚ) / 2⌋ - 1 + 2 * (y % 2)
        = (if y % 2 = 0 then ⌊(y : ℚ) / 2⌋ - 1 else ⌊(y : ℚ) / 2⌋ + 1)
    ∧ ImageMosaics.upx f x y = ImagePyramid.upx f x y
    ∧ ImageMosaics.upsample f x y = ImagePyramid.upsample f x y := by
  refine ⟨?_, ?_, by omega, ?_, ?_, rfl, rfl⟩
  · rw [floor_half]
    simp only [ImagePyramid.upx]
    ring
  · rw [floor_half]
    simp only [ImagePyramid.upsample]
    ring
  · rw [floor_half]
    split <;> omega
  · rw [floor_half]
    split <;> omega

/-- C10: `gPyramid[0]` is the repeat-edge-wrapped input, and every level `j`
with `1 ≤ j < L` is the blur of level `j - 1` sampled at `(2x, 2y)`, that is
the sum over the kernel offsets `(i, j')` of
`gPyramid[j - 1](2x + i, 2y + j') * maskGaus(i, j')`. -/
theorem C10_gaussian_pyramid_levels (L : Nat) (input maskGaus : Buffer ℚ) (j : Nat)
    (h1 : 1 ≤ j) (_hL : j < L) (x y : Int) :
    ImagePyramid.gPyramid input maskGaus 0 = repeat_edge input
    ∧ ImagePyramid.gPyramid input maskGaus j x y
        = ImagePyramid.blur maskGaus (ImagePyramid.gPyramid input maskGaus (j - 1)) (2 * x) (2 * y)
    ∧ ImagePyramid.gPyramid input maskGaus j x y
        = ∑ j' in Finset.range maskGaus.height, ∑ i in Finset.range maskGaus.width,
            ImagePyramid.gPyramid input maskGaus (j - 1) (2 * x + (i : Int)) (2 * y + (j' : Int))
              * maskGaus.pix (i : Int) (j' : Int) := by
  obtain ⟨k, rfl⟩ : ∃ k, j = k + 1 := ⟨j - 1, by omega⟩
  refine ⟨rfl, rfl, ?_⟩
  simp only [ImagePyramid.gPyramid, ImagePyramid.downsample, ImagePyramid.blur,
    Nat.add_sub_cancel]
  exact accumulate_eq_sum maskGaus _

theorem C10_gaussian_pyramid_levels_witness :
    ImagePyramid.gPyramid Gaussian.rampImage ImagePyramid.maskg 0
        = repeat_edge Gaussian.rampImage
    ∧ ImagePyramid.gPyramid Gaussian.rampImage ImagePyramid.maskg 1 1 0
        = ImagePyramid.blur ImagePyramid.maskg
            (ImagePyramid.gPyramid Gaussian.rampImage ImagePyramid.maskg (1 - 1)) (2 * 1) (2 * 0)
    ∧ ImagePyramid.gPyramid Gaussian.rampImage ImagePyramid.maskg 1 1 0
        = ∑ j' in Finset.range ImagePyramid.maskg.height,
            ∑ i in Finset.range ImagePyramid.maskg.width,
              ImagePyramid.gPyramid Gaussian.rampImage ImagePyramid.maskg (1 - 1)
                  (2 * 1 + (i : Int)) (2 * 0 + (j' : Int))
                * ImagePyramid.maskg.pix (i : Int) (j' : Int) :=
  C10_gaussian_pyramid_levels ImagePyramid.LEVEL Gaussian.rampImage ImagePyramid.maskg 1
    (by decide) (by decide) 1 0

/-! ## Pyramid reconstruction -/

namespace ImageMosaics

theorem mainMask_tapSum : mainMask.tapSum = 1 := by
  simp [Buffer.tapSum, mainMask, coef, Finset.sum_range_succ]
  norm_num

theorem upsample_const (f : Func ℚ) (c : ℚ) (h : ∀ x y, f x y = c) (x y : Int) :
    upsample f x y = c := by
  simp only [upsample, upx, h]
  ring

theorem downsample_const (mask : Buffer ℚ) (f : Func ℚ) (c : ℚ) (h : ∀ x y, f x y = c)
    (hsum : mask.tapSum = 1) (x y : Int) : downsample mask f x y = c := by
  simp only [downsample, blur, h]
  rw [accumulate_const, hsum, mul_one]

theorem gPyramid1_const (input mask : Buffer ℚ) (c : ℚ) (h : ∀ x y, repeat_edge input x y = c)
    (hsum : mask.tapSum = 1) (j : Nat) (x y : Int) : gPyramid1 input mask j x y = c := by
  induction j generalizing x y with
  | zero => exact h x y
  | succ j ih => exact downsample_const mask _ c ih hsum x y

theorem gPyramid2_eq (input mask : Buffer ℚ) (j : Nat) :
    gPyramid2 input mask j = gPyramid1 input mask j := by
  induction j with
  | zero => rfl
  | succ j ih => simp only [gPyramid2, gPyramid1, ih]

/-- With `input1 = input2` the merge returns each Laplacian level unchanged. -/
theorem lPyramid_self (LEVEL : Nat) (input mask : Buffer ℚ) (j : Nat) :
    lPyramid LEVEL input input mask j = lPyramid1 LEVEL input mask j := by
  funext x y
  simp only [lPyramid, levelMerge, lPyramid2, lPyramid1, gPyramid2_eq, ite_self]

theorem lPyramid1_const (LEVEL : Nat) (input mask : Buffer ℚ) (c : ℚ)
    (h : ∀ x y, repeat_edge input x y = c) (hsum : mask.tapSum = 1) (j : Nat) (x y : Int) :
    lPyramid1 LEVEL input mask j x y = if j = LEVEL - 1 then c else 0 := by
  unfold lPyramid1
  split
  · exact gPyramid1_const input mask c h hsum _ x y
  · show gPyramid1 input mask j x y - upsample (gPyramid1 input mask (j + 1)) x y = 0
    rw [gPyramid1_const input mask c h hsum,
      upsample_const _ c (gPyramid1_const input mask c h hsum _)]
    ring

/-- Below the top level the constructor's loop reads the merged levels only. -/
theorem outLPyramid_below_top (LEVEL : Nat) (input1 input2 mask : Buffer ℚ) (j : Nat)
    (hj : j ≠ LEVEL - 1) (x y : Int) :
    outLPyramid LEVEL input1 input2 mask j x y
      = upsample (lPyramid LEVEL input1 input2 mask (j + 1)) x y
        + lPyramid LEVEL input1 input2 mask j x y * 0.5 := by
  simp only [outLPyramid, if_neg hj]

theorem outLPyramid_top (LEVEL : Nat) (input1 input2 mask : Buffer ℚ) :
    outLPyramid LEVEL input1 input2 mask (LEVEL - 1)
      = lPyramid LEVEL input1 input2 mask (LEVEL - 1) := by
  simp only [outLPyramid, if_true]

end ImageMosaics

namespace Halide

/-- The specification's recurrence carries a constant coarsest level down
through levels whose residual is `0`. -/
theorem reconstructFrom_const (processed : Nat → Func ℚ) (top : Nat) (c : ℚ)
    (htop : ∀ x y, processed top x y = c)
    (hlow : ∀ j, j < top → ∀ x y, processed j x y = 0) (k : Nat) (hk : k ≤ top) (x y : Int) :
    reconstructFrom processed top k x y = c := by
  induction k generalizing x y with
  | zero => exact htop x y
  | succ k ih =>
    simp only [reconstructFrom]
    rw [ImageMosaics.upsample_const _ c (ih (by omega)), hlow (top - (k + 1)) (by omega)]
    ring

end Halide

/-- C1 (the code at a failing input): for `ImageMosaics` with `LEVEL = 8`,
both inputs the constant image `16` and the mask of `main`, the constructor's
output at `(0, 0)` is `0`, the recurrence
`out[j] = Upsample(out[j + 1]) + 0.5 * processed[j]` gives `16`, and at level
`5` the constructor's `outLPyramid[5]` differs from
`Upsample(outLPyramid[6]) + 0.5 * lPyramid[5]`. -/
theorem C1_reconstruction_reads_processed_level :
    ImageMosaics.output ImageMosaics.LEVEL (ImageMosaics.constImage 16)
        (ImageMosaics.constImage 16) ImageMosaics.mainMask 0 0 = 0
    ∧ reconstructRef ImageMosaics.LEVEL
        (ImageMosaics.lPyramid ImageMosaics.LEVEL (ImageMosaics.constImage 16)
          (ImageMosaics.constImage 16) ImageMosaics.mainMask) 0 0 0 = 16
    ∧ ImageMosaics.outLPyramid ImageMosaics.LEVEL (ImageMosaics.constImage 16)
        (ImageMosaics.constImage 16) ImageMosaics.mainMask 5 0 0
      ≠ ImageMosaics.upsample
          (ImageMosaics.outLPyramid ImageMosaics.LEVEL (ImageMosaics.constImage 16)
            (ImageMosaics.constImage 16) ImageMosaics.mainMask 6) 0 0
        + 0.5 * ImageMosaics.lPyramid ImageMosaics.LEVEL (ImageMosaics.constImage 16)
            (ImageMosaics.constImage 16) ImageMosaics.mainMask 5 0 0 := by
  have hg : ∀ x y, repeat_edge (ImageMosaics.constImage 16) x y = 16 := fun _ _ => rfl
  have hl : ∀ j x y, ImageMosaics.lPyramid ImageMosaics.LEVEL (ImageMosaics.constImage 16)
      (ImageMosaics.constImage 16) ImageMosaics.mainMask j x y
        = if j = ImageMosaics.LEVEL - 1 then 16 else 0 := by
    intro j x y
    rw [ImageMosaics.lPyramid_self]
    exact ImageMosaics.lPyramid1_const _ _ _ 16 hg ImageMosaics.mainMask_tapSum j x y
  have hout : ∀ j, j < 6 → ∀ x y, ImageMosaics.outLPyramid ImageMosaics.LEVEL
      (ImageMosaics.constImage 16) (ImageMosaics.constImage 16) ImageMosaics.mainMask j x y
        = 0 := by
    intro j hj x y
    have h7 : j ≠ ImageMosaics.LEVEL - 1 := by simp only [ImageMosaics.LEVEL]; omega
    have h7' : j + 1 ≠ ImageMosaics.LEVEL - 1 := by simp only [ImageMosaics.LEVEL]; omega
    rw [ImageMosaics.outLPyramid_below_top _ _ _ _ j h7,
      ImageMosaics.upsample_const _ 0 (fun u v => by rw [hl, if_neg h7']), hl, if_neg h7]
    ring
  have h6 : ∀ x y, ImageMosaics.outLPyramid ImageMosaics.LEVEL (ImageMosaics.constImage 16)
      (ImageMosaics.constImage 16) ImageMosaics.mainMask 6 x y = 16 := by
    intro x y
    rw [ImageMosaics.outLPyramid_below_top _ _ _ _ 6 (by decide),
      ImageMosaics.upsample_const _ 16 (fun u v => by rw [hl]; rfl), hl]
    norm_num [ImageMosaics.LEVEL]
  refine ⟨hout 0 (by decide) 0 0, ?_, ?_⟩
  · exact reconstructFrom_const _ _ 16 (fun x y => by rw [hl]; rfl)
      (fun j hj x y => by rw [hl, if_neg (Nat.ne_of_lt hj)]) _ (le_of_eq rfl) 0 0
  · rw [hout 5 (by decide), ImageMosaics.upsample_const _ 16 h6, hl]
    norm_num [ImageMosaics.LEVEL]

namespace ImageMosaics

/-- The `float` blur of a constant image is the `float` sum of the scaled
taps. -/
theorem blur32_const (mask : Buffer ℚ) (f : Func ℚ) (c v : ℚ) (hf : ∀ x y, f x y = c)
    (h : accumulate32 mask (fun rx ry => fl32 (c * mask.pix rx ry)) = v) (x y : Int) :
    blur32 mask f x y = v := by
  simp only [blur32, hf]
  exact h

theorem gPyramid1_32_const (input mask : Buffer ℚ) (c : ℚ)
    (hg : ∀ x y, repeat_edge input x y = c)
    (h : accumulate32 mask (fun rx ry => fl32 (c * mask.pix rx ry)) = c) :
    ∀ (j : Nat) (x y : Int), gPyramid1_32 input mask j x y = c
  | 0, x, y => hg x y
  | j + 1, x, y => by
    show blur32 mask (gPyramid1_32 input mask j) (2 * x) (2 * y) = c
    exact blur32_const mask _ c c (gPyramid1_32_const input mask c hg h j) h _ _

theorem gPyramid2_32_eq (input mask : Buffer ℚ) :
    ∀ j : Nat, gPyramid2_32 input mask j = gPyramid1_32 input mask j
  | 0 => rfl
  | j + 1 => by
    show downsample32 mask (gPyramid2_32 input mask j)
      = downsample32 mask (gPyramid1_32 input mask j)
    rw [gPyramid2_32_eq input mask j]

theorem upsample32_const (f : Func ℚ) (c : ℚ) (hf : ∀ x y, f x y = c)
    (hc : fl32 (fl32 (0.25 * c) + fl32 (0.75 * c)) = c) (x y : Int) :
    upsample32 f x y = c := by
  simp only [upsample32, upx32, hf, hc]

set_option maxRecDepth 1000000 in
/-- The `float` sum in loop order of the taps of `main`, scaled by `16`. -/
theorem mainMask32_sixteen :
    accumulate32 mainMask.toFloat32 (fun rx ry => fl32 (16 * mainMask.toFloat32.pix rx ry))
      = 16 := by decide!

theorem lPyramid32_const16 (j : Nat) (x y : Int) :
    lPyramid32 LEVEL (constImage 16) (constImage 16) mainMask.toFloat32 j x y
      = if j = LEVEL - 1 then 16 else 0 := by
  have hg : ∀ x y, repeat_edge (constImage 16) x y = 16 := fun _ _ => rfl
  have hG := gPyramid1_32_const (constImage 16) mainMask.toFloat32 16 hg mainMask32_sixteen
  have h16 : fl32 (fl32 (0.25 * 16) + fl32 (0.75 * 16)) = (16 : ℚ) := by decide!
  have h1 : lPyramid1_32 LEVEL (constImage 16) mainMask.toFloat32 j x y
      = if j = LEVEL - 1 then 16 else 0 := by
    unfold lPyramid1_32
    split
    · exact hG _ x y
    · show fl32 (gPyramid1_32 (constImage 16) mainMask.toFloat32 j x y
        - upsample32 (gPyramid1_32 (constImage 16) mainMask.toFloat32 (j + 1)) x y) = 0
      rw [hG, upsample32_const _ 16 (hG _) h16, sub_self, fl32_zero]
  have h2 : lPyramid2_32 LEVEL (constImage 16) mainMask.toFloat32 j x y
      = lPyramid1_32 LEVEL (constImage 16) mainMask.toFloat32 j x y := by
    simp only [lPyramid2_32, lPyramid1_32, gPyramid2_32_eq]
  simp only [lPyramid32, levelMerge, h2, ite_self, h1]

/-- The `float` pipeline with `LEVEL = 8`, both inputs the constant image
`16` and the `float` table of `main`, returns `0` at every pixel. -/
theorem output32_const16 (x y : Int) :
    output32 LEVEL (constImage 16) (constImage 16) mainMask.toFloat32 x y = 0 := by
  have h0 : fl32 (fl32 (0.25 * 0) + fl32 (0.75 * 0)) = (0 : ℚ) := by
    simp [fl32_zero]
  show outLPyramid32 LEVEL (constImage 16) (constImage 16) mainMask.toFloat32 0 x y = 0
  unfold outLPyramid32
  rw [if_neg (by decide)]
  show fl32 (upsample32 (lPyramid32 LEVEL (constImage 16) (constImage 16) mainMask.toFloat32
      (0 + 1)) x y
    + fl32 (lPyramid32 LEVEL (constImage 16) (constImage 16) mainMask.toFloat32 0 x y * 0.5))
    = 0
  rw [upsample32_const _ 0 (fun u v => by rw [lPyramid32_const16]; rfl) h0, lPyramid32_const16,
    if_neg (by decide)]
  simp [fl32_zero]

end ImageMosaics

/-- C2 (the code at a failing input): for `ImageMosaics` with `LEVEL = 8`,
`input1 = input2` the constant image `16` and the mask of `main` (taps
summing to `1`), the merge returns each Laplacian level unchanged and the
input is `16` at every pixel, but the constructor's output is `0` at every
pixel, in exact arithmetic and in the `float` arithmetic of the code;
reconstruction by repeated upsample-and-add from the top level gives `16`. -/
theorem C2_constant_image_is_not_reconstructed (j : Nat) (x y : Int) :
    ImageMosaics.mainMask.tapSum = 1
    ∧ ImageMosaics.lPyramid ImageMosaics.LEVEL (ImageMosaics.constImage 16)
        (ImageMosaics.constImage 16) ImageMosaics.mainMask j x y
      = ImageMosaics.lPyramid1 ImageMosaics.LEVEL (ImageMosaics.constImage 16)
          ImageMosaics.mainMask j x y
    ∧ repeat_edge (ImageMosaics.constImage 16) x y = 16
    ∧ ImageMosaics.output ImageMosaics.LEVEL (ImageMosaics.constImage 16)
        (ImageMosaics.constImage 16) ImageMosaics.mainMask x y = 0
    ∧ ImageMosaics.output32 ImageMosaics.LEVEL (ImageMosaics.constImage 16)
        (ImageMosaics.constImage 16) ImageMosaics.mainMask.toFloat32 x y = 0
    ∧ reconstructRef ImageMosaics.LEVEL
        (ImageMosaics.lPyramid ImageMosaics.LEVEL (ImageMosaics.constImage 16)
          (ImageMosaics.constImage 16) ImageMosaics.mainMask) 0 x y = 16 := by
  have hg : ∀ x y, repeat_edge (ImageMosaics.constImage 16) x y = 16 := fun _ _ => rfl
  have hl : ∀ j x y, ImageMosaics.lPyramid ImageMosaics.LEVEL (ImageMosaics.constImage 16)
      (ImageMosaics.constImage 16) ImageMosaics.mainMask j x y
        = if j = ImageMosaics.LEVEL - 1 then 16 else 0 := by
    intro j x y
    rw [ImageMosaics.lPyramid_self]
    exact ImageMosaics.lPyramid1_const _ _ _ 16 hg ImageMosaics.mainMask_tapSum j x y
  refine ⟨ImageMosaics.mainMask_tapSum, ?_, rfl, ?_, ImageMosaics.output32_const16 x y, ?_⟩
  · rw [ImageMosaics.lPyramid_self]
  · rw [ImageMosaics.output, ImageMosaics.outLPyramid_below_top _ _ _ _ 0 (by decide),
      ImageMosaics.upsample_const _ 0 (fun u v => by rw [hl]; rfl), hl]
    norm_num [ImageMosaics.LEVEL]
  · exact reconstructFrom_const _ _ 16 (fun x y => by rw [hl]; rfl)
      (fun j hj x y => by rw [hl, if_neg (Nat.ne_of_lt hj)]) _ (le_of_eq rfl) x y

/-! ## The à-trous stage -/

namespace NightFilter

theorem mask3_tapSum : mask3.tapSum = 1 := by
  simp [Buffer.tapSum, mask3, coef3, Finset.sum_range_succ]
  norm_num

end NightFilter

set_option maxRecDepth 1000000 in
/-- C3 (the code at a failing input): on the uniform image of pixel
`P = 0x00000001` (`R = 1`, `G = B = 0`) one `AtrousFilter` stage with the
`float` table `mask3` returns `0xff000000`, while the identity apart from
alpha is `0xff000001`: the channel `1 / 255` is an unsigned division and gives
`0`.  On the uniform image of pixel `0x000000ff` the stage returns
`0xff0008f7`, not `0xff0000ff`: the red numerator sums the nine window samples
without the mask factor (`9 * 255 = 0x8f7`). -/
theorem C3_atrous_uniform_not_identity :
    NightFilter.AtrousFilter NightFilter.mask3.toFloat32 (NightFilter.uniform 1) 0 0 = 0xff000000
    ∧ NightFilter.identityApartFromAlpha 1 = 0xff000001
    ∧ NightFilter.AtrousFilter NightFilter.mask3.toFloat32 (NightFilter.uniform 0xff) 0 0
        = 0xff0008f7
    ∧ NightFilter.identityApartFromAlpha 0xff = 0xff0000ff := by
  refine ⟨?_, ?_, ?_, ?_⟩
  · decide!
  · decide
  · decide!
  · decide

/-! ## The checked constructor of `ImagePyramid` -/

namespace Halide

theorem mem_loopUp (LEVEL : Nat) (j : Int) :
    j ∈ loopUp LEVEL ↔ 1 ≤ j ∧ j < (LEVEL : Int) := by
  simp only [loopUp, List.mem_map, List.mem_range]
  constructor
  · rintro ⟨k, hk, rfl⟩
    omega
  · intro h
    exact ⟨(j - 1).toNat, by omega, by omega⟩

theorem mem_loopDown (LEVEL : Nat) (j : Int) :
    j ∈ loopDown LEVEL ↔ 0 ≤ j ∧ j + 1 < (LEVEL : Int) := by
  simp only [loopDown, List.mem_map, List.mem_reverse, List.mem_range]
  constructor
  · rintro ⟨k, hk, rfl⟩
    omega
  · intro h
    exact ⟨j.toNat, by omega, by omega⟩

theorem nodup_loopUp (LEVEL : Nat) : (loopUp LEVEL).Nodup := by
  unfold loopUp
  refine List.Nodup.map ?_ (List.nodup_range _)
  intro a b h
  simpa using h

theorem nodup_loopDown (LEVEL : Nat) : (loopDown LEVEL).Nodup := by
  unfold loopDown
  refine List.Nodup.map ?_ (List.nodup_reverse.mpr (List.nodup_range _))
  intro a b h
  simpa using h

namespace FuncArray

theorem define_fresh (size : Nat) (e : Nat → Option (Func ℚ)) (j : Int) (f : Func ℚ)
    (h0 : 0 ≤ j) (h1 : j < (size : Int)) (he : e j.toNat = none) :
    define { size := size, elems := e } j f
      = some { size := size, elems := fun i => if i = j.toNat then some f else e i } := by
  simp only [define, h0, h1, and_self, if_true, he]

theorem call_defined (size : Nat) (e : Nat → Option (Func ℚ)) (j : Int) (f : Func ℚ)
    (h0 : 0 ≤ j) (h1 : j < (size : Int)) (he : e j.toNat = some f) :
    call { size := size, elems := e } j = some f := by
  simp only [call, h0, h1, and_self, if_true, he]

/-- A loop whose body defines `a[j]` as `G j`, over distinct indices of the
array that are still undefined, defines exactly those elements. -/
theorem foldlM_define (size : Nat) (G : Nat → Func ℚ) (body : FuncArray → Int → Option FuncArray)
    (js : List Int) (hbody : ∀ j ∈ js, ∀ a, body a j = a.define j (G j.toNat))
    (hnd : js.Nodup) (hr : ∀ j ∈ js, 0 ≤ j ∧ j < (size : Int))
    (e : Nat → Option (Func ℚ)) (he : ∀ j ∈ js, e j.toNat = none) :
    js.foldlM body { size := size, elems := e }
      = some { size := size,
               elems := fun i => if (i : Int) ∈ js then some (G i) else e i } := by
  induction js generalizing e with
  | nil => simp
  | cons j js ih =>
    have hj := hr j (List.mem_cons_self _ _)
    rw [List.foldlM_cons, hbody j (List.mem_cons_self _ _),
      define_fresh size e j _ hj.1 hj.2 (he j (List.mem_cons_self _ _))]
    simp only [Option.bind_eq_bind, Option.some_bind]
    rw [ih (fun k hk => hbody k (List.mem_cons_of_mem _ hk)) (List.nodup_cons.mp hnd).2
      (fun k hk => hr k (List.mem_cons_of_mem _ hk))]
    · congr 2
      funext i
      by_cases hi : (i : Int) ∈ js
      · rw [if_pos hi, if_pos (List.mem_cons_of_mem _ hi)]
      · by_cases hij : i = j.toNat
        · have hmem : (i : Int) ∈ j :: js := by
            have : (i : Int) = j := by omega
            rw [this]
            exact List.mem_cons_self _ _
          rw [if_neg hi, if_pos hij, if_pos hmem, hij]
        · have hmem : (i : Int) ∉ j :: js := by
            intro h
            rcases List.mem_cons.mp h with h | h
            · omega
            · exact hi h
          rw [if_neg hi, if_neg hij, if_neg hmem]
    · intro k hk
      have hkj : k ≠ j := fun h => (List.nodup_cons.mp hnd).1 (h ▸ hk)
      have hk0 := hr k (List.mem_cons_of_mem _ hk)
      have : k.toNat ≠ j.toNat := by omega
      simp only [this, if_false]
      exact he k (List.mem_cons_of_mem _ hk)

end FuncArray

end Halide

namespace ImagePyramid

/-- The first loop of the constructor defines `gPyramid[1 .. n]`. -/
theorem gPyramid_loop (LEVEL : Nat) (input maskGaus : Buffer ℚ) (n : Nat) (hn : n + 1 ≤ LEVEL) :
    ((List.range n).map (fun (k : Nat) => (k : Int) + 1)).foldlM
        (fun (g : FuncArray) (j : Int) => do
          let prev ← g.call (j - 1)
          g.define j (downsample maskGaus prev))
        { size := LEVEL,
          elems := fun i => if i ≤ 0 then some (gPyramid input maskGaus i) else none }
      = some { size := LEVEL,
               elems := fun i => if i ≤ n then some (gPyramid input maskGaus i) else none } := by
  induction n with
  | zero => simp
  | succ n ih =>
    rw [List.range_succ, List.map_append, List.foldlM_append, ih (by omega)]
    simp only [List.map_cons, List.map_nil, List.foldlM_cons, List.foldlM_nil,
      Option.bind_eq_bind, Option.some_bind, add_sub_cancel_right]
    rw [FuncArray.call_defined LEVEL _ (n : Int) (gPyramid input maskGaus n) (by omega) (by omega)
      (by simp)]
    simp only [Option.some_bind]
    rw [FuncArray.define_fresh LEVEL _ ((n : Int) + 1) _ (by omega) (by omega)
      (by
        have : ((n : Int) + 1).toNat = n + 1 := by omega
        simp [this])]
    simp only [Option.pure_def, Option.bind_some]
    congr 2
    funext i
    have ht : ((n : Int) + 1).toNat = n + 1 := by omega
    rw [ht]
    by_cases h1 : i = n + 1
    · subst h1
      simp [gPyramid]
    · by_cases h2 : i ≤ n
      · have : i ≤ n + 1 := by omega
        simp [h1, h2, this]
      · have : ¬ i ≤ n + 1 := by omega
        simp [h1, h2, this]

end ImagePyramid

namespace Halide

/-- One array of the constructor: a first definition at `first`, then a loop
over the other indices; afterwards every element `a[j]` is `F j`. -/
theorem FuncArray.stage (LEVEL : Nat) (first : Int) (f0 : Func ℚ) (js : List Int)
    (G F : Nat → Func ℚ) (body : FuncArray → Int → Option FuncArray)
    (hfirst : 0 ≤ first ∧ first < (LEVEL : Int))
    (hbody : ∀ j ∈ js, ∀ a, body a j = a.define j (G j.toNat))
    (hnd : js.Nodup) (hr : ∀ j ∈ js, 0 ≤ j ∧ j < (LEVEL : Int)) (hnot : first ∉ js)
    (hF0 : F first.toNat = f0) (hFG : ∀ j ∈ js, F j.toNat = G j.toNat)
    (hcover : ∀ j : Int, 0 ≤ j → j < (LEVEL : Int) → j = first ∨ j ∈ js) :
    ∃ A0 A : FuncArray, (FuncArray.declare LEVEL).define first f0 = some A0
      ∧ js.foldlM body A0 = some A
      ∧ ∀ j : Int, 0 ≤ j → j < (LEVEL : Int) → A.call j = some (F j.toNat) := by
  refine ⟨_, _, FuncArray.define_fresh LEVEL _ first f0 hfirst.1 hfirst.2 rfl,
    FuncArray.foldlM_define LEVEL G body js hbody hnd hr _ ?_, ?_⟩
  · intro j hj
    have h0 := hr j hj
    have hne : j.toNat ≠ first.toNat := by
      intro h
      have : j = first := by omega
      exact hnot (this ▸ hj)
    simp only [if_neg hne]
  · intro j h0 h1
    apply FuncArray.call_defined LEVEL _ j _ h0 h1
    have hi : ((j.toNat : Nat) : Int) = j := by omega
    show (if ((j.toNat : Nat) : Int) ∈ js then some (G j.toNat)
      else if j.toNat = first.toNat then some f0 else none) = some (F j.toNat)
    rw [hi]
    by_cases hj : j ∈ js
    · rw [if_pos hj, hFG j hj]
    · have hjf : j = first := (hcover j h0 h1).resolve_right hj
      subst hjf
      rw [if_neg hj, if_pos rfl, hF0]

end Halide

namespace ImagePyramid

/-- For at least one level, every array access of the constructor is in
range and the constructed `output` is the function `ImagePyramid.output`. -/
theorem PipelineClass_eq_output (expf : ℚ → ℚ) (LEVEL : Nat) (hL : 1 ≤ LEVEL)
    (input mask maskGaus : Buffer ℚ) (sigma_s : ℚ) :
    PipelineClass expf LEVEL input mask maskGaus sigma_s
      = some (output expf LEVEL input mask maskGaus sigma_s) := by
  -- gPyramid
  have hg0 : (FuncArray.declare LEVEL).define 0 (repeat_edge input)
      = some { size := LEVEL,
               elems := fun i => if i ≤ 0 then some (gPyramid input maskGaus i) else none } := by
    rw [FuncArray.declare, FuncArray.define_fresh LEVEL _ 0 _ (le_refl _) (by omega) rfl]
    congr 2
    funext i
    by_cases hi : i = 0
    · subst hi
      rfl
    · have : ¬ i ≤ 0 := by omega
      simp [hi, this]
  have hg := gPyramid_loop LEVEL input maskGaus (LEVEL - 1) (by omega)
  have gcall : ∀ j : Int, 0 ≤ j → j < (LEVEL : Int) →
      FuncArray.call { size := LEVEL, elems := fun i =>
        if i ≤ LEVEL - 1 then some (gPyramid input maskGaus i) else none } j
        = some (gPyramid input maskGaus j.toNat) := by
    intro j h0 h1
    apply FuncArray.call_defined LEVEL _ j _ h0 h1
    have : j.toNat ≤ LEVEL - 1 := by omega
    simp only [if_pos this]
  have hmid : ∀ j : Int, 0 ≤ j → j < (LEVEL : Int) → j = (LEVEL : Int) - 1 ∨ j ∈ loopDown LEVEL := by
    intro j h0 h1
    rw [mem_loopDown]
    omega
  have hlow : ∀ j : Int, 0 ≤ j → j < (LEVEL : Int) → j = 0 ∨ j ∈ loopUp LEVEL := by
    intro j h0 h1
    rw [mem_loopUp]
    omega
  have hnotD : ((LEVEL : Int) - 1) ∉ loopDown LEVEL := by
    rw [mem_loopDown]
    omega
  have hnotU : (0 : Int) ∉ loopUp LEVEL := by
    rw [mem_loopUp]
    omega
  have hrD : ∀ j ∈ loopDown LEVEL, 0 ≤ j ∧ j < (LEVEL : Int) := by
    intro j hj
    rw [mem_loopDown] at hj
    omega
  have hrU : ∀ j ∈ loopUp LEVEL, 0 ≤ j ∧ j < (LEVEL : Int) := by
    intro j hj
    rw [mem_loopUp] at hj
    omega
  have htop : ((LEVEL : Int) - 1).toNat = LEVEL - 1 := by omega
  -- lPyramid
  obtain ⟨L0, LA, hl0, hl, lcall⟩ := FuncArray.stage LEVEL ((LEVEL : Int) - 1)
    (gPyramid input maskGaus (LEVEL - 1)) (loopDown LEVEL)
    (fun j => fun x y => gPyramid input maskGaus j x y
      - upsample (gPyramid input maskGaus (j + 1)) x y)
    (lPyramid LEVEL input maskGaus)
    (fun (l : FuncArray) (j : Int) => do
      let gj ← FuncArray.call { size := LEVEL, elems := fun i =>
        if i ≤ LEVEL - 1 then some (gPyramid input maskGaus i) else none } j
      let gj1 ← FuncArray.call { size := LEVEL, elems := fun i =>
        if i ≤ LEVEL - 1 then some (gPyramid input maskGaus i) else none } (j + 1)
      l.define j (fun x y => gj x y - upsample gj1 x y))
    (by omega)
    (by
      intro j hj a
      rw [mem_loopDown] at hj
      have h1 : (j + 1).toNat = j.toNat + 1 := by omega
      simp only [gcall j (by omega) (by omega), gcall (j + 1) (by omega) (by omega), h1,
        Option.bind_eq_bind, Option.some_bind])
    (nodup_loopDown LEVEL) hrD hnotD
    (by rw [htop]; simp only [lPyramid, if_true])
    (by
      intro j hj
      rw [mem_loopDown] at hj
      have : j.toNat ≠ LEVEL - 1 := by omega
      simp only [lPyramid, if_neg this])
    hmid
  -- BLPyramid
  obtain ⟨B0, BA, hb0, hb, bcall⟩ := FuncArray.stage LEVEL 0
    (lPyramid LEVEL input maskGaus 0) (loopUp LEVEL)
    (fun j => bilateral expf mask sigma_s (lPyramid LEVEL input maskGaus j))
    (BLPyramid expf LEVEL input mask maskGaus sigma_s)
    (fun (b : FuncArray) (j : Int) => do
      let lj ← LA.call j
      b.define j (bilateral expf mask sigma_s lj))
    (by omega)
    (by
      intro j hj a
      have h := hrU j hj
      simp only [lcall j h.1 h.2, Option.bind_eq_bind, Option.some_bind])
    (nodup_loopUp LEVEL) hrU hnotU
    (by simp only [BLPyramid, Int.toNat_zero, if_true])
    (by
      intro j hj
      rw [mem_loopUp] at hj
      have : j.toNat ≠ 0 := by omega
      simp only [BLPyramid, if_neg this])
    hlow
  -- outLPyramid
  obtain ⟨O0, OA, ho0, ho, ocall⟩ := FuncArray.stage LEVEL ((LEVEL : Int) - 1)
    (BLPyramid expf LEVEL input mask maskGaus sigma_s (LEVEL - 1)) (loopDown LEVEL)
    (fun j => fun x y => upsample (BLPyramid expf LEVEL input mask maskGaus sigma_s (j + 1)) x y
      + BLPyramid expf LEVEL input mask maskGaus sigma_s j x y * 0.5)
    (outLPyramid expf LEVEL input mask maskGaus sigma_s)
    (fun (o : FuncArray) (j : Int) => do
      let bj ← BA.call j
      let bj1 ← BA.call (j + 1)
      o.define j (fun x y => upsample bj1 x y + bj x y * 0.5))
    (by omega)
    (by
      intro j hj a
      rw [mem_loopDown] at hj
      have h1 : (j + 1).toNat = j.toNat + 1 := by omega
      simp only [bcall j (by omega) (by omega), bcall (j + 1) (by omega) (by omega), h1,
        Option.bind_eq_bind, Option.some_bind])
    (nodup_loopDown LEVEL) hrD hnotD
    (by rw [htop]; simp only [outLPyramid, if_true])
    (by
      intro j hj
      rw [mem_loopDown] at hj
      have : j.toNat ≠ LEVEL - 1 := by omega
      simp only [outLPyramid, if_neg this])
    hmid
  have hgt := gcall ((LEVEL : Int) - 1) (by omega) (by omega)
  have hlt := lcall 0 (le_refl _) (by omega)
  have hbt := bcall ((LEVEL : Int) - 1) (by omega) (by omega)
  have hot := ocall 0 (le_refl _) (by omega)
  rw [htop] at hgt hbt
  simp only [Int.toNat_zero] at hlt hot
  have hgl : (loopUp LEVEL).foldlM
      (fun (g : FuncArray) (j : Int) => do
        let prev ← g.call (j - 1)
        g.define j (downsample maskGaus prev))
      { size := LEVEL,
        elems := fun i => if i ≤ 0 then some (gPyramid input maskGaus i) else none }
      = some { size := LEVEL, elems := fun i =>
          if i ≤ LEVEL - 1 then some (gPyramid input maskGaus i) else none } := hg
  simp only [Option.bind_eq_bind] at hgl hl hb ho
  simp only [PipelineClass, Option.bind_eq_bind, hg0, Option.some_bind, hgl, hgt, hl0, hl, hlt,
    hb0, hb, hbt, ho0, ho, hot, output]

end ImagePyramid

/-! ## Laplacian levels, the single-level pyramid and the blend -/

/-- C11: the top Laplacian level is the top Gaussian level,
`lPyramid[L - 1] = gPyramid[L - 1]`, and for every `j < L - 1` and every
`(x, y)`, `lPyramid[j](x, y) = gPyramid[j](x, y) - upsample(gPyramid[j + 1])(x, y)`;
in `ImagePyramid` and for both pyramids of `ImageMosaics`. -/
theorem C11_laplacian_pyramid_levels (L : Nat) (input mask : Buffer ℚ) (j : Nat)
    (hj : j < L - 1) (x y : Int) :
    ImagePyramid.lPyramid L input mask (L - 1) = ImagePyramid.gPyramid input mask (L - 1)
    ∧ ImagePyramid.lPyramid L input mask j x y
        = ImagePyramid.gPyramid input mask j x y
          - ImagePyramid.upsample (ImagePyramid.gPyramid input mask (j + 1)) x y
    ∧ ImageMosaics.lPyramid1 L input mask (L - 1) = ImageMosaics.gPyramid1 input mask (L - 1)
    ∧ ImageMosaics.lPyramid1 L input mask j x y
        = ImageMosaics.gPyramid1 input mask j x y
          - ImageMosaics.upsample (ImageMosaics.gPyramid1 input mask (j + 1)) x y
    ∧ ImageMosaics.lPyramid2 L input mask (L - 1) = ImageMosaics.gPyramid2 input mask (L - 1)
    ∧ ImageMosaics.lPyramid2 L input mask j x y
        = ImageMosaics.gPyramid2 input mask j x y
          - ImageMosaics.upsample (ImageMosaics.gPyramid2 input mask (j + 1)) x y := by
  have hne : j ≠ L - 1 := Nat.ne_of_lt hj
  refine ⟨?_, ?_, ?_, ?_, ?_, ?_⟩
  · simp only [ImagePyramid.lPyramid, if_true]
  · simp only [ImagePyramid.lPyramid, if_neg hne]
  · simp only [ImageMosaics.lPyramid1, if_true]
  · simp only [ImageMosaics.lPyramid1, if_neg hne]
  · simp only [ImageMosaics.lPyramid2, if_true]
  · simp only [ImageMosaics.lPyramid2, if_neg hne]

theorem C11_laplacian_pyramid_levels_witness :
    ImagePyramid.lPyramid 8 Gaussian.rampImage ImagePyramid.maskg (8 - 1)
        = ImagePyramid.gPyramid Gaussian.rampImage ImagePyramid.maskg (8 - 1)
    ∧ ImagePyramid.lPyramid 8 Gaussian.rampImage ImagePyramid.maskg 3 1 2
        = ImagePyramid.gPyramid Gaussian.rampImage ImagePyramid.maskg 3 1 2
          - ImagePyramid.upsample
              (ImagePyramid.gPyramid Gaussian.rampImage ImagePyramid.maskg (3 + 1)) 1 2
    ∧ ImageMosaics.lPyramid1 8 Gaussian.rampImage ImagePyramid.maskg (8 - 1)
        = ImageMosaics.gPyramid1 Gaussian.rampImage ImagePyramid.maskg (8 - 1)
    ∧ ImageMosaics.lPyramid1 8 Gaussian.rampImage ImagePyramid.maskg 3 1 2
        = ImageMosaics.gPyramid1 Gaussian.rampImage ImagePyramid.maskg 3 1 2
          - ImageMosaics.upsample
              (ImageMosaics.gPyramid1 Gaussian.rampImage ImagePyramid.maskg (3 + 1)) 1 2
    ∧ ImageMosaics.lPyramid2 8 Gaussian.rampImage ImagePyramid.maskg (8 - 1)
        = ImageMosaics.gPyramid2 Gaussian.rampImage ImagePyramid.maskg (8 - 1)
    ∧ ImageMosaics.lPyramid2 8 Gaussian.rampImage ImagePyramid.maskg 3 1 2
        = ImageMosaics.gPyramid2 Gaussian.rampImage ImagePyramid.maskg 3 1 2
          - ImageMosaics.upsample
              (ImageMosaics.gPyramid2 Gaussian.rampImage ImagePyramid.maskg (3 + 1)) 1 2 :=
  C11_laplacian_pyramid_levels 8 Gaussian.rampImage ImagePyramid.maskg 3 (by decide) 1 2

/-- C12 (as stated) fails: with `LEVEL = 0` the constructor has no element
`gPyramid[0]` to define, so the construction is an error. -/
theorem C12_zero_levels_counterexample :
    ImagePyramid.PipelineClass expStandIn 0 Gaussian.rampImage Bilateral.mainMask
      ImagePyramid.maskg Bilateral.mainSigma = none := rfl

/-- C12 (amended): with `LEVEL = 1` no loop of the `ImagePyramid`
constructor runs, every array access is in range and the output is the
boundary-wrapped input `gray` at every pixel; the construction is well
defined exactly for the level counts `L ≥ 1`. -/
theorem C12_single_level_passthrough (expf : ℚ → ℚ) (input mask maskGaus : Buffer ℚ)
    (sigma_s : ℚ) (x y : Int) :
    loopUp 1 = [] ∧ loopDown 1 = []
    ∧ ImagePyramid.PipelineClass expf 1 input mask maskGaus sigma_s = some (repeat_edge input)
    ∧ ImagePyramid.output expf 1 input mask maskGaus sigma_s x y = repeat_edge input x y
    ∧ ∀ L : Nat, (ImagePyramid.PipelineClass expf L input mask maskGaus sigma_s).isSome = true
        ↔ 1 ≤ L := by
  refine ⟨rfl, rfl, rfl, rfl, fun L => ?_⟩
  constructor
  · intro h
    rcases Nat.eq_zero_or_pos L with h0 | h0
    · subst h0
      have hnone : ImagePyramid.PipelineClass expf 0 input mask maskGaus sigma_s = none := rfl
      rw [hnone] at h
      exact absurd h (by decide)
    · exact h0
  · intro h
    rw [ImagePyramid.PipelineClass_eq_output expf L h]
    rfl

namespace ImageMosaics

theorem lPyramid2_eq (LEVEL : Nat) (input mask : Buffer ℚ) (j : Nat) :
    lPyramid2 LEVEL input mask j = lPyramid1 LEVEL input mask j := by
  simp only [lPyramid2, lPyramid1, gPyramid2_eq]

/-- `upsample` keeps a value that holds on a left half-plane `x < B`. -/
theorem upsample_const_left (f : Func ℚ) (c : ℚ) (B : Int) (hB : 1 ≤ B)
    (h : ∀ x y, x < B → f x y = c) (x y : Int) (hx : x < B) : upsample f x y = c := by
  have h1 : x / 2 < B := by omega
  have h2 : x / 2 - 1 + 2 * (x % 2) < B := by omega
  simp only [upsample, upx, h _ _ h1, h _ _ h2]
  ring

end ImageMosaics

namespace Halide

theorem reconstructFrom_const_left (processed : Nat → Func ℚ) (top : Nat) (c : ℚ) (B : Int)
    (hB : 1 ≤ B) (htop : ∀ x y, x < B → processed top x y = c)
    (hlow : ∀ j, j < top → ∀ x y, processed j x y = 0) (k : Nat) (hk : k ≤ top) (x y : Int)
    (hx : x < B) : reconstructFrom processed top k x y = c := by
  induction k generalizing x y with
  | zero => exact htop x y hx
  | succ k ih =>
    simp only [reconstructFrom]
    rw [ImageMosaics.upsample_const_left _ c B hB (fun u v hu => ih (by omega) u v hu) x y hx,
      hlow (top - (k + 1)) (by omega)]
    ring

end Halide

/-- C13 (the code at a failing input): `levelMerge` selects `f1` for
`x < floor(input1.width() / 2)` and `f2` otherwise, and every merged level is
`levelMerge(lPyramid1[j], lPyramid2[j])`; but for `LEVEL = 8`, `input1` the
constant image `16`, `input2` the constant image `32` and the mask of `main`,
the constructor's output at `(0, 0)` is `0`, while the reconstruction
`out[j] = Upsample(out[j + 1]) + 0.5 * lPyramid[j]` of the merged levels
gives `16`. -/
theorem C13_merge_selects_but_output_skips_recurrence :
    (∀ (input1 : Buffer ℚ) (f1 f2 : Func ℚ) (x y : Int),
        ImageMosaics.levelMerge input1 f1 f2 x y
          = if x < ⌊(input1.width : ℚ) / 2⌋ then f1 x y else f2 x y)
    ∧ (∀ (LEVEL : Nat) (input1 input2 mask : Buffer ℚ) (j : Nat),
        ImageMosaics.lPyramid LEVEL input1 input2 mask j
          = ImageMosaics.levelMerge input1 (ImageMosaics.lPyramid1 LEVEL input1 mask j)
              (ImageMosaics.lPyramid2 LEVEL input2 mask j))
    ∧ ImageMosaics.output ImageMosaics.LEVEL (ImageMosaics.constImage 16)
        (ImageMosaics.constImage 32) ImageMosaics.mainMask 0 0 = 0
    ∧ reconstructRef ImageMosaics.LEVEL
        (ImageMosaics.lPyramid ImageMosaics.LEVEL (ImageMosaics.constImage 16)
          (ImageMosaics.constImage 32) ImageMosaics.mainMask) 0 0 0 = 16 := by
  have hl : ∀ j x y, ImageMosaics.lPyramid ImageMosaics.LEVEL (ImageMosaics.constImage 16)
      (ImageMosaics.constImage 32) ImageMosaics.mainMask j x y
        = if x < 256 then (if j = ImageMosaics.LEVEL - 1 then 16 else 0)
          else (if j = ImageMosaics.LEVEL - 1 then 32 else 0) := by
    intro j x y
    simp only [ImageMosaics.lPyramid, ImageMosaics.levelMerge, ImageMosaics.lPyramid2_eq]
    rw [ImageMosaics.lPyramid1_const _ (ImageMosaics.constImage 16) _ 16 (fun _ _ => rfl)
        ImageMosaics.mainMask_tapSum,
      ImageMosaics.lPyramid1_const _ (ImageMosaics.constImage 32) _ 32 (fun _ _ => rfl)
        ImageMosaics.mainMask_tapSum]
    rfl
  have hlow : ∀ j, j < ImageMosaics.LEVEL - 1 → ∀ x y, ImageMosaics.lPyramid ImageMosaics.LEVEL
      (ImageMosaics.constImage 16) (ImageMosaics.constImage 32) ImageMosaics.mainMask j x y
        = 0 := by
    intro j hj x y
    rw [hl, if_neg (Nat.ne_of_lt hj), if_neg (Nat.ne_of_lt hj), ite_self]
  refine ⟨?_, fun _ _ _ _ _ => rfl, ?_, ?_⟩
  · intro input1 f1 f2 x y
    have hfl : ⌊(input1.width : ℚ) / 2⌋ = ((input1.width / 2 : Nat) : Int) := by
      have h := floor_half (input1.width : Int)
      rw [Int.cast_natCast] at h
      rw [h, Int.natCast_div]
      rfl
    rw [hfl]
    rfl
  · rw [ImageMosaics.output, ImageMosaics.outLPyramid_below_top _ _ _ _ 0 (by decide),
      ImageMosaics.upsample_const _ 0 (hlow 1 (by decide)), hlow 0 (by decide)]
    norm_num
  · exact reconstructFrom_const_left _ _ 16 256 (by decide)
      (fun x y hx => by rw [hl, if_pos hx]; rfl) hlow _ (le_of_eq rfl) 0 0 (by decide)

/-! ## The bilateral filter -/

namespace Bilateral

theorem bilateralMask_tapSum : mainMask.tapSum = 66577 / 1250 := by
  simp [Buffer.tapSum, mainMask, coef, Finset.sum_range_succ]
  norm_num

end Bilateral

/-- C15: for every `f`, kernel, `sigma_s` and pixel the bilateral filter is
the reference formula `(Σ weight(n) · f(p + n)) / (Σ weight(n)) + 0.5` with
`Δ(n) = f(p + n) − f(p)`, `c = 0.5 / σ_s²` and
`weight(n) = exp(−c · Δ(n)²) · W(n)`; the standalone `Bilateral` and the
`bilateral` of `ImagePyramid` are the same function. -/
theorem C15_bilateral_eq_reference (expf : ℚ → ℚ) (mask : Buffer ℚ) (sigma_s : ℚ) (f : Func ℚ)
    (x y : Int) :
    Bilateral.Bilateral expf mask sigma_s f x y
        = bilateralRef expf mask.width mask.height mask.pix sigma_s f x y
    ∧ ImagePyramid.bilateral expf mask sigma_s f x y
        = Bilateral.Bilateral expf mask sigma_s f x y := by
  refine ⟨?_, rfl⟩
  have harg : ∀ a : ℚ, a * a * -(0.5 / (sigma_s * sigma_s)) = -(0.5 / sigma_s ^ 2 * a ^ 2) := by
    intro a
    ring
  simp only [Bilateral.Bilateral, bilateralRef, accumulate_eq_sum, harg]

namespace Bilateral

theorem expStandIn_zero : expStandIn 0 = 1 := by norm_num [expStandIn]

/-- On a constant image every weight of `Bilateral32` is the tap itself
(`exp(0) = 1`): the filter is the rounded quotient of two `float` sums over
the kernel, plus the bias. -/
theorem Bilateral32_const (expf : ℚ → ℚ) (hexp : expf 0 = 1) (mask : Buffer ℚ) (sigma_s c : ℚ)
    (x y : Int) :
    Bilateral32 expf mask sigma_s (fun _ _ => c) x y
      = fl32 (fl32 (accumulate32 mask (fun rx ry => fl32 (fl32 (mask.pix rx ry) * c))
          / accumulate32 mask (fun rx ry => fl32 (mask.pix rx ry))) + 0.5) := by
  simp only [Bilateral32, sub_self, fl32_zero, mul_zero, zero_mul, hexp, one_mul]

set_option maxRecDepth 1000000 in
/-- The `float` sum in loop order of the 13x13 table of `main`. -/
theorem mainMask32_sum :
    accumulate32 mainMask.toFloat32 (fun rx ry => fl32 (mainMask.toFloat32.pix rx ry))
      = 13962205 / 262144 := by decide!

set_option maxRecDepth 1000000 in
/-- The `float` sum in loop order of the table of `main` scaled by `10`. -/
theorem mainMask32_sum_ten :
    accumulate32 mainMask.toFloat32
        (fun rx ry => fl32 (fl32 (mainMask.toFloat32.pix rx ry) * 10))
      = 2181595 / 4096 := by decide!

set_option maxRecDepth 1000000 in
/-- The `float` sum in loop order of the table of `main` scaled by `16`. -/
theorem mainMask32_sum_sixteen :
    accumulate32 mainMask.toFloat32
        (fun rx ry => fl32 (fl32 (mainMask.toFloat32.pix rx ry) * 16))
      = 13962205 / 16384 := by decide!

/-- The `float` bilateral filter with the table and `sigma_s` of `main` on the
constant image `10`. -/
theorem Bilateral32_ten (expf : ℚ → ℚ) (hexp : expf 0 = 1) (x y : Int) :
    Bilateral32 expf mainMask.toFloat32 mainSigma (fun _ _ => 10) x y
      = 5505025 / 524288 := by
  rw [Bilateral32_const expf hexp, mainMask32_sum_ten, mainMask32_sum]
  decide!

/-- The `float` bilateral filter with the table and `sigma_s` of `main` on the
constant image `16`. -/
theorem Bilateral32_sixteen (expf : ℚ → ℚ) (hexp : expf 0 = 1) (x y : Int) :
    Bilateral32 expf mainMask.toFloat32 mainSigma (fun _ _ => 16) x y = 33 / 2 := by
  rw [Bilateral32_const expf hexp, mainMask32_sum_sixteen, mainMask32_sum]
  decide!

end Bilateral

/-- C14 (as stated) fails in the `float` arithmetic of the code: on the
constant image `10`, with the 13x13 table and `sigma_s = 13` of `main`, the
output at `(0, 0)` is `5505025 / 524288 = 10.5000019...`, not `10.5`; the
same holds at every pixel and for every `exp` with `exp(0) = 1`. -/
theorem C14_bilateral_float_counterexample :
    expStandIn 0 = 1
    ∧ Bilateral.output32 expStandIn (ImageMosaics.constImage 10) Bilateral.mainMask.toFloat32
        Bilateral.mainSigma 0 0 = 5505025 / 524288
    ∧ Bilateral.output32 expStandIn (ImageMosaics.constImage 10) Bilateral.mainMask.toFloat32
        Bilateral.mainSigma 0 0 ≠ repeat_edge (ImageMosaics.constImage 10) 0 0 + 0.5
    ∧ (∀ (expf : ℚ → ℚ) (x y : Int), expf 0 = 1 →
        Bilateral.output32 expf (ImageMosaics.constImage 10) Bilateral.mainMask.toFloat32
          Bilateral.mainSigma x y ≠ repeat_edge (ImageMosaics.constImage 10) x y + 0.5) := by
  have h : ∀ (expf : ℚ → ℚ) (x y : Int), expf 0 = 1 →
      Bilateral.output32 expf (ImageMosaics.constImage 10) Bilateral.mainMask.toFloat32
        Bilateral.mainSigma x y = 5505025 / 524288 :=
    fun expf x y hexp => Bilateral.Bilateral32_ten expf hexp x y
  have hne : (5505025 / 524288 : ℚ) ≠ 10 + 0.5 := by norm_num
  refine ⟨Bilateral.expStandIn_zero, h _ 0 0 Bilateral.expStandIn_zero, ?_, ?_⟩
  · rw [h _ 0 0 Bilateral.expStandIn_zero]
    exact hne
  · intro expf x y hexp
    rw [h expf x y hexp]
    exact hne

/-- C14 (amended): in exact arithmetic, on a constant image `f(x, y) = c`, for
every `sigma_s ≠ 0` and every kernel whose taps have a non-zero sum, the
bilateral filter returns `c + 0.5` at every pixel (`exp(0) = 1` is the only
property of `exp` used); in the `float` arithmetic of the code, with the 13x13
table and `sigma_s = 13` of `main`, the constant image `16` gives exactly
`16.5` at every pixel. -/
theorem C14_bilateral_constant_adds_bias (expf : ℚ → ℚ) (hexp : expf 0 = 1) (mask : Buffer ℚ)
    (sigma_s : ℚ) (_hs : sigma_s ≠ 0) (hW : mask.tapSum ≠ 0) (f : Func ℚ) (c : ℚ)
    (hf : ∀ x y, f x y = c) (x y : Int) :
    Bilateral.Bilateral expf mask sigma_s f x y = c + 0.5
    ∧ ImagePyramid.bilateral expf mask sigma_s f x y = c + 0.5
    ∧ Bilateral.Bilateral32 expf Bilateral.mainMask.toFloat32 Bilateral.mainSigma
        (fun _ _ => 16) x y = 16 + 0.5 := by
  have h : Bilateral.Bilateral expf mask sigma_s f x y = c + 0.5 := by
    simp only [Bilateral.Bilateral, hf, sub_self, zero_mul, hexp, one_mul]
    have hd : accumulate mask (fun rx ry => mask.pix rx ry) = mask.tapSum := by
      rw [accumulate_eq_sum, Buffer.tapSum]
    have hp : accumulate mask (fun rx ry => mask.pix rx ry * c) = mask.tapSum * c := by
      rw [accumulate_eq_sum, Buffer.tapSum, Finset.sum_mul]
      exact Finset.sum_congr rfl (fun j _ => (Finset.sum_mul _ _ _).symm)
    rw [hd, hp, mul_div_cancel_left₀ c hW]
  refine ⟨h, h, ?_⟩
  rw [Bilateral.Bilateral32_sixteen expf hexp]
  norm_num

theorem C14_bilateral_constant_adds_bias_witness :
    expStandIn 0 = 1 ∧ Bilateral.mainSigma ≠ 0 ∧ Bilateral.mainMask.tapSum ≠ 0
    ∧ Bilateral.Bilateral expStandIn Bilateral.mainMask Bilateral.mainSigma
        (repeat_edge (ImageMosaics.constImage 16)) 0 0 = 16 + 0.5
    ∧ ImagePyramid.bilateral expStandIn Bilateral.mainMask Bilateral.mainSigma
        (repeat_edge (ImageMosaics.constImage 16)) 0 0 = 16 + 0.5
    ∧ Bilateral.Bilateral32 expStandIn Bilateral.mainMask.toFloat32 Bilateral.mainSigma
        (fun _ _ => 16) 0 0 = 16 + 0.5 := by
  have he : expStandIn 0 = 1 := Bilateral.expStandIn_zero
  have hs : Bilateral.mainSigma ≠ 0 := by norm_num [Bilateral.mainSigma]
  have hW : Bilateral.mainMask.tapSum ≠ 0 := by
    rw [Bilateral.bilateralMask_tapSum]
    norm_num
  exact ⟨he, hs, hW,
    C14_bilateral_constant_adds_bias expStandIn he Bilateral.mainMask Bilateral.mainSigma hs hW
      (repeat_edge (ImageMosaics.constImage 16)) 16 (fun _ _ => rfl) 0 0⟩

/-! ## The photometric weight -/

namespace NightFilter

theorem AtrousFilter_eq_weighted (mask : Buffer ℚ) (f : Func Nat) (x y : Int) :
    AtrousFilter mask f x y
      = AtrousPack
          (accumulate32 mask (fun rx ry => fl32 (neighbourWeight f x y rx ry * mask.pix rx ry)))
          (accumulate32 mask (fun rx ry =>
            fl32 (fl32 ((unpack (f (x + rx) (y + ry))).1 : ℚ) * neighbourWeight f x y rx ry)))
          (accumulate32 mask (fun rx ry =>
            fl32 (fl32 ((unpack (f (x + rx) (y + ry))).2.1 : ℚ) * neighbourWeight f x y rx ry)))
          (accumulate32 mask (fun rx ry =>
            fl32 (fl32 ((unpack (f (x + rx) (y + ry))).2.2 : ℚ) * neighbourWeight f x y rx ry)))
    := rfl

theorem one_le_expf256_32 (xx : ℚ) (h : 1 ≤ xx) : 1 ≤ expf256_32 xx := by
  unfold expf256_32
  simp only
  exact one_le_fl32_sq _ (one_le_fl32_sq _ (one_le_fl32_sq _ (one_le_fl32_sq _
    (one_le_fl32_sq _ (one_le_fl32_sq _ (one_le_fl32_sq _ (one_le_fl32_sq _ h)))))))

theorem one_le_xx0 (ss : Nat) : 1 ≤ fl32 (1 + fl32 (fl32 (ss : ℚ) / 256)) := by
  apply one_le_fl32
  have h0 : 0 ≤ fl32 (ss : ℚ) := fl32_nonneg _ (by positivity)
  have h1 : 0 ≤ fl32 (fl32 (ss : ℚ) / 256) := fl32_nonneg _ (by positivity)
  linarith

theorem photometricWeight_eq_one (ss : Nat) : photometricWeight ss = 1 := by
  have h := one_le_expf256_32 _ (one_le_xx0 ss)
  simp only [photometricWeight]
  split
  · rfl
  · next hn => exact le_antisymm (not_lt.mp hn) h

theorem unpack_le_one (val : Nat) :
    (unpack val).1 ≤ 1 ∧ (unpack val).2.1 ≤ 1 ∧ (unpack val).2.2 ≤ 1 := by
  have hb : ∀ n : Nat, (n &&& 0xff) / 255 ≤ 1 := by
    intro n
    have h := Nat.and_pow_two_sub_one_eq_mod n 8
    have h2 : n &&& 0xff = n % 256 := by simpa using h
    rw [h2]
    omega
  exact ⟨hb _, hb _, hb _⟩

end NightFilter

namespace NightFilter

theorem castUInt32_lt (e : ℚ) : castUInt32 e < 2 ^ 32 :=
  Nat.mod_lt _ (by decide)

theorem castUInt32_le_255 (e : ℚ) (h1 : e ≤ 255) : castUInt32 e ≤ 255 := by
  have hfl : ⌊e⌋ ≤ 255 := by
    have h := Int.floor_le e
    have h2 : ((⌊e⌋ : Int) : ℚ) ≤ ((255 : Int) : ℚ) := by
      push_cast
      linarith
    exact_mod_cast h2
  have ht : Int.toNat ⌊e⌋ ≤ 255 := by omega
  unfold castUInt32
  exact le_trans (Nat.mod_le _ _) ht

theorem rclamp_bounds (val : Nat) :
    0 ≤ (scotoExprs val).rclamp ∧ (scotoExprs val).rclamp ≤ 255 := by
  have h1 : (scotoExprs val).rclamp
      = if (scotoExprs val).rhi < 0 then 0 else (scotoExprs val).rhi := rfl
  have h2 : (scotoExprs val).rhi
      = if (scotoExprs val).r > 255 then 255 else (scotoExprs val).r := rfl
  rw [h1, h2]
  generalize (scotoExprs val).r = r
  split_ifs <;> constructor <;> linarith

/-- The green clamp steps return the clamped red value. -/
theorem gclamp_eq_rclamp (val : Nat) : (scotoExprs val).gclamp = (scotoExprs val).rclamp := by
  have h1 : (scotoExprs val).gclamp
      = if (scotoExprs val).ghi < 0 then 0 else (scotoExprs val).rclamp := rfl
  have h2 : (scotoExprs val).ghi
      = if (scotoExprs val).g > 255 then 255 else (scotoExprs val).rclamp := rfl
  have hb := (rclamp_bounds val).1
  rw [h1, h2]
  generalize (scotoExprs val).g = g at *
  generalize (scotoExprs val).rclamp = rc at *
  split_ifs <;> first | rfl | linarith

/-- The blue clamp steps return the clamped red value. -/
theorem bclamp_eq_rclamp (val : Nat) : (scotoExprs val).bclamp = (scotoExprs val).rclamp := by
  have h1 : (scotoExprs val).bclamp
      = if (scotoExprs val).bhi < 0 then 0 else (scotoExprs val).rclamp := rfl
  have h2 : (scotoExprs val).bhi
      = if (scotoExprs val).b > 255 then 255 else (scotoExprs val).rclamp := rfl
  have hb := (rclamp_bounds val).1
  rw [h1, h2]
  generalize (scotoExprs val).b = b at *
  generalize (scotoExprs val).rclamp = rc at *
  split_ifs <;> first | rfl | linarith

set_option maxRecDepth 100000 in
/-- Packing one byte `v` into the three colour positions under full alpha. -/
theorem pack_gray_bytes : ∀ v : Nat, v < 256 →
    v ||| (v <<< 8) % 2 ^ 32 ||| (v <<< 16) % 2 ^ 32 ||| (255 <<< 24) % 2 ^ 32
        = 0xff000000 ||| v ||| (v <<< 8) ||| (v <<< 16)
    ∧ (0xff000000 ||| v ||| (v <<< 8) ||| (v <<< 16)) &&& 0xff = v
    ∧ ((0xff000000 ||| v ||| (v <<< 8) ||| (v <<< 16)) >>> 8) &&& 0xff = v
    ∧ ((0xff000000 ||| v ||| (v <<< 8) ||| (v <<< 16)) >>> 16) &&& 0xff = v := by
  decide

set_option maxRecDepth 100000 in
theorem lor_255 : ∀ v : Nat, v < 256 → v ||| 255 = 255 := by decide

theorem shiftRight_lor (a b k : Nat) : (a ||| b) >>> k = a >>> k ||| b >>> k := by
  apply Nat.eq_of_testBit_eq
  intro i
  simp [Nat.testBit_shiftRight, Nat.testBit_or]

/-- Whatever the three colour words are, the alpha byte of the packed word
is `0xff`. -/
theorem alpha_of_pack (a b c : Nat) (ha : a < 2 ^ 32) (hb : b < 2 ^ 32) (hc : c < 2 ^ 32) :
    a ||| b ||| c ||| (255 <<< 24) % 2 ^ 32 < 2 ^ 32
    ∧ (a ||| b ||| c ||| (255 <<< 24) % 2 ^ 32) >>> 24 = 0xff := by
  have hw : (255 <<< 24) % 2 ^ 32 < 2 ^ 32 := by decide
  refine ⟨Nat.or_lt_two_pow (Nat.or_lt_two_pow (Nat.or_lt_two_pow ha hb) hc) hw, ?_⟩
  have h24 : ∀ n : Nat, n < 2 ^ 32 → n >>> 24 < 256 := by
    intro n hn
    rw [Nat.shiftRight_eq_div_pow]
    omega
  have hw' : ((255 <<< 24) % 2 ^ 32) >>> 24 = 255 := by decide
  rw [shiftRight_lor, shiftRight_lor, shiftRight_lor, hw',
    Nat.lor_assoc, Nat.lor_assoc, lor_255 _ (h24 c hc), lor_255 _ (h24 b hb),
    lor_255 _ (h24 a ha)]

theorem Scoto_eq_gray (f : Func Nat) (x y : Int) :
    Scoto f x y
      = 0xff000000 ||| castUInt32 (scotoExprs (f x y)).rclamp
          ||| (castUInt32 (scotoExprs (f x y)).rclamp <<< 8)
          ||| (castUInt32 (scotoExprs (f x y)).rclamp <<< 16) := by
  have hv : castUInt32 (scotoExprs (f x y)).rclamp < 256 :=
    Nat.lt_succ_of_le (castUInt32_le_255 _ (rclamp_bounds _).2)
  simp only [Scoto, gclamp_eq_rclamp, bclamp_eq_rclamp]
  exact (pack_gray_bytes _ hv).1

end NightFilter

/-- C17: the green and the blue clamp steps both return the clamped red
value, so the red, green and blue bytes of the packed output of `Scoto` are
equal; for every input pixel, in particular every non-black one. -/
theorem C17_scoto_output_is_gray (f : Func Nat) (x y : Int) :
    (NightFilter.scotoExprs (f x y)).gclamp = (NightFilter.scotoExprs (f x y)).rclamp
    ∧ (NightFilter.scotoExprs (f x y)).bclamp = (NightFilter.scotoExprs (f x y)).rclamp
    ∧ (NightFilter.Scoto f x y >>> 8) &&& 0xff = NightFilter.Scoto f x y &&& 0xff
    ∧ (NightFilter.Scoto f x y >>> 16) &&& 0xff = NightFilter.Scoto f x y &&& 0xff := by
  have hv : NightFilter.castUInt32 (NightFilter.scotoExprs (f x y)).rclamp < 256 :=
    Nat.lt_succ_of_le (NightFilter.castUInt32_le_255 _ (NightFilter.rclamp_bounds _).2)
  have hp := NightFilter.pack_gray_bytes _ hv
  refine ⟨NightFilter.gclamp_eq_rclamp _, NightFilter.bclamp_eq_rclamp _, ?_, ?_⟩
  · rw [NightFilter.Scoto_eq_gray, hp.2.1, hp.2.2.1]
  · rw [NightFilter.Scoto_eq_gray, hp.2.1, hp.2.2.2]

/-- C18: with the hard-coded `s = 0`, for every input pixel (in particular
every non-black one) and `X`, `Y`, `Z` from the fixed matrix,
`V = Y * (((Y + Z) / X + 1) * 1.33 - 1.68)`, the mixed chromaticities are
`x1 = y1 = 0.25`, the new values are `Y' = 0.4468 * V`, `X' = Y'`,
`Z' = 2 * Y'`, and the red value before the clamps is
`(2.562263 - 1.166107 - 2 * 0.396157) * 0.4468 * V`. -/
theorem C18_scoto_full_desaturation (val : Nat) :
    (NightFilter.scotoExprs val).s = 0
    ∧ (NightFilter.scotoExprs val).X
        = 0.5149 * (NightFilter.scotoExprs val).rin + 0.3244 * (NightFilter.scotoExprs val).gin
            + 0.1607 * (NightFilter.scotoExprs val).bin
    ∧ (NightFilter.scotoExprs val).Z
        = 0.0248 * (NightFilter.scotoExprs val).rin + 0.1248 * (NightFilter.scotoExprs val).gin
            + 0.8504 * (NightFilter.scotoExprs val).bin
    ∧ (NightFilter.scotoExprs val).Y
        = (0.2654 * (NightFilter.scotoExprs val).rin + 0.6704 * (NightFilter.scotoExprs val).gin
            + 0.0642 * (NightFilter.scotoExprs val).bin) / 3
    ∧ (NightFilter.scotoExprs val).V
        = (NightFilter.scotoExprs val).Y
          * ((((NightFilter.scotoExprs val).Y + (NightFilter.scotoExprs val).Z)
                / (NightFilter.scotoExprs val).X + 1) * 1.33 - 1.68)
    ∧ (NightFilter.scotoExprs val).x1mix = 0.25
    ∧ (NightFilter.scotoExprs val).y1mix = 0.25
    ∧ (NightFilter.scotoExprs val).Ynew = 0.4468 * (NightFilter.scotoExprs val).V
    ∧ (NightFilter.scotoExprs val).Xnew = (NightFilter.scotoExprs val).Ynew
    ∧ (NightFilter.scotoExprs val).Znew = 2 * (NightFilter.scotoExprs val).Ynew
    ∧ (NightFilter.scotoExprs val).r
        = (2.562263 - 1.166107 - 2 * 0.396157) * 0.4468 * (NightFilter.scotoExprs val).V := by
  have hx : (NightFilter.scotoExprs val).x1mix = 0.25 := by
    simp only [NightFilter.scotoExprs]
    norm_num
  have hy : (NightFilter.scotoExprs val).y1mix = 0.25 := by
    simp only [NightFilter.scotoExprs]
    norm_num
  have hY : (NightFilter.scotoExprs val).Ynew = 0.4468 * (NightFilter.scotoExprs val).V := by
    simp only [NightFilter.scotoExprs]
    ring
  have hX : (NightFilter.scotoExprs val).Xnew = (NightFilter.scotoExprs val).Ynew := by
    have h : (NightFilter.scotoExprs val).Xnew
        = ((NightFilter.scotoExprs val).x1mix * (NightFilter.scotoExprs val).Ynew)
            / (NightFilter.scotoExprs val).y1mix := rfl
    rw [h, hx, hy]
    norm_num
  have hZ : (NightFilter.scotoExprs val).Znew = 2 * (NightFilter.scotoExprs val).Ynew := by
    have h : (NightFilter.scotoExprs val).Znew
        = ((NightFilter.scotoExprs val).Xnew / (NightFilter.scotoExprs val).y1mix)
            - (NightFilter.scotoExprs val).Xnew - (NightFilter.scotoExprs val).Ynew := rfl
    rw [h, hX, hy]
    ring
  have hr : (NightFilter.scotoExprs val).r
      = 2.562263 * (NightFilter.scotoExprs val).Xnew + -1.166107 * (NightFilter.scotoExprs val).Ynew
          + -0.396157 * (NightFilter.scotoExprs val).Znew := rfl
  refine ⟨rfl, rfl, rfl, rfl, rfl, hx, hy, hY, hX, hZ, ?_⟩
  rw [hr, hZ, hX, hY]
  ring

/-- C19: each of the three channel values that `Scoto` casts and shifts lies
in `[0, 255]`, so each cast is a byte `0 .. 255`, the packed result is exactly
`0xff000000 | r | (g << 8) | (b << 16)` and each byte of the result is the
cast of its channel: no channel reaches a neighbouring byte. For every input
pixel, in particular every non-black one. -/
theorem C19_scoto_channels_in_range (f : Func Nat) (x y : Int) :
    (0 ≤ (NightFilter.scotoExprs (f x y)).rclamp ∧ (NightFilter.scotoExprs (f x y)).rclamp ≤ 255)
    ∧ (0 ≤ (NightFilter.scotoExprs (f x y)).gclamp ∧ (NightFilter.scotoExprs (f x y)).gclamp ≤ 255)
    ∧ (0 ≤ (NightFilter.scotoExprs (f x y)).bclamp ∧ (NightFilter.scotoExprs (f x y)).bclamp ≤ 255)
    ∧ NightFilter.castUInt32 (NightFilter.scotoExprs (f x y)).rclamp ≤ 255
    ∧ NightFilter.castUInt32 (NightFilter.scotoExprs (f x y)).gclamp ≤ 255
    ∧ NightFilter.castUInt32 (NightFilter.scotoExprs (f x y)).bclamp ≤ 255
    ∧ NightFilter.Scoto f x y
        = 0xff000000 ||| NightFilter.castUInt32 (NightFilter.scotoExprs (f x y)).rclamp
            ||| (NightFilter.castUInt32 (NightFilter.scotoExprs (f x y)).gclamp <<< 8)
            ||| (NightFilter.castUInt32 (NightFilter.scotoExprs (f x y)).bclamp <<< 16)
    ∧ NightFilter.Scoto f x y &&& 0xff
        = NightFilter.castUInt32 (NightFilter.scotoExprs (f x y)).rclamp
    ∧ (NightFilter.Scoto f x y >>> 8) &&& 0xff
        = NightFilter.castUInt32 (NightFilter.scotoExprs (f x y)).gclamp
    ∧ (NightFilter.Scoto f x y >>> 16) &&& 0xff
        = NightFilter.castUInt32 (NightFilter.scotoExprs (f x y)).bclamp := by
  have hb := NightFilter.rclamp_bounds (f x y)
  have hc := NightFilter.castUInt32_le_255 _ hb.2
  have hp := NightFilter.pack_gray_bytes _ (Nat.lt_succ_of_le hc)
  rw [NightFilter.gclamp_eq_rclamp, NightFilter.bclamp_eq_rclamp, NightFilter.Scoto_eq_gray]
  exact ⟨hb, hb, hb, hc, hc, hc, rfl, hp.2.1, hp.2.2.1, hp.2.2.2⟩

/-- C20: for every input image, mask and pixel the outputs of `AtrousFilter`
and of `Scoto` are 32-bit words whose bits 24..31 are all ones (`0xff`),
whatever the computed colour channels are. -/
theorem C20_full_alpha (mask : Buffer ℚ) (f : Func Nat) (x y : Int) :
    NightFilter.AtrousFilter mask f x y < 2 ^ 32
    ∧ NightFilter.AtrousFilter mask f x y >>> 24 = 0xff
    ∧ (NightFilter.AtrousFilter mask f x y >>> 24) &&& 0xff = 0xff
    ∧ NightFilter.Scoto f x y < 2 ^ 32
    ∧ NightFilter.Scoto f x y >>> 24 = 0xff
    ∧ (NightFilter.Scoto f x y >>> 24) &&& 0xff = 0xff := by
  have hm : ∀ n k : Nat, (n <<< k) % 2 ^ 32 < 2 ^ 32 := fun n k => Nat.mod_lt _ (by decide)
  have hA : NightFilter.AtrousFilter mask f x y < 2 ^ 32
      ∧ NightFilter.AtrousFilter mask f x y >>> 24 = 0xff := by
    simp only [NightFilter.AtrousFilter]
    exact NightFilter.alpha_of_pack _ _ _ (NightFilter.castUInt32_lt _) (hm _ _) (hm _ _)
  have hS : NightFilter.Scoto f x y < 2 ^ 32 ∧ NightFilter.Scoto f x y >>> 24 = 0xff := by
    simp only [NightFilter.Scoto]
    exact NightFilter.alpha_of_pack _ _ _ (NightFilter.castUInt32_lt _) (hm _ _) (hm _ _)
  refine ⟨hA.1, hA.2, ?_, hS.1, hS.2, ?_⟩
  · rw [hA.2]
    decide
  · rw [hS.2]
    decide

/-! ## 32-bit arithmetic and the corner response -/

namespace Halide

theorem wrap32_eq (z : Int) : wrap32 z = (z + 2147483648) % 4294967296 - 2147483648 := by
  unfold wrap32
  norm_num

theorem wrap32_of_range (z : Int) (h0 : -2147483648 ≤ z) (h1 : z < 2147483648) :
    wrap32 z = z := by
  rw [wrap32_eq]
  omega

theorem wrap32_range (z : Int) : -2147483648 ≤ wrap32 z ∧ wrap32 z < 2147483648 := by
  rw [wrap32_eq]
  omega

theorem cast_wrap32 (z : Int) : ((wrap32 z : Int) : ZMod 4294967296) = (z : ZMod 4294967296) := by
  rw [ZMod.intCast_eq_intCast_iff, wrap32_eq]
  show _ ≡ _ [ZMOD 4294967296]
  unfold Int.ModEq
  omega

theorem wrap32_congr (a b : Int)
    (h : (a : ZMod 4294967296) = (b : ZMod 4294967296)) : wrap32 a = wrap32 b := by
  rw [ZMod.intCast_eq_intCast_iff] at h
  unfold Int.ModEq at h
  rw [wrap32_eq, wrap32_eq]
  omega

theorem foldl_wrap32 (n : Nat) (e : Nat → Int) (a : Int) :
    (List.range n).foldl (fun (acc : Int) (i : Nat) => wrap32 (acc + e i)) (wrap32 a)
      = wrap32 (a + ∑ i in Finset.range n, e i) := by
  induction n with
  | zero => simp
  | succ n ih =>
    rw [List.range_succ, List.foldl_append, ih, Finset.sum_range_succ]
    simp only [List.foldl_cons, List.foldl_nil]
    apply wrap32_congr
    push_cast
    rw [cast_wrap32]
    push_cast
    ring

theorem foldl_rows_wrap32 (n : Nat) (r : Nat → Int) (a : Int) (step : Int → Nat → Int)
    (hstep : ∀ acc j, step (wrap32 acc) j = wrap32 (acc + r j)) :
    (List.range n).foldl step (wrap32 a) = wrap32 (a + ∑ j in Finset.range n, r j) := by
  induction n with
  | zero => simp
  | succ n ih =>
    rw [List.range_succ, List.foldl_append, ih, Finset.sum_range_succ]
    simp only [List.foldl_cons, List.foldl_nil, hstep, add_assoc]

/-- The `int32` loop nest computes the wrapped double sum over the domain. -/
theorem accumulateInt_eq_sum {α : Type} (mask : Buffer α) (e : Int → Int → Int) :
    accumulateInt mask e
      = wrap32 (∑ j in Finset.range mask.height, ∑ i in Finset.range mask.width,
          e (i : Int) (j : Int)) := by
  have h0 : (0 : Int) = wrap32 0 := by rw [wrap32_of_range 0 (by norm_num) (by norm_num)]
  unfold accumulateInt
  rw [h0, foldl_rows_wrap32 mask.height
    (fun j => ∑ i in Finset.range mask.width, e (i : Int) (j : Int))]
  · simp
  · intro acc j
    exact foldl_wrap32 mask.width (fun i => e (i : Int) (j : Int)) acc

theorem wrap32_zero : wrap32 0 = 0 := wrap32_of_range 0 (by norm_num) (by norm_num)

/-- Wrapping each product before the wrapped sum changes nothing. -/
theorem accumulateInt_wrap32 {α : Type} (mask : Buffer α) (t : Int → Int → Int) :
    accumulateInt mask (fun rx ry => wrap32 (t rx ry))
      = wrap32 (∑ j in Finset.range mask.height, ∑ i in Finset.range mask.width,
          t (i : Int) (j : Int)) := by
  rw [accumulateInt_eq_sum]
  apply wrap32_congr
  push_cast
  simp only [cast_wrap32]

end Halide

namespace ShiTomasiFeature

theorem Dx_eq (masksx : Buffer Int) (f : Func Int) (x y : Int) :
    Dx masksx f x y = wrap32 (windowSum masksx f x y) / 6 := by
  simp only [Dx, windowSum, accumulateInt_wrap32]

theorem Dy_eq (masksy : Buffer Int) (f : Func Int) (x y : Int) :
    Dy masksy f x y = wrap32 (windowSum masksy f x y) / 6 := by
  simp only [Dy, windowSum, accumulateInt_wrap32]

theorem Gauss_eq (maskg : Buffer Int) (f : Func Int) (x y : Int) :
    Gauss maskg f x y = wrap32 (windowSum maskg f x y) / 16 := by
  simp only [Gauss, windowSum, accumulateInt_wrap32, norm]

theorem windowSum_const (mask : Buffer Int) (c : Int) (x y : Int) :
    windowSum mask (fun _ _ => c) x y = c * tapSumInt mask := by
  simp only [windowSum, tapSumInt, Finset.mul_sum]

end ShiTomasiFeature

/-- C21: on a constant integer image `f(x, y) = c`, with gradient masks
whose taps sum to `0` (as the two tables of `main`), any smoothing mask and
the reference threshold `200`, the ShiTomasi output is `0` at every pixel
(`sqrt(0) = 0` is the only property of `sqrt` used). -/
theorem C21_flat_image_no_corners (sqrtf : ℚ → ℚ) (hsqrt : sqrtf 0 = 0)
    (input maskg masksx masksy : Buffer Int) (c : Int)
    (hW : 0 < input.width) (hH : 0 < input.height)
    (hc : ∀ x y, input.inBounds x y = true → input.pix x y = c)
    (hsx : ShiTomasiFeature.tapSumInt masksx = 0) (hsy : ShiTomasiFeature.tapSumInt masksy = 0)
    (x y : Int) :
    ShiTomasiFeature.output sqrtf ShiTomasiFeature.threshold input maskg masksx masksy x y = 0 := by
  have hg : repeat_edge input = fun _ _ => c := by
    funext u v
    exact hc _ _ (repeat_edge_inBounds input hW hH u v)
  have hdx : ShiTomasiFeature.dx input masksx = fun _ _ => 0 := by
    funext u v
    rw [ShiTomasiFeature.dx, hg, ShiTomasiFeature.Dx_eq, ShiTomasiFeature.windowSum_const, hsx,
      mul_zero, wrap32_zero]
    rfl
  have hdy : ShiTomasiFeature.dy input masksy = fun _ _ => 0 := by
    funext u v
    rw [ShiTomasiFeature.dy, hg, ShiTomasiFeature.Dy_eq, ShiTomasiFeature.windowSum_const, hsy,
      mul_zero, wrap32_zero]
    rfl
  have hG0 : ∀ u v, ShiTomasiFeature.Gauss maskg (fun _ _ => 0) u v = 0 := by
    intro u v
    rw [ShiTomasiFeature.Gauss_eq, ShiTomasiFeature.windowSum_const, zero_mul,
      wrap32_zero]
    rfl
  have hsx0 : ShiTomasiFeature.sx input masksx = fun _ _ => 0 := by
    funext u v
    simp only [ShiTomasiFeature.sx, hdx, mul_zero, wrap32_zero]
  have hsy0 : ShiTomasiFeature.sy input masksy = fun _ _ => 0 := by
    funext u v
    simp only [ShiTomasiFeature.sy, hdy, mul_zero, wrap32_zero]
  have hsxy0 : ShiTomasiFeature.sxy input masksx masksy = fun _ _ => 0 := by
    funext u v
    simp only [ShiTomasiFeature.sxy, hdx, hdy, mul_zero, wrap32_zero]
  have hgx : ShiTomasiFeature.gx input maskg masksx x y = 0 := by
    rw [ShiTomasiFeature.gx, hsx0, hG0]
  have hgy : ShiTomasiFeature.gy input maskg masksy x y = 0 := by
    rw [ShiTomasiFeature.gy, hsy0, hG0]
  have hgxy : ShiTomasiFeature.gxy input maskg masksx masksy x y = 0 := by
    rw [ShiTomasiFeature.gxy, hsxy0, hG0]
  have hi : ShiTomasiFeature.interm sqrtf input maskg masksx masksy x y = 0 := by
    simp only [ShiTomasiFeature.interm, hgx, hgy, hgxy, sub_self, wrap32_zero,
      mul_zero, Int.cast_zero, add_zero, hsqrt]
  have hl : ShiTomasiFeature.lambda sqrtf input maskg masksx masksy x y = 0 := by
    simp only [ShiTomasiFeature.lambda, ShiTomasiFeature.lambda1, ShiTomasiFeature.lambda2, hgx,
      hgy, hi, add_zero, sub_zero, wrap32_zero, Int.cast_zero, mul_zero, min_self]
  simp only [ShiTomasiFeature.output, hl, ShiTomasiFeature.threshold]
  norm_num

theorem C21_flat_image_no_corners_witness :
    sqrtStandIn 0 = 0
    ∧ ShiTomasiFeature.tapSumInt ShiTomasiFeature.mainMasksx = 0
    ∧ ShiTomasiFeature.tapSumInt ShiTomasiFeature.mainMasksy = 0
    ∧ ShiTomasiFeature.output sqrtStandIn ShiTomasiFeature.threshold
        (ShiTomasiFeature.flatImage 77) ShiTomasiFeature.mainMaskg ShiTomasiFeature.mainMasksx
        ShiTomasiFeature.mainMasksy 1 2 = 0 := by
  have h0 : sqrtStandIn 0 = 0 := by simp [sqrtStandIn]
  have hx : ShiTomasiFeature.tapSumInt ShiTomasiFeature.mainMasksx = 0 := by decide
  have hy : ShiTomasiFeature.tapSumInt ShiTomasiFeature.mainMasksy = 0 := by decide
  exact ⟨h0, hx, hy,
    C21_flat_image_no_corners sqrtStandIn h0 (ShiTomasiFeature.flatImage 77)
      ShiTomasiFeature.mainMaskg ShiTomasiFeature.mainMasksx ShiTomasiFeature.mainMasksy 77
      (by decide) (by decide) (fun _ _ _ => rfl) hx hy 1 2⟩

namespace Halide

theorem sqrtStandIn_sq (n : Nat) : sqrtStandIn ((n : ℚ) * (n : ℚ)) = (n : ℚ) := by
  have h : ((n : ℚ) * (n : ℚ)) = ((n * n : Nat) : ℚ) := by push_cast; ring
  rw [sqrtStandIn, h, Int.floor_natCast, Int.toNat_natCast, Nat.sqrt_eq]

theorem sqrtStandIn_mono (s t : ℚ) (hst : s ≤ t) : sqrtStandIn s ≤ sqrtStandIn t := by
  unfold sqrtStandIn
  have h1 : ⌊s⌋ ≤ ⌊t⌋ := Int.floor_le_floor hst
  have h2 : Int.toNat ⌊s⌋ ≤ Int.toNat ⌊t⌋ := Int.toNat_le_toNat h1
  exact_mod_cast Nat.sqrt_le_sqrt h2

end Halide

namespace ShiTomasiFeature

set_option maxRecDepth 1000000 in
/-- The smoothed tensor components of the edge image at the pixel `(0, 0)`. -/
theorem edgeImage_tensor :
    gx edgeImage mainMaskg mainMasksx 0 0 = 3000000
    ∧ gy edgeImage mainMaskg mainMasksy 0 0 = 0
    ∧ gxy edgeImage mainMaskg mainMasksx mainMasksy 0 0 = 0 := by
  decide

/-- On the edge image the `int32` square of `gx - gy` wraps, and for every
square root that is exact on the squares of naturals and monotone the
response at `(0, 0)` is `1`, while the minimum eigenvalue of the same tensor
components is `0`. -/
theorem edgeImage_response (sqrtf : ℚ → ℚ) (hsq : ∀ n : Nat, sqrtf ((n : ℚ) * (n : ℚ)) = (n : ℚ))
    (hmono : ∀ s t : ℚ, s ≤ t → sqrtf s ≤ sqrtf t) :
    wrap32 (wrap32 (3000000 - 0) * wrap32 (3000000 - 0)) = 2043514880
    ∧ output sqrtf threshold edgeImage mainMaskg mainMasksx mainMasksy 0 0 = 1
    ∧ lambdaRef sqrtf 3000000 0 0 = 0
    ∧ cornerRef sqrtf threshold 3000000 0 0 = 0 := by
  obtain ⟨hgx, hgy, hgxy⟩ := edgeImage_tensor
  have hw : wrap32 (wrap32 (3000000 - 0) * wrap32 (3000000 - 0)) = 2043514880 := by decide
  have hw2 : wrap32 (3000000 + 0) = 3000000 := by decide
  have h0 : sqrtf 0 = 0 := by
    have h := hsq 0
    simpa using h
  have hlo : 0 ≤ sqrtf 2043514880 := by
    have h := hmono 0 2043514880 (by norm_num)
    rwa [h0] at h
  have hhi : sqrtf 2043514880 ≤ 45206 := by
    have h := hmono 2043514880 (((45206 : Nat) : ℚ) * ((45206 : Nat) : ℚ)) (by norm_num)
    rw [hsq 45206] at h
    exact_mod_cast h
  have hi : interm sqrtf edgeImage mainMaskg mainMasksx mainMasksy 0 0 = sqrtf 2043514880 := by
    simp only [interm, hgx, hgy, hgxy, hw]
    norm_num
  have hD : sqrtf ((3000000 - 0) ^ 2 + 4 * 0 ^ 2) = 3000000 := by
    have h := hsq 3000000
    have e : ((3000000 - 0 : ℚ) ^ 2 + 4 * 0 ^ 2) = ((3000000 : Nat) : ℚ) * ((3000000 : Nat) : ℚ) := by
      norm_num
    rw [e, h]
    norm_num
  have hlam : lambdaRef sqrtf 3000000 0 0 = 0 := by
    simp only [lambdaRef, hD]
    norm_num
  refine ⟨hw, ?_, hlam, ?_⟩
  · have hl1 : lambda1 sqrtf edgeImage mainMaskg mainMasksx mainMasksy 0 0
        = 0.5 * (3000000 + sqrtf 2043514880) := by
      simp only [lambda1, hgx, hgy, hw2, hi]
      norm_num
    have hl2 : lambda2 sqrtf edgeImage mainMaskg mainMasksx mainMasksy 0 0
        = 0.5 * (3000000 - sqrtf 2043514880) := by
      simp only [lambda2, hgx, hgy, hw2, hi]
      norm_num
    have hl : lambda sqrtf edgeImage mainMaskg mainMasksx mainMasksy 0 0 > threshold := by
      simp only [lambda, hl1, hl2, threshold, gt_iff_lt, lt_min_iff]
      constructor <;> norm_num <;> linarith
    simp only [output, hl, if_true]
  · simp only [cornerRef, hlam, threshold]
    norm_num

end ShiTomasiFeature

/-- C22 (the code at a failing input): on the 4x4 image with a straight
horizontal edge of height `4000`, with the masks of `main`, the smoothed
tensor at `(0, 0)` is `gx = 3000000`, `gy = gxy = 0`; the `int32` product
`(gx - gy) * (gx - gy)` wraps to `2043514880`, so the output is `1`, while the
minimum eigenvalue `½ (tr − sqrt((gx − gy)² + 4 gxy²))` of that tensor is `0`
and its thresholded response is `0`. -/
theorem C22_min_eigenvalue_int32_overflow :
    ShiTomasiFeature.gx ShiTomasiFeature.edgeImage ShiTomasiFeature.mainMaskg
        ShiTomasiFeature.mainMasksx 0 0 = 3000000
    ∧ ShiTomasiFeature.gy ShiTomasiFeature.edgeImage ShiTomasiFeature.mainMaskg
        ShiTomasiFeature.mainMasksy 0 0 = 0
    ∧ ShiTomasiFeature.gxy ShiTomasiFeature.edgeImage ShiTomasiFeature.mainMaskg
        ShiTomasiFeature.mainMasksx ShiTomasiFeature.mainMasksy 0 0 = 0
    ∧ wrap32 (wrap32 (3000000 - 0) * wrap32 (3000000 - 0)) = 2043514880
    ∧ ShiTomasiFeature.output sqrtStandIn ShiTomasiFeature.threshold ShiTomasiFeature.edgeImage
        ShiTomasiFeature.mainMaskg ShiTomasiFeature.mainMasksx ShiTomasiFeature.mainMasksy 0 0 = 1
    ∧ ShiTomasiFeature.lambdaRef sqrtStandIn 3000000 0 0 = 0
    ∧ ShiTomasiFeature.cornerRef sqrtStandIn ShiTomasiFeature.threshold 3000000 0 0 = 0 := by
  obtain ⟨h1, h2, h3⟩ := ShiTomasiFeature.edgeImage_tensor
  obtain ⟨h4, h5, h6, h7⟩ :=
    ShiTomasiFeature.edgeImage_response sqrtStandIn sqrtStandIn_sq sqrtStandIn_mono
  exact ⟨h1, h2, h3, h4, h5, h6, h7⟩

/-- C23: `Dx` and `Dy` are the 3x3 windowed `int32` sums with the integer
gradient masks divided by `6`, and `Gauss` is the windowed `int32` sum with
the integer Gaussian mask divided by `16`, the division being the integer
one (the floor of the quotient); the structure-tensor inputs are `dx * dx`,
`dy * dy` and `dx * dy`, each smoothed by `Gauss`. Whenever the mathematical
windowed sum lies in the `int32` range it is the sum that is divided. -/
theorem C23_gradient_and_smoothing_divisors (maskg masksx masksy : Buffer Int) (f g : Func Int)
    (input : Buffer Int) (x y : Int) :
    ShiTomasiFeature.Dx masksx f x y = wrap32 (ShiTomasiFeature.windowSum masksx f x y) / 6
    ∧ ((ShiTomasiFeature.Dx masksx f x y : Int) : ℚ)
        = ⌊((wrap32 (ShiTomasiFeature.windowSum masksx f x y) : Int) : ℚ) / 6⌋
    ∧ ShiTomasiFeature.Dy masksy f x y = wrap32 (ShiTomasiFeature.windowSum masksy f x y) / 6
    ∧ ((ShiTomasiFeature.Dy masksy f x y : Int) : ℚ)
        = ⌊((wrap32 (ShiTomasiFeature.windowSum masksy f x y) : Int) : ℚ) / 6⌋
    ∧ ShiTomasiFeature.Gauss maskg g x y = wrap32 (ShiTomasiFeature.windowSum maskg g x y) / 16
    ∧ ((ShiTomasiFeature.Gauss maskg g x y : Int) : ℚ)
        = ⌊((wrap32 (ShiTomasiFeature.windowSum maskg g x y) : Int) : ℚ) / 16⌋
    ∧ ShiTomasiFeature.sx input masksx x y
        = wrap32 (ShiTomasiFeature.dx input masksx x y * ShiTomasiFeature.dx input masksx x y)
    ∧ ShiTomasiFeature.sy input masksy x y
        = wrap32 (ShiTomasiFeature.dy input masksy x y * ShiTomasiFeature.dy input masksy x y)
    ∧ ShiTomasiFeature.sxy input masksx masksy x y
        = wrap32 (ShiTomasiFeature.dx input masksx x y * ShiTomasiFeature.dy input masksy x y)
    ∧ ShiTomasiFeature.gx input maskg masksx
        = ShiTomasiFeature.Gauss maskg (ShiTomasiFeature.sx input masksx)
    ∧ ShiTomasiFeature.gy input maskg masksy
        = ShiTomasiFeature.Gauss maskg (ShiTomasiFeature.sy input masksy)
    ∧ ShiTomasiFeature.gxy input maskg masksx masksy
        = ShiTomasiFeature.Gauss maskg (ShiTomasiFeature.sxy input masksx masksy)
    ∧ ((-2147483648 ≤ ShiTomasiFeature.windowSum masksx f x y
          ∧ ShiTomasiFeature.windowSum masksx f x y < 2147483648) →
        ShiTomasiFeature.Dx masksx f x y = ShiTomasiFeature.windowSum masksx f x y / 6)
    ∧ ((-2147483648 ≤ ShiTomasiFeature.windowSum masksy f x y
          ∧ ShiTomasiFeature.windowSum masksy f x y < 2147483648) →
        ShiTomasiFeature.Dy masksy f x y = ShiTomasiFeature.windowSum masksy f x y / 6)
    ∧ ((-2147483648 ≤ ShiTomasiFeature.windowSum maskg g x y
          ∧ ShiTomasiFeature.windowSum maskg g x y < 2147483648) →
        ShiTomasiFeature.Gauss maskg g x y = ShiTomasiFeature.windowSum maskg g x y / 16) := by
  have hfl : ∀ (n : Int) (d : Nat), ((n / (d : Int) : Int) : ℚ) = ⌊(n : ℚ) / (d : ℚ)⌋ := by
    intro n d
    rw [Rat.floor_intCast_div_natCast]
  refine ⟨ShiTomasiFeature.Dx_eq _ _ _ _, ?_, ShiTomasiFeature.Dy_eq _ _ _ _, ?_,
    ShiTomasiFeature.Gauss_eq _ _ _ _, ?_, rfl, rfl, rfl, rfl, rfl, rfl, ?_, ?_, ?_⟩
  · rw [ShiTomasiFeature.Dx_eq]
    exact_mod_cast hfl _ 6
  · rw [ShiTomasiFeature.Dy_eq]
    exact_mod_cast hfl _ 6
  · rw [ShiTomasiFeature.Gauss_eq]
    exact_mod_cast hfl _ 16
  · intro h
    rw [ShiTomasiFeature.Dx_eq, wrap32_of_range _ h.1 h.2]
  · intro h
    rw [ShiTomasiFeature.Dy_eq, wrap32_of_range _ h.1 h.2]
  · intro h
    rw [ShiTomasiFeature.Gauss_eq, wrap32_of_range _ h.1 h.2]

theorem C23_gradient_and_smoothing_divisors_witness :
    (-2147483648 ≤ ShiTomasiFeature.windowSum ShiTomasiFeature.mainMasksx
        (repeat_edge ShiTomasiFeature.edgeImage) 0 0
      ∧ ShiTomasiFeature.windowSum ShiTomasiFeature.mainMasksx
        (repeat_edge ShiTomasiFeature.edgeImage) 0 0 < 2147483648)
    ∧ ShiTomasiFeature.Dx ShiTomasiFeature.mainMasksx (repeat_edge ShiTomasiFeature.edgeImage) 0 0
        = ShiTomasiFeature.windowSum ShiTomasiFeature.mainMasksx
            (repeat_edge ShiTomasiFeature.edgeImage) 0 0 / 6 := by
  have h : -2147483648 ≤ ShiTomasiFeature.windowSum ShiTomasiFeature.mainMasksx
        (repeat_edge ShiTomasiFeature.edgeImage) 0 0
      ∧ ShiTomasiFeature.windowSum ShiTomasiFeature.mainMasksx
        (repeat_edge ShiTomasiFeature.edgeImage) 0 0 < 2147483648 := by decide
  exact ⟨h,
    (C23_gradient_and_smoothing_divisors ShiTomasiFeature.mainMaskg ShiTomasiFeature.mainMasksx
      ShiTomasiFeature.mainMasksy (repeat_edge ShiTomasiFeature.edgeImage)
      (repeat_edge ShiTomasiFeature.edgeImage) ShiTomasiFeature.edgeImage 0 0).2.2.2.2.2.2.2.2.2.2.2.2.1
      h⟩

/-! ## The reduction -/

namespace ReduceSum

/-- The reduction is the wrapped sum of the elements. -/
theorem output_eq_sum (N : Nat) (input : Int → Int) :
    output N input = wrap32 (∑ i in Finset.range N, input (i : Int)) := by
  have h := foldl_wrap32 N (fun i => input (i : Int)) 0
  rw [wrap32_zero, zero_add] at h
  exact h

theorem sum_succ_mul_two (N : Nat) :
    (∑ i in Finset.range N, ((i : Int) + 1)) * 2 = (N : Int) * ((N : Int) + 1) := by
  induction N with
  | zero => simp
  | succ n ih =>
    rw [Finset.sum_range_succ, add_mul, ih]
    push_cast
    ring

/-- The pairwise reduction is the wrapped sum of the elements. -/
theorem treeSum_eq_sum (input : Int → Int)
    (hin : ∀ i, -2147483648 ≤ input i ∧ input i < 2147483648) (n : Nat) :
    ∀ lo : Int, treeSum input lo n = wrap32 (∑ i in Finset.range n, input (lo + (i : Int))) := by
  induction n using Nat.strong_induction_on with
  | _ n ih =>
    intro lo
    rw [treeSum]
    by_cases h0 : n = 0
    · subst h0
      simp [wrap32_zero]
    · by_cases h1 : n = 1
      · subst h1
        simp [wrap32_of_range _ (hin lo).1 (hin lo).2]
      · rw [if_neg h0, if_neg h1, ih (n / 2) (by omega), ih (n - n / 2) (by omega)]
        have hsplit : n = n / 2 + (n - n / 2) := by omega
        conv_rhs => rw [hsplit, Finset.sum_range_add]
        apply wrap32_congr
        push_cast
        simp only [cast_wrap32]
        push_cast
        simp only [add_assoc]

end ReduceSum

/-- C24: for every `N` and every input the reduction `output()`, started at
`0` and updated over `RDom r(0, N)`, is `input(0) + ... + input(N - 1)` in
32-bit wraparound arithmetic, which is the value `c_ref` of the sequential
reference loop; for `N = 0` it is `0`. -/
theorem C24_reduction_is_wrapped_sum (N : Nat) (input : Int → Int) :
    ReduceSum.output N input = wrap32 (∑ i in Finset.range N, input (i : Int))
    ∧ ReduceSum.output N input = ReduceSum.c_ref N input
    ∧ ReduceSum.output 0 input = 0 :=
  ⟨ReduceSum.output_eq_sum N input, rfl, rfl⟩

/-- C25: for every `N` with `N * (N + 1) / 2 < 2 ^ 31` and `input(i) = i + 1`
for `0 ≤ i < N`, the reduction result is `N * (N + 1) / 2`. -/
theorem C25_triangular_number (N : Nat) (input : Int → Int)
    (hN : N * (N + 1) / 2 < 2 ^ 31)
    (hin : ∀ i : Nat, i < N → input (i : Int) = (i : Int) + 1) :
    ReduceSum.output N input = ((N * (N + 1) / 2 : Nat) : Int) := by
  have hs : ∑ i in Finset.range N, input (i : Int) = ∑ i in Finset.range N, ((i : Int) + 1) :=
    Finset.sum_congr rfl (fun i hi => hin i (Finset.mem_range.mp hi))
  have h2 := ReduceSum.sum_succ_mul_two N
  have hev : 2 ∣ N * (N + 1) := (Nat.even_mul_succ_self N).two_dvd
  have hnat : ((N * (N + 1) / 2 : Nat) : Int) * 2 = (N : Int) * ((N : Int) + 1) := by
    have h := Nat.div_mul_cancel hev
    exact_mod_cast h
  have hsum : ∑ i in Finset.range N, ((i : Int) + 1) = ((N * (N + 1) / 2 : Nat) : Int) := by
    omega
  have hlt : ((N * (N + 1) / 2 : Nat) : Int) < 2147483648 := by
    have : (2 : Nat) ^ 31 = 2147483648 := by norm_num
    omega
  rw [ReduceSum.output_eq_sum, hs, hsum, wrap32_of_range _ (by omega) hlt]

theorem C25_triangular_number_witness :
    100 * (100 + 1) / 2 < 2 ^ 31
    ∧ ReduceSum.output 100 (fun i => i + 1) = 5050 :=
  ⟨by decide, C25_triangular_number 100 (fun i => i + 1) (by decide) (fun _ _ => rfl)⟩

/-- C26: for every `N` and every `int32` input, the balanced binary tree of
additions (split the range in halves, reduce each half, add the two results)
gives, in 32-bit wraparound arithmetic, the value of the sequential
accumulation `output() = output() + input(r.x)`. -/
theorem C26_pairwise_tree_eq_sequential (N : Nat) (input : Int → Int)
    (hin : ∀ i, -2147483648 ≤ input i ∧ input i < 2147483648) :
    ReduceSum.treeSum input 0 N = ReduceSum.output N input := by
  rw [ReduceSum.treeSum_eq_sum input hin N 0, ReduceSum.output_eq_sum]
  simp only [zero_add]

theorem C26_pairwise_tree_eq_sequential_witness :
    (∀ i : Int, -2147483648 ≤ (fun j : Int => j % 4096) i ∧ (fun j : Int => j % 4096) i < 2147483648)
    ∧ ReduceSum.treeSum (fun j : Int => j % 4096) 0 7 = ReduceSum.output 7 (fun j : Int => j % 4096) := by
  have h : ∀ i : Int, -2147483648 ≤ (fun j : Int => j % 4096) i
      ∧ (fun j : Int => j % 4096) i < 2147483648 := by
    intro i
    constructor <;> simp only <;> omega
  exact ⟨h, C26_pairwise_tree_eq_sequential 7 (fun j : Int => j % 4096) h⟩

/-! ## The dilated masks, the photometric weight and the numerators -/

namespace NightFilter

theorem dilatedTable_getD (s k x y : Nat) (hx : x < k) (hy : y < k) :
    ((dilatedTable s k).getD x []).getD y 0 = dilated s x y := by
  simp [dilatedTable, List.getD_eq_getElem?_getD, List.getElem?_map, List.getElem?_range, hx, hy]

theorem mask5_pix (x y : Fin 5) : mask5.pix (x : Nat) (y : Nat) = dilated 2 x y := by
  have h : coef5 = dilatedTable 2 5 := rfl
  simp only [mask5, Int.toNat_natCast, h]
  exact dilatedTable_getD 2 5 x y x.isLt y.isLt

theorem mask9_pix (x y : Fin 9) : mask9.pix (x : Nat) (y : Nat) = dilated 4 x y := by
  have h : coef9 = dilatedTable 4 9 := rfl
  simp only [mask9, Int.toNat_natCast, h]
  exact dilatedTable_getD 4 9 x y x.isLt y.isLt

theorem mask17_pix (x y : Fin 17) : mask17.pix (x : Nat) (y : Nat) = dilated 8 x y := by
  have h : coef17 = dilatedTable 8 17 := rfl
  simp only [mask17, Int.toNat_natCast, h]
  exact dilatedTable_getD 8 17 x y x.isLt y.isLt

theorem mask3_pix (x y : Fin 3) : mask3.pix (x : Nat) (y : Nat) = dilated 1 x y := by
  have h : coef3 = dilatedTable 1 3 := rfl
  have e : mask3.pix (x : Nat) (y : Nat) = ((dilatedTable 1 3).getD x []).getD y 0 := by
    simp only [mask3, Int.toNat_natCast]
    rw [← h]
  rw [e]
  exact dilatedTable_getD 1 3 x y x.isLt y.isLt

theorem dilated_stride (s : Nat) (hs : 0 < s) (i j : Nat) :
    dilated s (i * s) (j * s) = (coef3.getD i []).getD j 0 := by
  simp [dilated, Nat.mul_div_cancel _ hs]

theorem mask5_tapSum : mask5.tapSum = 1 := by
  simp [Buffer.tapSum, mask5, coef5, Finset.sum_range_succ]
  norm_num

theorem mask9_tapSum : mask9.tapSum = 1 := by
  simp [Buffer.tapSum, mask9, coef9, Finset.sum_range_succ]
  norm_num

theorem mask17_tapSum : mask17.tapSum = 1 := by
  simp [Buffer.tapSum, mask17, coef17, Finset.sum_range_succ]
  norm_num

/-- A channel of `unpack` is `0` or `1`, and so is its conversion to `float`. -/
theorem fl32_channel (n : Nat) (h : n ≤ 1) : fl32 (fl32 (n : ℚ) * 1) = (n : ℚ) := by
  obtain rfl | rfl : n = 0 ∨ n = 1 := by omega
  · simp [fl32_zero]
  · simp [fl32_one]

/-- With the weight `1` the normaliser is the `float` sum of the taps in loop
order and each numerator is the `float` sum of the channel over the window,
without the mask factor. -/
theorem AtrousFilter_eq_unweighted (mask : Buffer ℚ) (f : Func Nat) (x y : Int) :
    AtrousFilter mask f x y
      = AtrousPack
          (accumulate32 mask (fun rx ry => fl32 (mask.pix rx ry)))
          (accumulate32 mask (fun rx ry => ((unpack (f (x + rx) (y + ry))).1 : ℚ)))
          (accumulate32 mask (fun rx ry => ((unpack (f (x + rx) (y + ry))).2.1 : ℚ)))
          (accumulate32 mask (fun rx ry => ((unpack (f (x + rx) (y + ry))).2.2 : ℚ))) := by
  rw [AtrousFilter_eq_weighted]
  simp only [neighbourWeight, photometricWeight_eq_one, one_mul,
    fl32_channel _ (unpack_le_one _).1, fl32_channel _ (unpack_le_one _).2.1,
    fl32_channel _ (unpack_le_one _).2.2]

end NightFilter

/-- C27: for `k` in `3, 5, 9, 17` and stride `s = (k - 1) / 2`,
`mask_k(i * s, j * s) = coef3[i][j]` for all `i, j` in `0, 1, 2`, every other
entry of `mask_k` is `0`, the taps of each mask sum to exactly `1`
(`4 * 0.057118 + 4 * 0.124758 + 0.272496`), and the cascade applies the masks
in the order 3, 5, 9, 17, each stage reading the output of the previous one,
with `Scoto` reading the last stage. -/
theorem C27_dilated_masks (input : Buffer Nat) (i j : Fin 3) (x5 y5 : Fin 5) (x9 y9 : Fin 9)
    (x17 y17 : Fin 17) :
    NightFilter.mask3.pix ((i : Nat) * 1 : Nat) ((j : Nat) * 1 : Nat)
        = (NightFilter.coef3.getD i []).getD j 0
    ∧ NightFilter.mask5.pix ((i : Nat) * 2 : Nat) ((j : Nat) * 2 : Nat)
        = (NightFilter.coef3.getD i []).getD j 0
    ∧ NightFilter.mask9.pix ((i : Nat) * 4 : Nat) ((j : Nat) * 4 : Nat)
        = (NightFilter.coef3.getD i []).getD j 0
    ∧ NightFilter.mask17.pix ((i : Nat) * 8 : Nat) ((j : Nat) * 8 : Nat)
        = (NightFilter.coef3.getD i []).getD j 0
    ∧ NightFilter.mask5.pix (x5 : Nat) (y5 : Nat)
        = (if (x5 : Nat) % 2 = 0 ∧ (y5 : Nat) % 2 = 0
            then (NightFilter.coef3.getD (x5 / 2) []).getD (y5 / 2) 0 else 0)
    ∧ NightFilter.mask9.pix (x9 : Nat) (y9 : Nat)
        = (if (x9 : Nat) % 4 = 0 ∧ (y9 : Nat) % 4 = 0
            then (NightFilter.coef3.getD (x9 / 4) []).getD (y9 / 4) 0 else 0)
    ∧ NightFilter.mask17.pix (x17 : Nat) (y17 : Nat)
        = (if (x17 : Nat) % 8 = 0 ∧ (y17 : Nat) % 8 = 0
            then (NightFilter.coef3.getD (x17 / 8) []).getD (y17 / 8) 0 else 0)
    ∧ NightFilter.mask3.tapSum = 1 ∧ NightFilter.mask5.tapSum = 1
    ∧ NightFilter.mask9.tapSum = 1 ∧ NightFilter.mask17.tapSum = 1
    ∧ (4 * 0.057118 + 4 * 0.124758 + 0.272496 : ℚ) = 1
    ∧ NightFilter.intermBuf3 input NightFilter.mask3
        = NightFilter.AtrousFilter NightFilter.mask3 (repeat_edge input)
    ∧ NightFilter.intermBuf5 input NightFilter.mask3 NightFilter.mask5
        = NightFilter.AtrousFilter NightFilter.mask5
            (NightFilter.intermBuf3 input NightFilter.mask3)
    ∧ NightFilter.intermBuf9 input NightFilter.mask3 NightFilter.mask5 NightFilter.mask9
        = NightFilter.AtrousFilter NightFilter.mask9
            (NightFilter.intermBuf5 input NightFilter.mask3 NightFilter.mask5)
    ∧ NightFilter.intermBuf17 input NightFilter.mask3 NightFilter.mask5 NightFilter.mask9
          NightFilter.mask17
        = NightFilter.AtrousFilter NightFilter.mask17
            (NightFilter.intermBuf9 input NightFilter.mask3 NightFilter.mask5 NightFilter.mask9)
    ∧ NightFilter.output input NightFilter.mask3 NightFilter.mask5 NightFilter.mask9
          NightFilter.mask17
        = NightFilter.Scoto
            (NightFilter.intermBuf17 input NightFilter.mask3 NightFilter.mask5 NightFilter.mask9
              NightFilter.mask17) := by
  have hi : (i : Nat) < 3 := i.isLt
  have hj : (j : Nat) < 3 := j.isLt
  have e3 := NightFilter.mask3_pix ⟨(i : Nat) * 1, by omega⟩ ⟨(j : Nat) * 1, by omega⟩
  have e5 := NightFilter.mask5_pix ⟨(i : Nat) * 2, by omega⟩ ⟨(j : Nat) * 2, by omega⟩
  have e9 := NightFilter.mask9_pix ⟨(i : Nat) * 4, by omega⟩ ⟨(j : Nat) * 4, by omega⟩
  have e17 := NightFilter.mask17_pix ⟨(i : Nat) * 8, by omega⟩ ⟨(j : Nat) * 8, by omega⟩
  simp only [NightFilter.dilated_stride _ (by decide : 0 < 1),
    NightFilter.dilated_stride _ (by decide : 0 < 2),
    NightFilter.dilated_stride _ (by decide : 0 < 4),
    NightFilter.dilated_stride _ (by decide : 0 < 8)] at e3 e5 e9 e17
  exact ⟨e3, e5, e9, e17, NightFilter.mask5_pix x5 y5, NightFilter.mask9_pix x9 y9,
    NightFilter.mask17_pix x17 y17, NightFilter.mask3_tapSum, NightFilter.mask5_tapSum,
    NightFilter.mask9_tapSum, NightFilter.mask17_tapSum, by norm_num, rfl, rfl, rfl, rfl, rfl⟩

/-- C28: for every centre and neighbour pixel the squared difference `ss` is
an unsigned value, so its `float` conversion is `≥ 0`, `1 + ss / 256 ≥ 1`, the
eight rounded squarings stay `≥ 1` and `select(xx > 1, 1, xx)` returns `1`:
the photometric weight is identically `1`, whatever the colour difference. -/
theorem C28_photometric_weight_is_one (ss : Nat) (f : Func Nat) (x y rx ry : Int) :
    0 ≤ fl32 (ss : ℚ)
    ∧ 1 ≤ fl32 (1 + fl32 (fl32 (ss : ℚ) / 256))
    ∧ 1 ≤ NightFilter.expf256_32 (fl32 (1 + fl32 (fl32 (ss : ℚ) / 256)))
    ∧ NightFilter.photometricWeight ss = 1
    ∧ NightFilter.neighbourWeight f x y rx ry = 1 := by
  refine ⟨fl32_nonneg _ (by positivity), NightFilter.one_le_xx0 ss,
    NightFilter.one_le_expf256_32 _ (NightFilter.one_le_xx0 ss),
    NightFilter.photometricWeight_eq_one ss, ?_⟩
  simp only [NightFilter.neighbourWeight, NightFilter.photometricWeight_eq_one]

set_option maxRecDepth 1000000 in
/-- C29 (as stated) fails: the 3x1 `float` masks `(1, 2⁻²⁴, 2⁻²⁴)` and
`(2⁻²⁴, 2⁻²⁴, 1)` have the same size and the same tap sum, but their sums in
loop order are the `float`s `1` and `1 + 2⁻²³`, and on the uniform image of
pixel `0x000000ff` the stage returns `0xff0002fd` with the first mask and
`0xff0002fc` with the second. -/
theorem C29_equal_tap_sums_counterexample :
    NightFilter.maskHeadOne.width = NightFilter.maskTailOne.width
    ∧ NightFilter.maskHeadOne.height = NightFilter.maskTailOne.height
    ∧ NightFilter.maskHeadOne.tapSum = NightFilter.maskTailOne.tapSum
    ∧ NightFilter.AtrousFilter NightFilter.maskHeadOne (NightFilter.uniform 0xff) 0 0
        = 0xff0002fd
    ∧ NightFilter.AtrousFilter NightFilter.maskTailOne (NightFilter.uniform 0xff) 0 0
        = 0xff0002fc
    ∧ NightFilter.AtrousFilter NightFilter.maskHeadOne (NightFilter.uniform 0xff) 0 0
        ≠ NightFilter.AtrousFilter NightFilter.maskTailOne (NightFilter.uniform 0xff) 0 0 := by
  have h1 : NightFilter.AtrousFilter NightFilter.maskHeadOne (NightFilter.uniform 0xff) 0 0
      = 0xff0002fd := by decide!
  have h2 : NightFilter.AtrousFilter NightFilter.maskTailOne (NightFilter.uniform 0xff) 0 0
      = 0xff0002fc := by decide!
  refine ⟨rfl, rfl, ?_, h1, h2, ?_⟩
  · simp [Buffer.tapSum, NightFilter.maskHeadOne, NightFilter.maskTailOne,
      Finset.sum_range_succ]
    norm_num
  · rw [h1, h2]
    decide

/-- C29 (amended): `sum_r`, `sum_g` and `sum_b` sum the channels over every
offset of the window without the mask factor and only `sum_weight` uses the
mask (it is the `float` sum of the taps in loop order); hence for every image
and any two masks of the same size whose taps have the same `float` sum in
loop order, `AtrousFilter` gives the same value at every pixel. -/
theorem C29_numerators_ignore_mask (f : Func Nat) (m1 m2 : Buffer ℚ)
    (hw : m1.width = m2.width) (hh : m1.height = m2.height)
    (hs : accumulate32 m1 (fun rx ry => fl32 (m1.pix rx ry))
        = accumulate32 m2 (fun rx ry => fl32 (m2.pix rx ry)))
    (x y : Int) :
    NightFilter.AtrousFilter m1 f x y = NightFilter.AtrousFilter m2 f x y
    ∧ NightFilter.AtrousFilter m1 f x y
      = NightFilter.AtrousPack
          (accumulate32 m1 (fun rx ry => fl32 (m1.pix rx ry)))
          (accumulate32 m1 (fun rx ry => ((NightFilter.unpack (f (x + rx) (y + ry))).1 : ℚ)))
          (accumulate32 m1 (fun rx ry => ((NightFilter.unpack (f (x + rx) (y + ry))).2.1 : ℚ)))
          (accumulate32 m1 (fun rx ry => ((NightFilter.unpack (f (x + rx) (y + ry))).2.2 : ℚ)))
    := by
  refine ⟨?_, NightFilter.AtrousFilter_eq_unweighted m1 f x y⟩
  rw [NightFilter.AtrousFilter_eq_unweighted, NightFilter.AtrousFilter_eq_unweighted, hs,
    accumulate32_congr m1 m2 hw hh, accumulate32_congr m1 m2 hw hh,
    accumulate32_congr m1 m2 hw hh]

set_option maxRecDepth 1000000 in
theorem C29_numerators_ignore_mask_witness :
    NightFilter.maskBinomial.width = NightFilter.maskPeak.width
    ∧ NightFilter.maskBinomial.height = NightFilter.maskPeak.height
    ∧ accumulate32 NightFilter.maskBinomial (fun rx ry => fl32 (NightFilter.maskBinomial.pix rx ry))
        = accumulate32 NightFilter.maskPeak (fun rx ry => fl32 (NightFilter.maskPeak.pix rx ry))
    ∧ NightFilter.AtrousFilter NightFilter.maskBinomial NightFilter.checkerImage 2 3
        = NightFilter.AtrousFilter NightFilter.maskPeak NightFilter.checkerImage 2 3 := by
  have hs : accumulate32 NightFilter.maskBinomial
        (fun rx ry => fl32 (NightFilter.maskBinomial.pix rx ry))
      = accumulate32 NightFilter.maskPeak
          (fun rx ry => fl32 (NightFilter.maskPeak.pix rx ry)) := by decide!
  exact ⟨rfl, rfl, hs,
    (C29_numerators_ignore_mask NightFilter.checkerImage NightFilter.maskBinomial
      NightFilter.maskPeak rfl rfl hs 2 3).1⟩

/-! ## The levels the pyramid output depends on -/

/-- C30: for every `L ≥ 2` and every pixel the output is
`upsample(processed[1])(x, y) + 0.5 * processed[0](x, y)`, in `ImagePyramid`
(`processed = BLPyramid`) and in `ImageMosaics` (`processed` the merged
`lPyramid`); hence for every `L ≥ 3` the output equals the output of the same
pipeline built with `L = 3`. -/
theorem C30_output_depends_on_two_levels (expf : ℚ → ℚ) (L : Nat) (hL : 2 ≤ L)
    (input mask maskGaus input1 input2 : Buffer ℚ) (sigma_s : ℚ) (x y : Int) :
    ImagePyramid.output expf L input mask maskGaus sigma_s x y
        = ImagePyramid.upsample (ImagePyramid.BLPyramid expf L input mask maskGaus sigma_s 1) x y
          + 0.5 * ImagePyramid.BLPyramid expf L input mask maskGaus sigma_s 0 x y
    ∧ ImageMosaics.output L input1 input2 maskGaus x y
        = ImageMosaics.upsample (ImageMosaics.lPyramid L input1 input2 maskGaus 1) x y
          + 0.5 * ImageMosaics.lPyramid L input1 input2 maskGaus 0 x y
    ∧ (3 ≤ L →
        ImagePyramid.output expf L input mask maskGaus sigma_s x y
          = ImagePyramid.output expf 3 input mask maskGaus sigma_s x y
        ∧ ImageMosaics.output L input1 input2 maskGaus x y
          = ImageMosaics.output 3 input1 input2 maskGaus x y) := by
  have h0 : (0 : Nat) ≠ L - 1 := by omega
  have hP : ImagePyramid.output expf L input mask maskGaus sigma_s x y
      = ImagePyramid.upsample (ImagePyramid.BLPyramid expf L input mask maskGaus sigma_s 1) x y
        + 0.5 * ImagePyramid.BLPyramid expf L input mask maskGaus sigma_s 0 x y := by
    simp only [ImagePyramid.output, ImagePyramid.outLPyramid, if_neg h0]
    ring
  have hM : ImageMosaics.output L input1 input2 maskGaus x y
      = ImageMosaics.upsample (ImageMosaics.lPyramid L input1 input2 maskGaus 1) x y
        + 0.5 * ImageMosaics.lPyramid L input1 input2 maskGaus 0 x y := by
    simp only [ImageMosaics.output, ImageMosaics.outLPyramid, if_neg h0]
    ring
  refine ⟨hP, hM, fun h3 => ?_⟩
  have h0' : (0 : Nat) ≠ L - 1 := h0
  have h1' : (1 : Nat) ≠ L - 1 := by omega
  have hl0 : ImagePyramid.lPyramid L input maskGaus 0 = ImagePyramid.lPyramid 3 input maskGaus 0 := by
    simp only [ImagePyramid.lPyramid, if_neg h0']
    rfl
  have hl1 : ImagePyramid.lPyramid L input maskGaus 1 = ImagePyramid.lPyramid 3 input maskGaus 1 := by
    simp only [ImagePyramid.lPyramid, if_neg h1']
    rfl
  have hb0 : ImagePyramid.BLPyramid expf L input mask maskGaus sigma_s 0
      = ImagePyramid.BLPyramid expf 3 input mask maskGaus sigma_s 0 := by
    simp only [ImagePyramid.BLPyramid, if_true, hl0]
  have hb1 : ImagePyramid.BLPyramid expf L input mask maskGaus sigma_s 1
      = ImagePyramid.BLPyramid expf 3 input mask maskGaus sigma_s 1 := by
    simp only [ImagePyramid.BLPyramid, hl1, hl0]
  have hm0 : ImageMosaics.lPyramid L input1 input2 maskGaus 0
      = ImageMosaics.lPyramid 3 input1 input2 maskGaus 0 := by
    simp only [ImageMosaics.lPyramid, ImageMosaics.lPyramid1, ImageMosaics.lPyramid2, if_neg h0']
    rfl
  have hm1 : ImageMosaics.lPyramid L input1 input2 maskGaus 1
      = ImageMosaics.lPyramid 3 input1 input2 maskGaus 1 := by
    simp only [ImageMosaics.lPyramid, ImageMosaics.lPyramid1, ImageMosaics.lPyramid2, if_neg h1']
    rfl
  constructor
  · rw [hP, hb0, hb1]
    simp only [ImagePyramid.output, ImagePyramid.outLPyramid]
    norm_num
    ring
  · rw [hM, hm0, hm1]
    simp only [ImageMosaics.output, ImageMosaics.outLPyramid]
    norm_num
    ring

theorem C30_output_depends_on_two_levels_witness :
    ImagePyramid.output expStandIn 8 Gaussian.rampImage Bilateral.mainMask ImagePyramid.maskg 13
        1 2
      = ImagePyramid.output expStandIn 3 Gaussian.rampImage Bilateral.mainMask ImagePyramid.maskg
          13 1 2
    ∧ ImageMosaics.output 8 Gaussian.rampImage ImageMosaics.stepImage ImagePyramid.maskg 1 2
      = ImageMosaics.output 3 Gaussian.rampImage ImageMosaics.stepImage ImagePyramid.maskg 1 2 :=
  (C30_output_depends_on_two_levels expStandIn 8 (by decide) Gaussian.rampImage Bilateral.mainMask
    ImagePyramid.maskg Gaussian.rampImage ImageMosaics.stepImage 13 1 2).2.2 (by decide)

/-! ## Averaging operators -/

/-- C31: `upsample` is an averaging operator.  For every `f` and every integer
`(x, y)` the value `upsample(f)(x, y)` is the combination of the four taps
`f(x/2, y/2)`, `f(x/2 - 1 + 2*(x%2), y/2)`, `f(x/2, y/2 - 1 + 2*(y%2))` and
`f(x/2 - 1 + 2*(x%2), y/2 - 1 + 2*(y%2))` with the weights `9/16`, `3/16`,
`3/16`, `1/16`, which sum to `1`; hence `upsample` of a constant function `c`
is `c`, and the value lies between the minimum and the maximum of the four
taps.  The `upsample` of `ImageMosaics` is the same function. -/
theorem C31_upsample_is_average (f : Func ℚ) (c : ℚ) (x y : Int) :
    ImagePyramid.upsample f x y
        = 9 / 16 * f (x / 2) (y / 2)
          + 3 / 16 * f (x / 2 - 1 + 2 * (x % 2)) (y / 2)
          + 3 / 16 * f (x / 2) (y / 2 - 1 + 2 * (y % 2))
          + 1 / 16 * f (x / 2 - 1 + 2 * (x % 2)) (y / 2 - 1 + 2 * (y % 2))
    ∧ (9 / 16 + 3 / 16 + 3 / 16 + 1 / 16 : ℚ) = 1
    ∧ ImagePyramid.upsample (fun _ _ => c) x y = c
    ∧ min (min (f (x / 2) (y / 2)) (f (x / 2 - 1 + 2 * (x % 2)) (y / 2)))
          (min (f (x / 2) (y / 2 - 1 + 2 * (y % 2)))
            (f (x / 2 - 1 + 2 * (x % 2)) (y / 2 - 1 + 2 * (y % 2))))
        ≤ ImagePyramid.upsample f x y
    ∧ ImagePyramid.upsample f x y
        ≤ max (max (f (x / 2) (y / 2)) (f (x / 2 - 1 + 2 * (x % 2)) (y / 2)))
            (max (f (x / 2) (y / 2 - 1 + 2 * (y % 2)))
              (f (x / 2 - 1 + 2 * (x % 2)) (y / 2 - 1 + 2 * (y % 2))))
    ∧ ImageMosaics.upsample f x y = ImagePyramid.upsample f x y := by
  have h : ImagePyramid.upsample f x y
      = 9 / 16 * f (x / 2) (y / 2)
        + 3 / 16 * f (x / 2 - 1 + 2 * (x % 2)) (y / 2)
        + 3 / 16 * f (x / 2) (y / 2 - 1 + 2 * (y % 2))
        + 1 / 16 * f (x / 2 - 1 + 2 * (x % 2)) (y / 2 - 1 + 2 * (y % 2)) := by
    simp only [ImagePyramid.upsample, ImagePyramid.upx]
    ring
  refine ⟨h, by norm_num, ?_, ?_, ?_, rfl⟩
  · simp only [ImagePyramid.upsample, ImagePyramid.upx]
    ring
  · rw [h]
    generalize f (x / 2) (y / 2) = a
    generalize f (x / 2 - 1 + 2 * (x % 2)) (y / 2) = b
    generalize f (x / 2) (y / 2 - 1 + 2 * (y % 2)) = d
    generalize f (x / 2 - 1 + 2 * (x % 2)) (y / 2 - 1 + 2 * (y % 2)) = e
    have h1 : min (min a b) (min d e) ≤ a := le_trans (min_le_left _ _) (min_le_left _ _)
    have h2 : min (min a b) (min d e) ≤ b := le_trans (min_le_left _ _) (min_le_right _ _)
    have h3 : min (min a b) (min d e) ≤ d := le_trans (min_le_right _ _) (min_le_left _ _)
    have h4 : min (min a b) (min d e) ≤ e := le_trans (min_le_right _ _) (min_le_right _ _)
    linarith
  · rw [h]
    generalize f (x / 2) (y / 2) = a
    generalize f (x / 2 - 1 + 2 * (x % 2)) (y / 2) = b
    generalize f (x / 2) (y / 2 - 1 + 2 * (y % 2)) = d
    generalize f (x / 2 - 1 + 2 * (x % 2)) (y / 2 - 1 + 2 * (y % 2)) = e
    have h1 : a ≤ max (max a b) (max d e) := le_trans (le_max_left _ _) (le_max_left _ _)
    have h2 : b ≤ max (max a b) (max d e) := le_trans (le_max_right _ _) (le_max_left _ _)
    have h3 : d ≤ max (max a b) (max d e) := le_trans (le_max_left _ _) (le_max_right _ _)
    have h4 : e ≤ max (max a b) (max d e) := le_trans (le_max_right _ _) (le_max_right _ _)
    linarith

namespace Halide

end Halide

namespace Bilateral

end Bilateral

namespace ShiTomasiFeature

theorem repeat_edge_offsetImage (input : Buffer Int) (c : Int) (x y : Int) :
    repeat_edge (offsetImage input c) x y = wrap32 (repeat_edge input x y + c) := rfl

/-- With a mask whose taps sum to `0` the wrapped windowed sum does not see a
constant offset of the image. -/
theorem wrap32_windowSum_offset (mask : Buffer Int) (hm : tapSumInt mask = 0) (f : Func Int)
    (c : Int) (x y : Int) :
    wrap32 (windowSum mask (fun u v => wrap32 (f u v + c)) x y) = wrap32 (windowSum mask f x y) := by
  apply wrap32_congr
  have hz : ((tapSumInt mask : Int) : ZMod 4294967296) = 0 := by rw [hm]; rfl
  simp only [tapSumInt] at hz
  push_cast at hz
  simp only [windowSum]
  push_cast
  simp only [cast_wrap32]
  push_cast
  simp only [add_mul, Finset.sum_add_distrib, ← Finset.mul_sum, hz, mul_zero, add_zero]

theorem dx_offsetImage (input masksx : Buffer Int) (hm : tapSumInt masksx = 0) (c : Int) :
    dx (offsetImage input c) masksx = dx input masksx := by
  funext x y
  simp only [dx, Dx_eq]
  rw [show repeat_edge (offsetImage input c) = fun u v => wrap32 (repeat_edge input u v + c)
    from rfl, wrap32_windowSum_offset masksx hm]

theorem dy_offsetImage (input masksy : Buffer Int) (hm : tapSumInt masksy = 0) (c : Int) :
    dy (offsetImage input c) masksy = dy input masksy := by
  funext x y
  simp only [dy, Dy_eq]
  rw [show repeat_edge (offsetImage input c) = fun u v => wrap32 (repeat_edge input u v + c)
    from rfl, wrap32_windowSum_offset masksy hm]

theorem wrap32_neg_mul_neg (a b : Int) :
    wrap32 (wrap32 (b - a) * wrap32 (b - a)) = wrap32 (wrap32 (a - b) * wrap32 (a - b)) := by
  apply wrap32_congr
  push_cast
  simp only [cast_wrap32]
  push_cast
  ring

end ShiTomasiFeature

/-- C33: the corner response is invariant under a brightness offset.  For
every `int` image, every integer `c` and gradient masks whose taps sum to
zero, the derivatives `dx`, `dy` and the `output` computed from the image
with `c` added to every pixel equal those computed from the image itself, at
every pixel; in `int32` arithmetic this holds with wrap-around as well, so
in particular whenever no overflow occurs. -/
theorem C33_brightness_offset_invariance (sqrtf : ℚ → ℚ) (thr : ℚ)
    (input maskg masksx masksy : Buffer Int) (c : Int)
    (hsx : ShiTomasiFeature.tapSumInt masksx = 0) (hsy : ShiTomasiFeature.tapSumInt masksy = 0)
    (x y : Int) :
    ShiTomasiFeature.dx (ShiTomasiFeature.offsetImage input c) masksx x y
        = ShiTomasiFeature.dx input masksx x y
    ∧ ShiTomasiFeature.dy (ShiTomasiFeature.offsetImage input c) masksy x y
        = ShiTomasiFeature.dy input masksy x y
    ∧ ShiTomasiFeature.output sqrtf thr (ShiTomasiFeature.offsetImage input c) maskg masksx masksy
          x y
        = ShiTomasiFeature.output sqrtf thr input maskg masksx masksy x y := by
  have hx := ShiTomasiFeature.dx_offsetImage input masksx hsx c
  have hy := ShiTomasiFeature.dy_offsetImage input masksy hsy c
  have h1 : ShiTomasiFeature.sx (ShiTomasiFeature.offsetImage input c) masksx
      = ShiTomasiFeature.sx input masksx := by
    funext u v
    simp only [ShiTomasiFeature.sx, hx]
  have h2 : ShiTomasiFeature.sy (ShiTomasiFeature.offsetImage input c) masksy
      = ShiTomasiFeature.sy input masksy := by
    funext u v
    simp only [ShiTomasiFeature.sy, hy]
  have h3 : ShiTomasiFeature.sxy (ShiTomasiFeature.offsetImage input c) masksx masksy
      = ShiTomasiFeature.sxy input masksx masksy := by
    funext u v
    simp only [ShiTomasiFeature.sxy, hx, hy]
  refine ⟨by rw [hx], by rw [hy], ?_⟩
  simp only [ShiTomasiFeature.output, ShiTomasiFeature.lambda, ShiTomasiFeature.lambda1,
    ShiTomasiFeature.lambda2, ShiTomasiFeature.interm, ShiTomasiFeature.gx, ShiTomasiFeature.gy,
    ShiTomasiFeature.gxy, h1, h2, h3]

theorem C33_brightness_offset_invariance_witness :
    ShiTomasiFeature.tapSumInt ShiTomasiFeature.mainMasksx = 0
    ∧ ShiTomasiFeature.tapSumInt ShiTomasiFeature.mainMasksy = 0
    ∧ ShiTomasiFeature.dx (ShiTomasiFeature.offsetImage ShiTomasiFeature.sampleImage 100)
          ShiTomasiFeature.mainMasksx 1 1
        = ShiTomasiFeature.dx ShiTomasiFeature.sampleImage ShiTomasiFeature.mainMasksx 1 1
    ∧ ShiTomasiFeature.dy (ShiTomasiFeature.offsetImage ShiTomasiFeature.sampleImage 100)
          ShiTomasiFeature.mainMasksy 1 1
        = ShiTomasiFeature.dy ShiTomasiFeature.sampleImage ShiTomasiFeature.mainMasksy 1 1
    ∧ ShiTomasiFeature.output sqrtStandIn ShiTomasiFeature.threshold
          (ShiTomasiFeature.offsetImage ShiTomasiFeature.sampleImage 100)
          ShiTomasiFeature.mainMaskg ShiTomasiFeature.mainMasksx ShiTomasiFeature.mainMasksy 1 1
        = ShiTomasiFeature.output sqrtStandIn ShiTomasiFeature.threshold
            ShiTomasiFeature.sampleImage ShiTomasiFeature.mainMaskg ShiTomasiFeature.mainMasksx
            ShiTomasiFeature.mainMasksy 1 1 := by
  have hx : ShiTomasiFeature.tapSumInt ShiTomasiFeature.mainMasksx = 0 := by decide
  have hy : ShiTomasiFeature.tapSumInt ShiTomasiFeature.mainMasksy = 0 := by decide
  exact ⟨hx, hy,
    C33_brightness_offset_invariance sqrtStandIn ShiTomasiFeature.threshold
      ShiTomasiFeature.sampleImage ShiTomasiFeature.mainMaskg ShiTomasiFeature.mainMasksx
      ShiTomasiFeature.mainMasksy 100 hx hy 1 1⟩

/-- C34: the corner response is symmetric in the two gradient masks.  For
every image and every pair of integer masks, the pipeline built with
`masksx` and `masksy` exchanged gives the same `output` at every pixel
(`Dx` and `Dy` have the same body); the tables loaded by `main` are the
transposes of each other and `maskg` is symmetric. -/
theorem C34_gradient_masks_exchange (sqrtf : ℚ → ℚ) (thr : ℚ)
    (input maskg masksx masksy : Buffer Int) (x y : Int) (i j : Fin 3) :
    ShiTomasiFeature.output sqrtf thr input maskg masksy masksx x y
        = ShiTomasiFeature.output sqrtf thr input maskg masksx masksy x y
    ∧ ShiTomasiFeature.dx input masksy = ShiTomasiFeature.dy input masksy
    ∧ ShiTomasiFeature.mainMasksx.pix (i : Nat) (j : Nat)
        = ShiTomasiFeature.mainMasksy.pix (j : Nat) (i : Nat)
    ∧ ShiTomasiFeature.mainMaskg.pix (i : Nat) (j : Nat)
        = ShiTomasiFeature.mainMaskg.pix (j : Nat) (i : Nat) := by
  have hxy : ∀ m : Buffer Int, ShiTomasiFeature.dx input m = ShiTomasiFeature.dy input m :=
    fun _ => rfl
  have hsx : ∀ m : Buffer Int, ShiTomasiFeature.sx input m = ShiTomasiFeature.sy input m :=
    fun _ => rfl
  have hsxy : ShiTomasiFeature.sxy input masksy masksx = ShiTomasiFeature.sxy input masksx masksy := by
    funext u v
    simp only [ShiTomasiFeature.sxy, hxy, mul_comm]
  have hgx : ∀ m : Buffer Int, ShiTomasiFeature.gx input maskg m = ShiTomasiFeature.gy input maskg m :=
    fun _ => rfl
  refine ⟨?_, hxy masksy, ?_, ?_⟩
  · simp only [ShiTomasiFeature.output, ShiTomasiFeature.lambda, ShiTomasiFeature.lambda1,
      ShiTomasiFeature.lambda2, ShiTomasiFeature.interm, ShiTomasiFeature.gxy, hsxy, hgx]
    rw [ShiTomasiFeature.wrap32_neg_mul_neg (ShiTomasiFeature.gy input maskg masksx x y)
      (ShiTomasiFeature.gy input maskg masksy x y),
      add_comm (ShiTomasiFeature.gy input maskg masksy x y)
        (ShiTomasiFeature.gy input maskg masksx x y)]
  · revert i j
    decide
  · revert i j
    decide

/-! ## Channel bytes and the divisors of `Scoto` -/

namespace NightFilter

theorem land_255 (a : Nat) : a &&& 0xff = a % 256 := by
  have h := Nat.and_pow_two_sub_one_eq_mod a 8
  simpa using h

theorem channel_bits (a b : Nat) (h : a % 2 ^ 24 = b % 2 ^ 24) :
    a &&& 0xff = b &&& 0xff ∧ (a >>> 8) &&& 0xff = (b >>> 8) &&& 0xff
    ∧ (a >>> 16) &&& 0xff = (b >>> 16) &&& 0xff := by
  simp only [land_255, Nat.shiftRight_eq_div_pow]
  norm_num at h ⊢
  omega

theorem unpack_eq_of_low24 (a b : Nat) (h : a % 2 ^ 24 = b % 2 ^ 24) : unpack a = unpack b := by
  obtain ⟨h1, h2, h3⟩ := channel_bits a b h
  simp only [unpack, h1, h2, h3]

theorem scotoExprs_eq_of_low24 (a b : Nat) (h : a % 2 ^ 24 = b % 2 ^ 24) :
    scotoExprs a = scotoExprs b := by
  obtain ⟨h1, h2, h3⟩ := channel_bits a b h
  simp only [scotoExprs, h1, h2, h3]

theorem channel_byte_range (n : Nat) :
    (0 : ℚ) ≤ ((n &&& 0xff : Nat) : ℚ) ∧ ((n &&& 0xff : Nat) : ℚ) ≤ 255 := by
  rw [land_255]
  have h : n % 256 ≤ 255 := by omega
  exact ⟨by positivity, by exact_mod_cast h⟩

theorem scotoX_pos_iff (R G B : ℚ) (hR : 0 ≤ R) (hG : 0 ≤ G) (hB : 0 ≤ B) :
    0 < 0.5149 * R + 0.3244 * G + 0.1607 * B ↔ ¬ (R = 0 ∧ G = 0 ∧ B = 0) := by
  constructor
  · rintro h ⟨h1, h2, h3⟩
    rw [h1, h2, h3] at h
    norm_num at h
  · intro h
    by_contra hn
    have hle : 0.5149 * R + 0.3244 * G + 0.1607 * B ≤ 0 := not_lt.mp hn
    norm_num at hle
    exact h ⟨by linarith, by linarith, by linarith⟩

theorem scotoYZ_eq_zero_iff (R G B : ℚ) (hR : 0 ≤ R) (hG : 0 ≤ G) (hB : 0 ≤ B) :
    (0.2654 * R + 0.6704 * G + 0.0642 * B) / 3 + (0.0248 * R + 0.1248 * G + 0.8504 * B) = 0
      ↔ (R = 0 ∧ G = 0 ∧ B = 0) := by
  constructor
  · intro h
    norm_num at h
    exact ⟨by linarith, by linarith, by linarith⟩
  · rintro ⟨h1, h2, h3⟩
    rw [h1, h2, h3]
    norm_num

theorem scotoYZ_nonneg (R G B : ℚ) (hR : 0 ≤ R) (hG : 0 ≤ G) (hB : 0 ≤ B) :
    0 ≤ (0.2654 * R + 0.6704 * G + 0.0642 * B) / 3 + (0.0248 * R + 0.1248 * G + 0.8504 * B) := by
  norm_num
  linarith

end NightFilter

/-- C35: the divisions of `Scoto` are defined exactly off black.  For every
packed pixel the channel values `R`, `G`, `B` lie in `0 .. 255`; the divisor
`X = 0.5149 R + 0.3244 G + 0.1607 B` of `V` and the divisor `W = X + Y + Z`
of `x1`, `y1` are strictly positive exactly when one of `R`, `G`, `B` is
non-zero; `X = 0` exactly when `R = G = B = 0`, and then the numerator
`Y + Z` is `0` as well (a `0/0`); the third divisor `y1mix` is never `0`. -/
theorem C35_scoto_divisors (val : Nat) :
    (0 ≤ (NightFilter.scotoExprs val).rin ∧ (NightFilter.scotoExprs val).rin ≤ 255)
    ∧ (0 ≤ (NightFilter.scotoExprs val).gin ∧ (NightFilter.scotoExprs val).gin ≤ 255)
    ∧ (0 ≤ (NightFilter.scotoExprs val).bin ∧ (NightFilter.scotoExprs val).bin ≤ 255)
    ∧ (0 < (NightFilter.scotoExprs val).X
        ↔ ¬ ((NightFilter.scotoExprs val).rin = 0 ∧ (NightFilter.scotoExprs val).gin = 0
              ∧ (NightFilter.scotoExprs val).bin = 0))
    ∧ (0 < (NightFilter.scotoExprs val).W
        ↔ ¬ ((NightFilter.scotoExprs val).rin = 0 ∧ (NightFilter.scotoExprs val).gin = 0
              ∧ (NightFilter.scotoExprs val).bin = 0))
    ∧ ((NightFilter.scotoExprs val).X = 0
        ↔ ((NightFilter.scotoExprs val).rin = 0 ∧ (NightFilter.scotoExprs val).gin = 0
              ∧ (NightFilter.scotoExprs val).bin = 0))
    ∧ ((NightFilter.scotoExprs val).X = 0 ↔
        (NightFilter.scotoExprs val).Y + (NightFilter.scotoExprs val).Z = 0)
    ∧ (NightFilter.scotoExprs val).V
        = (NightFilter.scotoExprs val).Y
          * ((((NightFilter.scotoExprs val).Y + (NightFilter.scotoExprs val).Z)
                / (NightFilter.scotoExprs val).X + 1) * 1.33 - 1.68)
    ∧ (NightFilter.scotoExprs val).x1 = (NightFilter.scotoExprs val).X / (NightFilter.scotoExprs val).W
    ∧ (NightFilter.scotoExprs val).y1 = (NightFilter.scotoExprs val).Y / (NightFilter.scotoExprs val).W
    ∧ (NightFilter.scotoExprs val).y1mix ≠ 0 := by
  have b1 : 0 ≤ (NightFilter.scotoExprs val).rin ∧ (NightFilter.scotoExprs val).rin ≤ 255 :=
    NightFilter.channel_byte_range val
  have b2 : 0 ≤ (NightFilter.scotoExprs val).gin ∧ (NightFilter.scotoExprs val).gin ≤ 255 :=
    NightFilter.channel_byte_range (val >>> 8)
  have b3 : 0 ≤ (NightFilter.scotoExprs val).bin ∧ (NightFilter.scotoExprs val).bin ≤ 255 :=
    NightFilter.channel_byte_range (val >>> 16)
  have hX : (NightFilter.scotoExprs val).X
      = 0.5149 * (NightFilter.scotoExprs val).rin + 0.3244 * (NightFilter.scotoExprs val).gin
        + 0.1607 * (NightFilter.scotoExprs val).bin := rfl
  have hYZ : (NightFilter.scotoExprs val).Y + (NightFilter.scotoExprs val).Z
      = (0.2654 * (NightFilter.scotoExprs val).rin + 0.6704 * (NightFilter.scotoExprs val).gin
          + 0.0642 * (NightFilter.scotoExprs val).bin) / 3
        + (0.0248 * (NightFilter.scotoExprs val).rin + 0.1248 * (NightFilter.scotoExprs val).gin
          + 0.8504 * (NightFilter.scotoExprs val).bin) := rfl
  have hW : (NightFilter.scotoExprs val).W
      = (NightFilter.scotoExprs val).X
        + ((NightFilter.scotoExprs val).Y + (NightFilter.scotoExprs val).Z) := by
    have h : (NightFilter.scotoExprs val).W
      = (NightFilter.scotoExprs val).X + (NightFilter.scotoExprs val).Y
        + (NightFilter.scotoExprs val).Z := rfl
    rw [h, add_assoc]
  have hy1 : (NightFilter.scotoExprs val).y1mix = (1 - 0) * 0.25 + 0 * (NightFilter.scotoExprs val).y1 :=
    rfl
  have pX := NightFilter.scotoX_pos_iff _ _ _ b1.1 b2.1 b3.1
  have zYZ := NightFilter.scotoYZ_eq_zero_iff _ _ _ b1.1 b2.1 b3.1
  have nYZ := NightFilter.scotoYZ_nonneg _ _ _ b1.1 b2.1 b3.1
  rw [← hX] at pX
  rw [← hYZ] at zYZ nYZ
  have nX : 0 ≤ (NightFilter.scotoExprs val).X := by
    by_cases h : (NightFilter.scotoExprs val).rin = 0 ∧ (NightFilter.scotoExprs val).gin = 0
              ∧ (NightFilter.scotoExprs val).bin = 0
    · rw [hX, h.1, h.2.1, h.2.2]
      norm_num
    · exact le_of_lt (pX.mpr h)
  have zX : (NightFilter.scotoExprs val).X = 0
        ↔ ((NightFilter.scotoExprs val).rin = 0 ∧ (NightFilter.scotoExprs val).gin = 0
              ∧ (NightFilter.scotoExprs val).bin = 0) := by
    constructor
    · intro h
      by_contra hn
      have := pX.mpr hn
      rw [h] at this
      exact lt_irrefl _ this
    · intro h
      rw [hX, h.1, h.2.1, h.2.2]
      norm_num
  refine ⟨b1, b2, b3, pX, ?_, zX, zX.trans zYZ.symm, rfl, rfl, rfl, ?_⟩
  · rw [hW]
    constructor
    · intro h hz
      rw [zX.mpr hz, zYZ.mpr hz] at h
      norm_num at h
    · intro h
      have := pX.mpr h
      linarith
  · rw [hy1]
    norm_num

/-- C36: the input alpha byte never influences the result.  For every two
input images that agree on bits `0 .. 23` of every pixel, `AtrousFilter`
gives the same value and `Scoto` gives the same value at every pixel. -/
theorem C36_alpha_byte_is_ignored (mask : Buffer ℚ) (f1 f2 : Func Nat)
    (h : ∀ x y, f1 x y % 2 ^ 24 = f2 x y % 2 ^ 24) (x y : Int) :
    NightFilter.AtrousFilter mask f1 x y = NightFilter.AtrousFilter mask f2 x y
    ∧ NightFilter.Scoto f1 x y = NightFilter.Scoto f2 x y := by
  have hu : ∀ u v, NightFilter.unpack (f1 u v) = NightFilter.unpack (f2 u v) :=
    fun u v => NightFilter.unpack_eq_of_low24 _ _ (h u v)
  constructor
  · simp only [NightFilter.AtrousFilter_eq_weighted, NightFilter.neighbourWeight,
      NightFilter.squaredDifference, hu]
  · simp only [NightFilter.Scoto, NightFilter.scotoExprs_eq_of_low24 _ _ (h x y)]

set_option maxRecDepth 1000000 in
theorem C36_alpha_byte_is_ignored_witness :
    (∀ x y : Int, (fun u v : Int => NightFilter.checkerImage u v + 0xab000000) x y % 2 ^ 24
        = NightFilter.checkerImage x y % 2 ^ 24)
    ∧ NightFilter.AtrousFilter NightFilter.mask3.toFloat32
          (fun u v : Int => NightFilter.checkerImage u v + 0xab000000) 2 3
        = NightFilter.AtrousFilter NightFilter.mask3.toFloat32 NightFilter.checkerImage 2 3
    ∧ NightFilter.Scoto (fun u v : Int => NightFilter.checkerImage u v + 0xab000000) 2 3
        = NightFilter.Scoto NightFilter.checkerImage 2 3
    ∧ NightFilter.AtrousFilter NightFilter.mask3.toFloat32 NightFilter.checkerImage 2 3
        = 0xfffffdfa := by
  have h : ∀ x y : Int,
      (fun u v : Int => NightFilter.checkerImage u v + 0xab000000) x y % 2 ^ 24
        = NightFilter.checkerImage x y % 2 ^ 24 := by
    intro x y
    simp only
    omega
  have hv : NightFilter.AtrousFilter NightFilter.mask3.toFloat32 NightFilter.checkerImage 2 3
      = 0xfffffdfa := by decide!
  have hc := C36_alpha_byte_is_ignored NightFilter.mask3.toFloat32
    (fun u v : Int => NightFilter.checkerImage u v + 0xab000000) NightFilter.checkerImage h 2 3
  exact ⟨h, hc.1, hc.2, hv⟩

/-! ## `Unsharp` and the reduction -/

namespace Unsharp

theorem Gauss_const (mask : Buffer Int) (c : ℚ) (x y : Int) :
    Gauss mask (fun _ _ => c) x y = c * (ShiTomasiFeature.tapSumInt mask : ℚ) / (norm : ℚ) := by
  simp only [Gauss, accumulate_eq_sum, ShiTomasiFeature.tapSumInt]
  push_cast
  simp only [Finset.mul_sum]

end Unsharp

/-- C37: the ratio round trip of `Unsharp` is the sharpened value wherever
it is defined.  `ratio = sharp / gray` and `output = ratio * gray` with
`sharp = 2 * gray - Gauss(gray)`; at a pixel with `gray(x, y) ≠ 0` the
output is `2 * gray(x, y) - Gauss(gray)(x, y)` in exact arithmetic; at a
pixel with `gray(x, y) = 0` the divisor of `ratio` is `0`; and a non-zero
constant image `c` is mapped to `c` when the integer mask sums to the
divisor `norm = 16`. -/
theorem C37_unsharp_ratio_round_trip (input : Buffer ℚ) (mask : Buffer Int) (x y : Int) :
    Unsharp.ratio input mask x y = Unsharp.sharp input mask x y / Unsharp.gray input x y
    ∧ Unsharp.output input mask x y
        = Unsharp.sharp input mask x y / Unsharp.gray input x y * Unsharp.gray input x y
    ∧ Unsharp.sharp input mask x y
        = 2 * Unsharp.gray input x y - Unsharp.Gauss mask (Unsharp.gray input) x y
    ∧ (Unsharp.gray input x y ≠ 0 →
        Unsharp.output input mask x y
          = 2 * Unsharp.gray input x y - Unsharp.Gauss mask (Unsharp.gray input) x y)
    ∧ (Unsharp.gray input x y = 0 →
        Unsharp.ratio input mask x y = Unsharp.sharp input mask x y / 0)
    ∧ (∀ c : ℚ, c ≠ 0 → (∀ u v, Unsharp.gray input u v = c) →
        ShiTomasiFeature.tapSumInt mask = Unsharp.norm → Unsharp.output input mask x y = c) := by
  refine ⟨rfl, rfl, rfl, ?_, ?_, ?_⟩
  · intro hg
    show Unsharp.sharp input mask x y / Unsharp.gray input x y * Unsharp.gray input x y = _
    rw [div_mul_cancel₀ _ hg]
    rfl
  · intro hg
    show Unsharp.sharp input mask x y / Unsharp.gray input x y = _
    rw [hg]
  · intro c hc hconst hsum
    have hgf : Unsharp.gray input = fun _ _ => c := by
      funext u v
      exact hconst u v
    have hG : Unsharp.Gauss mask (Unsharp.gray input) x y = c := by
      rw [hgf, Unsharp.Gauss_const, hsum]
      have hn : ((Unsharp.norm : Int) : ℚ) ≠ 0 := by
        simp [Unsharp.norm]
      rw [mul_div_assoc, div_self hn, mul_one]
    show (2 * Unsharp.gray input x y - Unsharp.Gauss mask (Unsharp.gray input) x y)
      / Unsharp.gray input x y * Unsharp.gray input x y = c
    rw [hG, hconst x y, div_mul_cancel₀ _ hc]
    ring

theorem C37_unsharp_ratio_round_trip_witness :
    Unsharp.gray Gaussian.rampImage 2 1 ≠ 0
    ∧ Unsharp.output Gaussian.rampImage Unsharp.mainMask 2 1
        = 2 * Unsharp.gray Gaussian.rampImage 2 1
          - Unsharp.Gauss Unsharp.mainMask (Unsharp.gray Gaussian.rampImage) 2 1
    ∧ Unsharp.gray Gaussian.rampImage 0 0 = 0
    ∧ Unsharp.ratio Gaussian.rampImage Unsharp.mainMask 0 0
        = Unsharp.sharp Gaussian.rampImage Unsharp.mainMask 0 0 / 0
    ∧ (16 : ℚ) ≠ 0
    ∧ (∀ u v, Unsharp.gray (ImageMosaics.constImage 16) u v = 16)
    ∧ ShiTomasiFeature.tapSumInt Unsharp.mainMask = Unsharp.norm
    ∧ Unsharp.output (ImageMosaics.constImage 16) Unsharp.mainMask 3 5 = 16 := by
  have h1 : Unsharp.gray Gaussian.rampImage 2 1 ≠ 0 := by
    simp [Unsharp.gray, repeat_edge, Gaussian.rampImage, clamp]
  have h2 : Unsharp.gray Gaussian.rampImage 0 0 = 0 := by
    simp [Unsharp.gray, repeat_edge, Gaussian.rampImage, clamp]
  have h3 : ∀ u v, Unsharp.gray (ImageMosaics.constImage 16) u v = 16 := fun _ _ => rfl
  have h4 : ShiTomasiFeature.tapSumInt Unsharp.mainMask = Unsharp.norm := by decide
  exact ⟨h1, (C37_unsharp_ratio_round_trip Gaussian.rampImage Unsharp.mainMask 2 1).2.2.2.1 h1,
    h2, (C37_unsharp_ratio_round_trip Gaussian.rampImage Unsharp.mainMask 0 0).2.2.2.2.1 h2,
    by norm_num, h3, h4,
    (C37_unsharp_ratio_round_trip (ImageMosaics.constImage 16) Unsharp.mainMask 3 5).2.2.2.2.2
      16 (by norm_num) h3 h4⟩

namespace ReduceSum

theorem sum_bounds (k : Nat) (input : Int → Int)
    (hin : ∀ i : Nat, i < k → 0 ≤ input (i : Int) ∧ input (i : Int) ≤ 4095) :
    0 ≤ ∑ i in Finset.range k, input (i : Int)
    ∧ ∑ i in Finset.range k, input (i : Int) ≤ 4095 * (k : Int) := by
  constructor
  · exact Finset.sum_nonneg (fun i hi => (hin i (Finset.mem_range.mp hi)).1)
  · have h := Finset.sum_le_sum (fun i hi => (hin i (Finset.mem_range.mp hi)).2)
      (s := Finset.range k) (f := fun i : Nat => input (i : Int)) (g := fun _ => (4095 : Int))
    simp only [Finset.sum_const, Finset.card_range, nsmul_eq_mul] at h
    linarith

end ReduceSum

/-- C38: the benchmark reduction cannot overflow.  For inputs with
`0 ≤ input(i) ≤ 0xfff` for `i < WIDTH = 65536`, the accumulator after any
number `k ≤ WIDTH` of steps equals the mathematical sum of the first `k`
elements and lies in `0 .. 4095 * 65536 = 268369920 < 2^31`; the next
addition does not leave that range either, and the final `int32` result (of
the pipeline and of the reference loop) equals the mathematical sum. -/
theorem C38_reduction_no_overflow (input : Int → Int)
    (hin : ∀ i : Nat, i < ReduceSum.WIDTH → 0 ≤ input (i : Int) ∧ input (i : Int) ≤ 0xfff)
    (k : Nat) (hk : k ≤ ReduceSum.WIDTH) :
    ReduceSum.output k input = ∑ i in Finset.range k, input (i : Int)
    ∧ 0 ≤ ReduceSum.output k input
    ∧ ReduceSum.output k input ≤ 4095 * 65536
    ∧ (4095 * 65536 : Int) = 268369920 ∧ (268369920 : Int) < 2 ^ 31
    ∧ (k < ReduceSum.WIDTH →
        ReduceSum.output (k + 1) input = ReduceSum.output k input + input (k : Int)
        ∧ ReduceSum.output k input + input (k : Int) ≤ 4095 * 65536)
    ∧ ReduceSum.output ReduceSum.WIDTH input
        = ∑ i in Finset.range ReduceSum.WIDTH, input (i : Int)
    ∧ ReduceSum.c_ref ReduceSum.WIDTH input
        = ∑ i in Finset.range ReduceSum.WIDTH, input (i : Int) := by
  have hW : ReduceSum.WIDTH = 65536 := rfl
  have key : ∀ n : Nat, n ≤ ReduceSum.WIDTH →
      ReduceSum.output n input = ∑ i in Finset.range n, input (i : Int)
      ∧ 0 ≤ ∑ i in Finset.range n, input (i : Int)
      ∧ ∑ i in Finset.range n, input (i : Int) ≤ 4095 * 65536 := by
    intro n hn
    have hb := ReduceSum.sum_bounds n input (fun i hi => hin i (by omega))
    have hn2 : (n : Int) ≤ 65536 := by
      rw [hW] at hn
      exact_mod_cast hn
    have hub : ∑ i in Finset.range n, input (i : Int) ≤ 4095 * 65536 := by linarith [hb.2]
    refine ⟨?_, hb.1, hub⟩
    rw [ReduceSum.output_eq_sum]
    exact wrap32_of_range _ (by linarith [hb.1]) (by linarith)
  obtain ⟨e1, e2, e3⟩ := key k hk
  refine ⟨e1, by rw [e1]; exact e2, by rw [e1]; exact e3, by norm_num, by norm_num, ?_,
    (key _ le_rfl).1, (key _ le_rfl).1⟩
  intro hlt
  obtain ⟨f1, _, f3⟩ := key (k + 1) hlt
  rw [f1, e1, Finset.sum_range_succ]
  refine ⟨rfl, ?_⟩
  rw [← Finset.sum_range_succ]
  exact f3

theorem C38_reduction_no_overflow_witness :
    (∀ i : Nat, i < ReduceSum.WIDTH →
        0 ≤ (fun j : Int => j % 4096) (i : Int) ∧ (fun j : Int => j % 4096) (i : Int) ≤ 0xfff)
    ∧ ReduceSum.WIDTH ≤ ReduceSum.WIDTH
    ∧ ReduceSum.output ReduceSum.WIDTH (fun j : Int => j % 4096)
        = ∑ i in Finset.range ReduceSum.WIDTH, (fun j : Int => j % 4096) (i : Int)
    ∧ 0 ≤ ReduceSum.output ReduceSum.WIDTH (fun j : Int => j % 4096)
    ∧ ReduceSum.output ReduceSum.WIDTH (fun j : Int => j % 4096) ≤ 4095 * 65536 := by
  have hin : ∀ i : Nat, i < ReduceSum.WIDTH →
      0 ≤ (fun j : Int => j % 4096) (i : Int) ∧ (fun j : Int => j % 4096) (i : Int) ≤ 0xfff := by
    intro i _
    simp only
    omega
  have h := C38_reduction_no_overflow (fun j : Int => j % 4096) hin ReduceSum.WIDTH le_rfl
  exact ⟨hin, le_rfl, h.1, h.2.1, h.2.2.1⟩
